import Mathlib

/-!
Verification of the Memory_management_project repository: a shallow embedding
of the two-level set-associative cache simulator (`src/cache/CacheSimulator.cpp`)
and of the contiguous-arena allocator (`src/allocator/MemoryManager.cpp`),
together with theorems settling the frozen claims about them.

Modelling conventions:
* C++ `size_t` values are modelled as `Nat`.  The code never relies on
  64-bit wrap-around on the paths treated here; bit masks of the form
  `x & ((1 << k) - 1)` are modelled as `x % 2 ^ k`, and `x >> k` as
  `Nat.shiftRight`.
* `std::log2` applied to a positive integer and truncated to `size_t` is
  `Nat.log2` (both compute the floor of the base-2 logarithm).
* In-band block headers living inside the arena are modelled as an
  association list from arena offset to header record, kept in ascending
  offset order; absorbed headers are dropped from the list (the C++ leaves
  the stale bytes in place but never reads them through the physical walk).
* The doubly linked free list threaded through the headers is modelled as
  the list of block offsets in list order, head = `freeListHead`.  The C++
  guard `block->prev || block->next || block == freeListHead` in
  `addToFreeList` is equivalent, for pointer-consistent states, to list
  membership, and `removeFromFreeList` is removal of the (unique) node.
* Reads through dangling pointers or out-of-range indices are undefined
  behaviour in the C++; the embedding completes them as no-ops / failures,
  and every theorem that needs to avoid them carries the corresponding
  well-formedness hypothesis.
-/

/-- Replacement policies of the cache simulator (`CacheSimulator.h`). -/
inductive ReplacementPolicy where
  | FIFO
  | LRU
  | LFU
deriving DecidableEq, Repr

/-- One cache line (`CacheSimulator.h`, struct `CacheBlock`). -/
structure CacheBlock where
  valid : Bool
  tag : Nat
  load_time : Nat
  last_access : Nat
  access_count : Nat
deriving DecidableEq, Repr

/-- One cache set (`CacheSimulator.h`, struct `CacheSet`).  The FIFO queue is a
list with head = front; the LRU list is in C++ `std::list` order. -/
structure CacheSet where
  blocks : List CacheBlock
  associativity : Nat
  fifoQueue : List Nat
  lruList : List Nat
deriving DecidableEq, Repr

/-- One cache level (`CacheSimulator.h`, struct `CacheLevel`). -/
structure CacheLevel where
  size : Nat
  block_size : Nat
  associativity : Nat
  num_sets : Nat
  set_index_bits : Nat
  block_offset_bits : Nat
  tag_bits : Nat
  policy : ReplacementPolicy
  levelNum : Nat
  sets : List CacheSet
  hits : Nat
  misses : Nat
  evictions : Nat
  global_time : Nat
deriving DecidableEq, Repr

/-- Result record of one `access` call (`CacheSimulator.h`,
struct `CacheAccessReport`). -/
structure CacheAccessReport where
  l1Hit : Bool
  l2Hit : Bool
  l2Accessed : Bool
  events : List String
deriving DecidableEq, Repr

/-- The two-level simulator (`CacheSimulator.h`). -/
structure CacheSimulator where
  l1_cache : CacheLevel
  l2_cache : CacheLevel
  defaultPolicy : ReplacementPolicy
deriving DecidableEq, Repr

/-- An all-zero invalid cache line, the state produced by `initCacheLevel`
for every line. -/
def defaultCacheBlock : CacheBlock :=
  { valid := false, tag := 0, load_time := 0, last_access := 0, access_count := 0 }

/-- Placeholder set used for out-of-range set indexing (unreachable in
well-formed states; the C++ would index out of bounds). -/
def defaultCacheSet : CacheSet :=
  { blocks := [], associativity := 0, fifoQueue := [], lruList := [] }

/-- Fuel-driven floor base-2 logarithm; with fuel at least `n` it computes
`Nat.log2 n` (see `log2F_eq_log2`) while staying kernel-executable. -/
def log2Aux : Nat → Nat → Nat
  | _, 0 => 0
  | 0, _ + 1 => 0
  | fuel + 1, n + 1 => if 2 ≤ n + 1 then log2Aux fuel ((n + 1) / 2) + 1 else 0

/-- `⌊log₂ n⌋` (0 at 0), the value of `(size_t)std::log2(n)` for positive
`n`; equal to `Nat.log2` by `log2F_eq_log2`. -/
def log2F (n : Nat) : Nat := log2Aux n n

/-- `CacheSimulator::initCacheLevel` (`CacheSimulator.cpp`): derives the
geometry and builds `num_sets` sets of `associativity` invalid lines.
No validation of any kind is performed.  `std::log2` truncated to `size_t`
is the floor base-2 logarithm `log2F` (= `Nat.log2`);
`tag_bits = 64 - set_index_bits - block_offset_bits` uses truncated `Nat`
subtraction (the C++ computes the same value whenever the bit counts do not
exceed 64). -/
def initCacheLevel (levelNum : Nat) (size block_size associativity : Nat)
    (policy : ReplacementPolicy) : CacheLevel :=
  let num_sets := size / (block_size * associativity)
  let block_offset_bits := log2F block_size
  let set_index_bits := log2F num_sets
  { size := size
    block_size := block_size
    associativity := associativity
    num_sets := num_sets
    set_index_bits := set_index_bits
    block_offset_bits := block_offset_bits
    tag_bits := 64 - set_index_bits - block_offset_bits
    policy := policy
    levelNum := levelNum
    sets := List.replicate num_sets
      { blocks := List.replicate associativity defaultCacheBlock
        associativity := associativity
        fifoQueue := []
        lruList := [] }
    hits := 0
    misses := 0
    evictions := 0
    global_time := 0 }

/-- `CacheSimulator::CacheSimulator` (`CacheSimulator.cpp`): initialises both
levels; performs no parameter validation and cannot fail. -/
def mkCacheSimulator (l1_size l1_block_size l1_associativity
    l2_size l2_block_size l2_associativity : Nat)
    (policy : ReplacementPolicy) : CacheSimulator :=
  { l1_cache := initCacheLevel 1 l1_size l1_block_size l1_associativity policy
    l2_cache := initCacheLevel 2 l2_size l2_block_size l2_associativity policy
    defaultPolicy := policy }

/-- `CacheSimulator::extractTag`: `(address >> (index_bits + offset_bits)) & ((1 << tag_bits) - 1)`. -/
def extractTag (level : CacheLevel) (address : Nat) : Nat :=
  (address >>> (level.set_index_bits + level.block_offset_bits)) % 2 ^ level.tag_bits

/-- `CacheSimulator::extractSetIndex`: `(address >> offset_bits) & ((1 << index_bits) - 1)`. -/
def extractSetIndex (level : CacheLevel) (address : Nat) : Nat :=
  (address >>> level.block_offset_bits) % 2 ^ level.set_index_bits

/-- Vector indexing `v[i]` with an explicit default for the out-of-range
case (which would be undefined behaviour in the C++). -/
def listGetD {α : Type} : List α → Nat → α → α
  | [], _, d => d
  | a :: _, 0, _ => a
  | _ :: rest, i + 1, d => listGetD rest i d

/-- The scan loop of `accessLevel` looking for a valid line with the given
tag, returning the first matching index. -/
def findHitIndex (tag : Nat) : List CacheBlock → Nat → Option Nat
  | [], _ => none
  | b :: rest, i => if b.valid && b.tag == tag then some i else findHitIndex tag rest (i + 1)

/-- Replace the element at index `i` (no-op when out of range), mirroring an
in-place write `v[i] = f(v[i])`. -/
def listModify (f : CacheBlock → CacheBlock) : Nat → List CacheBlock → List CacheBlock
  | _, [] => []
  | 0, b :: rest => f b :: rest
  | i + 1, b :: rest => b :: listModify f i rest

/-- The first-minimum scan shared by `findVictimLRU` / `findVictimLFU`:
`victim = 0; best = f blocks[0]; for i in 1.. : if f blocks[i] < best then update`. -/
def scanMinAux (f : CacheBlock → Nat) : List CacheBlock → Nat → Nat → Nat → Nat
  | [], _, victim, _ => victim
  | b :: rest, i, victim, best =>
    if f b < best then scanMinAux f rest (i + 1) i (f b)
    else scanMinAux f rest (i + 1) victim best

/-- First index attaining the minimum of `f` over the list (0 on the empty
list, where the C++ reads out of bounds). -/
def scanMin (f : CacheBlock → Nat) : List CacheBlock → Nat
  | [] => 0
  | b :: rest => scanMinAux f rest 1 0 (f b)

/-- `CacheSimulator::findVictimFIFO`: lazily fill the queue with all indices,
then pop the front and re-enqueue it at the back.  A front-pop on an empty
queue is UB in C++ (only possible for a 0-way set); completed here as 0. -/
def findVictimFIFO (cs : CacheSet) : Nat × CacheSet :=
  let q := if cs.fifoQueue.isEmpty then List.range cs.blocks.length else cs.fifoQueue
  match q with
  | [] => (0, { cs with fifoQueue := q })
  | v :: rest => (v, { cs with fifoQueue := rest ++ [v] })

/-- `CacheSimulator::findVictimLRU`: first line with smallest `last_access`;
`lruList.remove(victim)` removes every occurrence (C++ `std::list::remove`),
then the victim is appended. -/
def findVictimLRU (cs : CacheSet) : Nat × CacheSet :=
  let v := scanMin (fun b => b.last_access) cs.blocks
  (v, { cs with lruList := cs.lruList.filter (fun x => x != v) ++ [v] })

/-- `CacheSimulator::findVictimLFU`: first line with smallest `access_count`;
no auxiliary structure is touched. -/
def findVictimLFU (cs : CacheSet) : Nat := scanMin (fun b => b.access_count) cs.blocks

/-- `CacheSimulator::updateReplacementData`: FIFO does nothing; LRU moves the
index to the back of the recency list and stamps `last_access` with the
level's current `global_time`; LFU increments `access_count`. -/
def updateReplacementData (level : CacheLevel) (cs : CacheSet) (block_index : Nat)
    (policy : ReplacementPolicy) : CacheSet :=
  match policy with
  | .FIFO => cs
  | .LRU =>
    { cs with
      lruList := cs.lruList.filter (fun x => x != block_index) ++ [block_index]
      blocks := listModify (fun b => { b with last_access := level.global_time })
        block_index cs.blocks }
  | .LFU =>
    { cs with
      blocks := listModify (fun b => { b with access_count := b.access_count + 1 })
        block_index cs.blocks }

/-- Lower-case hexadecimal rendering, as produced by `std::hex` on a
nonnegative value. -/
def hexStr (n : Nat) : String := String.mk (Nat.toDigits 16 n)

/-- The eviction notice pushed by `accessLevel`:
`"L" << levelNum << " Eviction: Tag 0x" << hex tag << " (Set " << set_index << ")"`. -/
def evictionEvent (levelNum tag set_index : Nat) : String :=
  "L" ++ toString levelNum ++ " Eviction: Tag 0x" ++ hexStr tag ++
    " (Set " ++ toString set_index ++ ")"

/-- The invalid-slot scan of `accessLevel`'s fill path: index of the first
line with `valid == false`. -/
def firstInvalidIdx : List CacheBlock → Nat → Option Nat
  | [], _ => none
  | b :: rest, i => if !b.valid then some i else firstInvalidIdx rest (i + 1)

/-- The victim-selection part of `accessLevel`'s fill path: prefer the first
invalid slot (sentinel `associativity` when none, exactly as the C++ loop
leaves `victim_index`); on a full set consult the policy, count the eviction
and log the event with the victim's old tag. -/
def pickVictim (level : CacheLevel) (cs : CacheSet) (set_index : Nat)
    (report : CacheAccessReport) : Nat × CacheSet × CacheLevel × CacheAccessReport :=
  let victim_index := (firstInvalidIdx cs.blocks 0).getD cs.associativity
  if victim_index == cs.associativity then
    let vcs : Nat × CacheSet :=
      match level.policy with
      | .FIFO => findVictimFIFO cs
      | .LRU => findVictimLRU cs
      | .LFU => (findVictimLFU cs, cs)
    let level := { level with evictions := level.evictions + 1 }
    let report :=
      { report with
        events := report.events ++
          [evictionEvent level.levelNum ((listGetD vcs.2.blocks vcs.1 defaultCacheBlock).tag)
            set_index] }
    (vcs.1, vcs.2, level, report)
  else (victim_index, cs, level, report)

/-- The line installation of `accessLevel`'s fill:
`valid = true, tag = new, load_time = last_access = now, access_count = 1`. -/
def fillLine (tag now : Nat) (b : CacheBlock) : CacheBlock :=
  { b with valid := true, tag := tag, load_time := now, last_access := now, access_count := 1 }

/-- `CacheSimulator::accessLevel`.  Counting probes (`update_stats`) bump
`global_time` first and then exactly one of `hits`/`misses`; fills
(`allocate`) install the tag into the victim slot with
`load_time = last_access = global_time` and `access_count = 1`, then run
`updateReplacementData` on the slot.  Returns the updated level, the updated
report and the hit flag. -/
def accessLevel (level : CacheLevel) (physical_address : Nat)
    (report : CacheAccessReport) (update_stats allocate : Bool) :
    CacheLevel × CacheAccessReport × Bool :=
  let level := if update_stats then { level with global_time := level.global_time + 1 } else level
  let tag := extractTag level physical_address
  let set_index := extractSetIndex level physical_address
  if level.sets.length ≤ set_index then (level, report, false)
  else
    let cs := listGetD level.sets set_index defaultCacheSet
    match findHitIndex tag cs.blocks 0 with
    | some i =>
      if update_stats then
        let level := { level with hits := level.hits + 1 }
        let cs := updateReplacementData level cs i level.policy
        ({ level with sets := level.sets.set set_index cs }, report, true)
      else (level, report, true)
    | none =>
      let level := if update_stats then { level with misses := level.misses + 1 } else level
      if !allocate then (level, report, false)
      else
        let pv := pickVictim level cs set_index report
        let victim_index := pv.1
        let cs := pv.2.1
        let level := pv.2.2.1
        let report := pv.2.2.2
        let cs :=
          { cs with blocks := listModify (fillLine tag level.global_time) victim_index cs.blocks }
        let cs := updateReplacementData level cs victim_index level.policy
        ({ level with sets := level.sets.set set_index cs }, report, false)

/-- `CacheSimulator::access`: probe L1 counting; on miss probe L2 counting;
then fill the missing levels without counting (L2 before L1 on a double
miss). -/
def access (sim : CacheSimulator) (physical_address : Nat) :
    CacheSimulator × CacheAccessReport :=
  let report : CacheAccessReport :=
    { l1Hit := false, l2Hit := false, l2Accessed := false, events := [] }
  let r1 := accessLevel sim.l1_cache physical_address report true false
  let l1 := r1.1
  let report := { r1.2.1 with l1Hit := r1.2.2 }
  if r1.2.2 then ({ sim with l1_cache := l1 }, report)
  else
    let report := { report with l2Accessed := true }
    let r2 := accessLevel sim.l2_cache physical_address report true false
    let l2 := r2.1
    let report := { r2.2.1 with l2Hit := r2.2.2 }
    if r2.2.2 then
      let rf := accessLevel l1 physical_address report false true
      ({ sim with l1_cache := rf.1, l2_cache := l2 }, rf.2.1)
    else
      let rf2 := accessLevel l2 physical_address report false true
      let rf1 := accessLevel l1 physical_address rf2.2.1 false true
      ({ sim with l1_cache := rf1.1, l2_cache := rf2.1 }, rf1.2.1)

/-- Fold a list of addresses through `access`, collecting the reports in
order (the CLI issues `access` commands one at a time). -/
def runAccesses (sim : CacheSimulator) : List Nat → CacheSimulator × List CacheAccessReport
  | [] => (sim, [])
  | a :: rest =>
    let r := access sim a
    let rs := runAccesses r.1 rest
    (rs.1, r.2 :: rs.2)

/-! ## Allocator (`src/allocator/MemoryManager.cpp`) -/

/-- Placement strategies (`MemoryManager.h`). -/
inductive AllocationStrategy where
  | FIRST_FIT
  | BEST_FIT
  | WORST_FIT
deriving DecidableEq, Repr

/-- The observable fields of a `BlockHeader` (`MemoryManager.h`).  The
`next`/`prev` free-list pointers are represented separately by the state's
`freeList` (see the file comment). -/
structure BlockHeader where
  size : Nat
  is_free : Bool
  block_id : Nat
deriving DecidableEq, Repr

/-- The in-band headers of the arena: an association list from arena offset
to header, kept in ascending offset order (the physical order the C++
reaches by pointer arithmetic). -/
abbrev BlockMap := List (Nat × BlockHeader)

/-- `sizeof(BlockHeader)` for the build the Makefile describes (g++ on an
LP64 platform, Itanium ABI): `size_t size` (8) + `bool is_free` (1, padded
to 8 for the following `size_t`) + `size_t block_id` (8) + two pointers
(8 + 8) = 40 bytes.  The spec document instead posits 32; no standard ABI
for this struct yields 32 (any 64-bit ABI gives 40, a 32-bit one gives 20). -/
def headerSize : Nat := 40

/-- Read the header at an arena offset (dereferencing a `BlockHeader*`). -/
def lookupBlock : BlockMap → Nat → Option BlockHeader
  | [], _ => none
  | (o, b) :: rest, k => if o == k then some b else lookupBlock rest k

/-- Overwrite header fields at an offset in place (no-op on an absent
offset, which for the C++ would be a write through a dangling pointer). -/
def updateBlock : BlockMap → Nat → (BlockHeader → BlockHeader) → BlockMap
  | [], _, _ => []
  | (o, b) :: rest, k, f =>
    if o == k then (o, f b) :: rest else (o, b) :: updateBlock rest k f

/-- Drop the header at an offset (the bytes of an absorbed header stay in
the C++ arena but are never reached again by offset arithmetic). -/
def eraseBlock : BlockMap → Nat → BlockMap
  | [], _ => []
  | (o, b) :: rest, k => if o == k then rest else (o, b) :: eraseBlock rest k

/-- Write a fresh header at an offset, keeping ascending offset order
(`splitBlock` laying a header down in the middle of an existing block). -/
def insertBlock : BlockMap → Nat → BlockHeader → BlockMap
  | [], k, nb => [(k, nb)]
  | (o, b) :: rest, k, nb =>
    if k < o then (k, nb) :: (o, b) :: rest else (o, b) :: insertBlock rest k nb

/-- `std::map` lookup (`addressToHeader`, `idToHeader`, `idToRequestedSize`
store offsets/sizes as values; pointers are arena offsets). -/
def mapFind : List (Nat × Nat) → Nat → Option Nat
  | [], _ => none
  | (k, v) :: rest, key => if k == key then some v else mapFind rest key

/-- `std::map::erase` by key. -/
def mapErase (m : List (Nat × Nat)) (key : Nat) : List (Nat × Nat) :=
  m.filter (fun p => p.1 != key)

/-- `std::map` insert-or-assign (`m[k] = v`). -/
def mapInsert (m : List (Nat × Nat)) (key v : Nat) : List (Nat × Nat) :=
  (key, v) :: mapErase m key

/-- Result kinds of `MemoryManager::deallocate`.  The C++ returns a bare
`bool`; the spec's error kinds name its two failure paths: `notFound` for a
reference that does not resolve (`isValidPointer`/map lookup failure) and
`doubleFree` for a resolved block whose `is_free` is already set. -/
inductive FreeResult where
  | ok
  | notFound
  | doubleFree
deriving DecidableEq, Repr

/-- The allocator state (`MemoryManager.h`, private members). -/
structure MMState where
  totalMemorySize : Nat
  currentStrategy : AllocationStrategy
  blocks : BlockMap
  freeList : List Nat
  nextBlockId : Nat
  addressToHeader : List (Nat × Nat)
  idToHeader : List (Nat × Nat)
  idToRequestedSize : List (Nat × Nat)
  allocationSuccessCount : Nat
  allocationFailureCount : Nat
  totalRequestedSize : Nat
  totalAllocatedSize : Nat
deriving DecidableEq, Repr

/-- `MemoryManager::MemoryManager` + `initializeMemory`: one free block of
size `totalSize` with sentinel id 0 covering the whole arena; the free list
holds it; `addressToHeader` maps the block's own offset (not a user
pointer) to it. -/
def mkMemoryManager (totalSize : Nat) (strategy : AllocationStrategy) : MMState :=
  { totalMemorySize := totalSize
    currentStrategy := strategy
    blocks := [(0, { size := totalSize, is_free := true, block_id := 0 })]
    freeList := [0]
    nextBlockId := 1
    addressToHeader := [(0, 0)]
    idToHeader := []
    idToRequestedSize := []
    allocationSuccessCount := 0
    allocationFailureCount := 0
    totalRequestedSize := 0
    totalAllocatedSize := 0 }

/-- `MemoryManager::removeFromFreeList`: unlink the (unique) node. -/
def removeFromFreeList (s : MMState) (o : Nat) : MMState :=
  { s with freeList := s.freeList.erase o }

/-- `MemoryManager::addToFreeList`: if the block is already linked
(equivalently, for pointer-consistent states: already a member), unlink it
first; then push it at the head. -/
def addToFreeList (s : MMState) (o : Nat) : MMState :=
  let s := if s.freeList.contains o then removeFromFreeList s o else s
  { s with freeList := o :: s.freeList }

/-- `MemoryManager::findFirstFit`: walk the free list from the head and
return the first block with `is_free && size >= requested` (together with
the header just read).  A dangling free-list entry would be a C++
wild read; it is skipped here and excluded by well-formedness. -/
def findFirstFitAux (blocks : BlockMap) (sz : Nat) : List Nat → Option (Nat × BlockHeader)
  | [] => none
  | o :: rest =>
    match lookupBlock blocks o with
    | some b => if b.is_free && sz ≤ b.size then some (o, b) else findFirstFitAux blocks sz rest
    | none => findFirstFitAux blocks sz rest

/-- See `findFirstFitAux`. -/
def findFirstFit (s : MMState) (sz : Nat) : Option (Nat × BlockHeader) :=
  findFirstFitAux s.blocks sz s.freeList

/-- `MemoryManager::findBestFit`: scan at most `maxIterations = 10000`
free-list entries, keeping the fitting block of strictly smallest size seen
so far (ties keep the earlier entry). -/
def findBestFitAux (blocks : BlockMap) (sz : Nat) :
    List Nat → Nat → Option (Nat × BlockHeader) → Option (Nat × BlockHeader)
  | _, 0, best => best
  | [], _, best => best
  | o :: rest, fuel + 1, best =>
    let best' :=
      match lookupBlock blocks o with
      | some b =>
        if b.is_free && sz ≤ b.size then
          match best with
          | none => some (o, b)
          | some ob => if b.size < ob.2.size then some (o, b) else best
        else best
      | none => best
    findBestFitAux blocks sz rest fuel best'

/-- See `findBestFitAux`. -/
def findBestFit (s : MMState) (sz : Nat) : Option (Nat × BlockHeader) :=
  findBestFitAux s.blocks sz s.freeList 10000 none

/-- `MemoryManager::findWorstFit`: uncapped scan keeping the fitting block
of strictly largest size (ties keep the earlier entry). -/
def findWorstFitAux (blocks : BlockMap) (sz : Nat) :
    List Nat → Option (Nat × BlockHeader) → Option (Nat × BlockHeader)
  | [], best => best
  | o :: rest, best =>
    let best' :=
      match lookupBlock blocks o with
      | some b =>
        if b.is_free && sz ≤ b.size then
          match best with
          | none => some (o, b)
          | some ob => if ob.2.size < b.size then some (o, b) else best
        else best
      | none => best
    findWorstFitAux blocks sz rest best'

/-- See `findWorstFitAux`. -/
def findWorstFit (s : MMState) (sz : Nat) : Option (Nat × BlockHeader) :=
  findWorstFitAux s.blocks sz s.freeList none

/-- `MemoryManager::splitBlock`: if the remainder is at least
`sizeof(BlockHeader) + 8`, lay a fresh free header (sentinel id 0) at
`offset + requestedSize`, shrink the block to `requestedSize`, and push the
remainder onto the free list.  `b` is the header the caller just read. -/
def splitBlock (s : MMState) (o : Nat) (b : BlockHeader) (requestedSize : Nat) : MMState :=
  let remainingSize := b.size - requestedSize
  if remainingSize < headerSize + 8 then s
  else
    let newOff := o + requestedSize
    let shrunk := updateBlock s.blocks o (fun h => { h with size := requestedSize })
    let withNew := insertBlock shrunk newOff { size := remainingSize, is_free := true, block_id := 0 }
    let s := { s with blocks := withNew }
    addToFreeList s newOff

/-- `MemoryManager::allocate`: reject size 0; compute
`requiredSize = size + sizeof(BlockHeader)`; pick a block by the current
strategy; split when `size >= requiredSize + sizeof(BlockHeader) + 8`;
mark the block used with the next id; unlink it from the free list; record
the user pointer `offset + sizeof(BlockHeader)` and the id maps.  Returns
the new state and the user pointer (`none` = `nullptr`). -/
def allocate (s : MMState) (sz : Nat) : MMState × Option Nat :=
  if sz == 0 then
    ({ s with allocationFailureCount := s.allocationFailureCount + 1 }, none)
  else
    let requiredSize := sz + headerSize
    let s := { s with totalRequestedSize := s.totalRequestedSize + sz }
    let found :=
      match s.currentStrategy with
      | .FIRST_FIT => findFirstFit s requiredSize
      | .BEST_FIT => findBestFit s requiredSize
      | .WORST_FIT => findWorstFit s requiredSize
    match found with
    | none => ({ s with allocationFailureCount := s.allocationFailureCount + 1 }, none)
    | some (o, b) =>
      let s := if requiredSize + headerSize + 8 ≤ b.size then splitBlock s o b requiredSize else s
      let newSize := if requiredSize + headerSize + 8 ≤ b.size then requiredSize else b.size
      let bid := s.nextBlockId
      let s :=
        { s with
          blocks := updateBlock s.blocks o (fun h => { h with is_free := false, block_id := bid })
          nextBlockId := bid + 1 }
      let s := removeFromFreeList s o
      let userPtr := o + headerSize
      let s :=
        { s with
          addressToHeader := mapInsert s.addressToHeader userPtr o
          idToHeader := mapInsert s.idToHeader bid o
          idToRequestedSize := mapInsert s.idToRequestedSize bid sz
          totalAllocatedSize := s.totalAllocatedSize + (newSize - headerSize)
          allocationSuccessCount := s.allocationSuccessCount + 1 }
      (s, some userPtr)

/-- The predecessor search of `coalesceBlocks`: walk the physical blocks
from offset 0 (`firstBlock`), looking for one whose end equals
`blockStart`; give up after `maxIterations = 10000` loop entries, when the
walk reaches `blockStart` itself, or when the next offset leaves the arena. -/
def findPrevAux (blocks : BlockMap) (M blockStart : Nat) : Nat → Nat → Option Nat
  | _, 0 => none
  | cur, fuel + 1 =>
    if cur == blockStart then none
    else
      match lookupBlock blocks cur with
      | none => none
      | some b =>
        if cur + b.size == blockStart then some cur
        else if cur + b.size < M then findPrevAux blocks M blockStart (cur + b.size) fuel
        else none

/-- One pass of `MemoryManager::coalesceBlocks` on the block at offset `o`:
absorb the physically next block when it is free; then search for the
physical predecessor (capped at 10000 iterations) and, when it is free,
absorb the current block into it.  Returns the new state and
`some prev` when the C++ would recurse on `prev`. -/
def coalesceStep (s : MMState) (o : Nat) : MMState × Option Nat :=
  match lookupBlock s.blocks o with
  | none => (s, none)
  | some b =>
    let s :=
      if o + b.size < s.totalMemorySize then
        match lookupBlock s.blocks (o + b.size) with
        | some nb =>
          if nb.is_free then
            let s := removeFromFreeList s (o + b.size)
            let grown := updateBlock s.blocks o (fun h => { h with size := h.size + nb.size })
            { s with blocks := eraseBlock grown (o + b.size) }
          else s
        | none => s
      else s
    let bsize := ((lookupBlock s.blocks o).map (fun h => h.size)).getD 0
    match findPrevAux s.blocks s.totalMemorySize o 0 10000 with
    | none => (s, none)
    | some p =>
      match lookupBlock s.blocks p with
      | some pb =>
        if pb.is_free then
          let s := removeFromFreeList s o
          let s :=
            { s with blocks :=
                eraseBlock (updateBlock s.blocks p (fun h => { h with size := h.size + bsize })) o }
          (s, some p)
        else (s, none)
      | none => (s, none)

/-- `MemoryManager::coalesceBlocks` with its self-recursion unrolled on a
fuel argument; callers pass `totalMemorySize`, which dominates the possible
recursion depth (each recursive call moves to a strictly smaller offset). -/
def coalesceBlocks (fuel : Nat) (s : MMState) (o : Nat) : MMState :=
  match fuel, coalesceStep s o with
  | _, (s', none) => s'
  | 0, (s', some _) => s'
  | fuel + 1, (s', some p) => coalesceBlocks fuel s' p

/-- `MemoryManager::deallocate(void*)`: validate the pointer range, resolve
it through `addressToHeader`, reject an already-free block; otherwise mark
the block free, uncount it, push it on the free list, coalesce, and erase
the address/id tracking entries. -/
def deallocatePtr (s : MMState) (ptr : Nat) : MMState × FreeResult :=
  if s.totalMemorySize ≤ ptr then (s, .notFound)
  else
    match mapFind s.addressToHeader ptr with
    | none => (s, .notFound)
    | some o =>
      match lookupBlock s.blocks o with
      | none => (s, .notFound)
      | some b =>
        if b.is_free then (s, .doubleFree)
        else
          let s :=
            { s with
              blocks := updateBlock s.blocks o (fun h => { h with is_free := true })
              totalAllocatedSize := s.totalAllocatedSize - (b.size - headerSize)
              idToRequestedSize := mapErase s.idToRequestedSize b.block_id }
          let s := addToFreeList s o
          let s := coalesceBlocks s.totalMemorySize s o
          let s :=
            { s with
              addressToHeader := mapErase s.addressToHeader ptr
              idToHeader := mapErase s.idToHeader b.block_id }
          (s, .ok)

/-- `MemoryManager::deallocate(size_t block_id)`: resolve the id to its
block and free through the user pointer `offset + sizeof(BlockHeader)`. -/
def deallocateById (s : MMState) (block_id : Nat) : MMState × FreeResult :=
  match mapFind s.idToHeader block_id with
  | none => (s, .notFound)
  | some o => deallocatePtr s (o + headerSize)

/-- The resolution procedure of `deallocate(void*)` factored out:
`isValidPointer` range check, then `getHeader`'s `addressToHeader` lookup,
then the header read.  An address "names a currently-allocated block"
exactly when this returns a header with `is_free = false`. -/
def resolvePtr (s : MMState) (ptr : Nat) : Option BlockHeader :=
  if s.totalMemorySize ≤ ptr then none
  else
    match mapFind s.addressToHeader ptr with
    | none => none
    | some o => lookupBlock s.blocks o

/-- The resolution procedure of `deallocate(size_t)`: the `idToHeader`
lookup followed by pointer resolution of `offset + sizeof(BlockHeader)`. -/
def resolveId (s : MMState) (block_id : Nat) : Option BlockHeader :=
  match mapFind s.idToHeader block_id with
  | none => none
  | some o => resolvePtr s (o + headerSize)

/-- The physical walk shared by `getLargestFreeBlock`,
`getExternalFragmentation` and `dumpMemory`: start at offset 0, follow
`address += current->size` while `address < totalMemorySize`, visiting at
most `fuel` blocks (the C++ observers cap this at `maxIterations = 1000`). -/
def walkAux (blocks : BlockMap) (M : Nat) : Nat → Nat → List (Nat × BlockHeader)
  | _, 0 => []
  | addr, fuel + 1 =>
    match lookupBlock blocks addr with
    | none => []
    | some b =>
      (addr, b) :: (if addr + b.size < M then walkAux blocks M (addr + b.size) fuel else [])

/-- The capped physical walk from `firstBlock` (the loop also requires the
initial `address < totalMemorySize`). -/
def walkBlocks (blocks : BlockMap) (M cap : Nat) : List (Nat × BlockHeader) :=
  if 0 < M then walkAux blocks M 0 cap else []

/-- The fold of `getLargestFreeBlock` over a visited block list:
`if (is_free && size > largest) largest = size`. -/
def largestFreeOf (l : List (Nat × BlockHeader)) : Nat :=
  l.foldl (fun acc p => if p.2.is_free && acc < p.2.size then p.2.size else acc) 0

/-- `MemoryManager::getLargestFreeBlock`: largest `size` among the free
blocks of the capped physical walk (cap 1000). -/
def getLargestFreeBlock (s : MMState) : Nat :=
  largestFreeOf (walkBlocks s.blocks s.totalMemorySize 1000)

/-- The accumulator pair of `getExternalFragmentation`'s loop:
`(totalFreeUsable, largestFreeUsable)`, where usable = `size - sizeof(BlockHeader)`.
The final floating-point percentage is out of scope; the loop's integer
content is what the claim speaks about. -/
def extFragTotalsOf (l : List (Nat × BlockHeader)) : Nat × Nat :=
  l.foldl
    (fun acc p =>
      if p.2.is_free then
        let usable := p.2.size - headerSize
        (acc.1 + usable, if acc.2 < usable then usable else acc.2)
      else acc)
    (0, 0)

/-- `MemoryManager::getExternalFragmentation`, up to its final `double`
division: the loop totals over the capped physical walk (cap 1000). -/
def getExternalFragTotals (s : MMState) : Nat × Nat :=
  extFragTotalsOf (walkBlocks s.blocks s.totalMemorySize 1000)

/-- One line of `dumpMemory`'s output, with the hex rendering of the
offset range left symbolic (`[addr, addr + size - 1]`, FREE/USED, id,
usable size). -/
structure DumpEntry where
  addr : Nat
  size : Nat
  is_free : Bool
  block_id : Nat
deriving DecidableEq, Repr

/-- The entry list printed by a visited block list. -/
def dumpEntriesOf (l : List (Nat × BlockHeader)) : List DumpEntry :=
  l.map (fun p => { addr := p.1, size := p.2.size, is_free := p.2.is_free, block_id := p.2.block_id })

/-- `MemoryManager::dumpMemory`: the printed entries come from the capped
physical walk (cap 1000). -/
def dumpMemory (s : MMState) : List DumpEntry :=
  dumpEntriesOf (walkBlocks s.blocks s.totalMemorySize 1000)

/-! ## Specification-side predicates and well-formedness -/

/-- `n` is a positive power of two. -/
def isPowTwo (n : Nat) : Bool := n != 0 && 2 ^ log2F n == n

/-- Modelled from the spec's parameter-validation sentence (the source
constructor performs no such check): `block_size`, `associativity`,
`num_sets` positive powers of two, `block_size` divides `cache_size`,
`num_sets >= 1`. -/
def specValidGeometry (cache_size block_size associativity : Nat) : Bool :=
  let num_sets := cache_size / (block_size * associativity)
  isPowTwo block_size && isPowTwo associativity && isPowTwo num_sets &&
    (block_size != 0 && cache_size % block_size == 0) && (num_sets != 0)

/-- Geometry consistency of a level as established by `initCacheLevel` for
any usable configuration: every decoded set index is in range.  (With
`set_index_bits = log2 num_sets` and `num_sets >= 1` this always holds,
since `2 ^ log2 n <= n`.) -/
def levelGeomWF (l : CacheLevel) : Prop := 2 ^ l.set_index_bits ≤ l.sets.length

instance decLevelGeomWF (l : CacheLevel) : Decidable (levelGeomWF l) :=
  inferInstanceAs (Decidable (2 ^ l.set_index_bits ≤ l.sets.length))

/-- Structural consistency of one set: the line vector has exactly
`associativity >= 1` entries and any queued FIFO index is in range. -/
def setWF (cs : CacheSet) : Prop :=
  cs.blocks.length = cs.associativity ∧ 0 < cs.associativity ∧
    ∀ i ∈ cs.fifoQueue, i < cs.blocks.length

instance decSetWF (cs : CacheSet) : Decidable (setWF cs) :=
  inferInstanceAs (Decidable (_ ∧ _ ∧ ∀ i ∈ cs.fifoQueue, i < cs.blocks.length))

/-- All sets of a level are structurally consistent. -/
def levelSetsWF (l : CacheLevel) : Prop := ∀ cs ∈ l.sets, setWF cs

instance decLevelSetsWF (l : CacheLevel) : Decidable (levelSetsWF l) :=
  inferInstanceAs (Decidable (∀ cs ∈ l.sets, setWF cs))

/-- Every line's `last_access` stamp is at most the level's `global_time`
(stamps are only ever written with the current `global_time`). -/
def lastAccessLe (l : CacheLevel) : Prop :=
  ∀ cs ∈ l.sets, ∀ b ∈ cs.blocks, b.last_access ≤ l.global_time

instance decLastAccessLe (l : CacheLevel) : Decidable (lastAccessLe l) :=
  inferInstanceAs (Decidable (∀ cs ∈ l.sets, ∀ b ∈ cs.blocks, b.last_access ≤ l.global_time))

/-- After an access to `a`, some line of the addressed set holds `a`'s tag
and carries the (weakly) largest `last_access` of that set. -/
def tagIsMRU (level : CacheLevel) (a : Nat) : Prop :=
  ∃ i, i < (listGetD level.sets (extractSetIndex level a) defaultCacheSet).blocks.length ∧
    (listGetD (listGetD level.sets (extractSetIndex level a) defaultCacheSet).blocks i
      defaultCacheBlock).valid = true ∧
    (listGetD (listGetD level.sets (extractSetIndex level a) defaultCacheSet).blocks i
      defaultCacheBlock).tag = extractTag level a ∧
    ∀ b ∈ (listGetD level.sets (extractSetIndex level a) defaultCacheSet).blocks,
      b.last_access ≤
        (listGetD (listGetD level.sets (extractSetIndex level a) defaultCacheSet).blocks i
          defaultCacheBlock).last_access

/-- The header list is the physical partition of `[a, M)`: offsets are
consecutive (`o_0 = a`, `o_(i+1) = o_i + size_i`), sizes are positive, and
the last block ends exactly at `M`.  This is the spec's coverage invariant. -/
def chainB : Nat → BlockMap → Nat → Bool
  | a, [], M => a == M
  | a, (o, b) :: rest, M => o == a && b.size != 0 && chainB (a + b.size) rest M

/-- No two physically adjacent blocks are both free. -/
def noAdjFree (m : BlockMap) : Prop :=
  ∀ p ∈ m, ∀ q ∈ m, p.1 + p.2.size = q.1 → ¬(p.2.is_free = true ∧ q.2.is_free = true)

instance decNoAdjFree (m : BlockMap) : Decidable (noAdjFree m) :=
  inferInstanceAs (Decidable (∀ p ∈ m, ∀ q ∈ m, _ → ¬(_ ∧ _)))

/-- A free-list entry that a fit scan would accept for request `r`. -/
def fitsB (blocks : BlockMap) (r o : Nat) : Bool :=
  match lookupBlock blocks o with
  | some b => b.is_free && r ≤ b.size
  | none => false

/-- The physical block layout: offset, size and free/used status of every
block (ids, free-list order and bookkeeping maps projected away). -/
def layout (s : MMState) : List (Nat × Nat × Bool) :=
  s.blocks.map (fun p => (p.1, p.2.size, p.2.is_free))

/-- The uncapped version of `findBestFit`'s scan, used to express that the
capped scan inspects only a prefix of the free list. -/
def bestFitScanAll (blocks : BlockMap) (sz : Nat) :
    List Nat → Option (Nat × BlockHeader) → Option (Nat × BlockHeader)
  | [], best => best
  | o :: rest, best =>
    let best' :=
      match lookupBlock blocks o with
      | some b =>
        if b.is_free && sz ≤ b.size then
          match best with
          | none => some (o, b)
          | some ob => if b.size < ob.2.size then some (o, b) else best
        else best
      | none => best
    bestFitScanAll blocks sz rest best'

/-! ## Concrete scenario states -/

/-- The First-Fit state of the C3 scenario: from a fresh 4096-byte arena,
`malloc 100` three times (ids 1,2,3 at offsets 0,140,280), then free id 1
(pointer 40) and id 3 (pointer 320).  The resulting free list is
`[280, 0]` while the physical layout has free blocks at offsets 0 (140
bytes) and 280 (3816 bytes). -/
def c3Pre : MMState :=
  let s := mkMemoryManager 4096 .FIRST_FIT
  let s := (allocate s 100).1
  let s := (allocate s 100).1
  let s := (allocate s 100).1
  let s := (deallocatePtr s 40).1
  (deallocatePtr s 320).1

/-- Scenario 1 of the spec on a fresh 4096-byte Best-Fit arena:
`malloc 100`. -/
def c9A : MMState × Option Nat := allocate (mkMemoryManager 4096 .BEST_FIT) 100

/-- ... then `malloc 200`. -/
def c9B : MMState × Option Nat := allocate c9A.1 200

/-- ... then `free` of block 1 (its user pointer is offset 40). -/
def c9C : MMState × FreeResult := deallocatePtr c9B.1 40

/-- ... then `malloc 50`. -/
def c9D : MMState × Option Nat := allocate c9C.1 50

/-- An allocated 48-byte header (the smallest block `malloc 8` produces
under `sizeof(BlockHeader) = 40`). -/
def usedHdr (id : Nat) : BlockHeader := { size := 48, is_free := false, block_id := id }

/-- `k` consecutive allocated 48-byte blocks starting at offset `o`. -/
def uniRun : Nat → Nat → BlockMap
  | 0, _ => []
  | k + 1, o => (o, usedHdr 1) :: uniRun k (o + 48)

/-- The pre-state of the C5 counterexample: 10000 allocated 48-byte blocks
at offsets 0, 48, ..., 479952, one free 48-byte block at 480000, and one
allocated 48-byte block (id 777, user pointer 480088) at 480048; arena size
480096.  More than 10000 physical blocks precede the block at 480048, so
`coalesceBlocks`' capped predecessor search cannot reach its free left
neighbour. -/
def c5Pre : MMState :=
  { totalMemorySize := 480096
    currentStrategy := .FIRST_FIT
    blocks := uniRun 10000 0 ++
      [(480000, { size := 48, is_free := true, block_id := 0 }),
       (480048, { size := 48, is_free := false, block_id := 777 })]
    freeList := [480000]
    nextBlockId := 778
    addressToHeader := [(480088, 480048)]
    idToHeader := [(777, 480048)]
    idToRequestedSize := [(777, 8)]
    allocationSuccessCount := 0
    allocationFailureCount := 0
    totalRequestedSize := 0
    totalAllocatedSize := 0 }

/-- The block map after freeing pointer 480088 in `c5Pre`: the block at
480048 is marked free and — because the capped predecessor search cannot
reach offset 480000 past the 10000 preceding blocks — it is *not* merged
with its free left neighbour. -/
def c5Post : BlockMap :=
  uniRun 10000 0 ++
    [(480000, { size := 48, is_free := true, block_id := 0 }),
     (480048, { size := 48, is_free := true, block_id := 777 })]

/-! ## Theorems -/

theorem log2Aux_eq_log2 (fuel : Nat) : ∀ n, n ≤ fuel → log2Aux fuel n = Nat.log2 n := by
  induction fuel with
  | zero =>
    intro n hn
    have h0 : n = 0 := Nat.le_zero.mp hn
    subst h0
    rw [Nat.log2]
    rfl
  | succ fuel ih =>
    intro n hn
    match n with
    | 0 => rw [Nat.log2]; rfl
    | m + 1 =>
      rw [Nat.log2]
      show (if 2 ≤ m + 1 then log2Aux fuel ((m + 1) / 2) + 1 else 0) =
        if m + 1 ≥ 2 then Nat.log2 ((m + 1) / 2) + 1 else 0
      by_cases h2 : 2 ≤ m + 1
      · have hd : (m + 1) / 2 ≤ fuel := by
          have hlt : (m + 1) / 2 < m + 1 := Nat.div_lt_self (Nat.succ_pos m) (by omega)
          omega
        simp [h2, ge_iff_le, ih _ hd]
      · simp [h2, ge_iff_le]

theorem log2F_eq_log2 (n : Nat) : log2F n = Nat.log2 n :=
  log2Aux_eq_log2 n n (Nat.le_refl n)

theorem two_pow_log2F_le {n : Nat} (h : n ≠ 0) : 2 ^ log2F n ≤ n := by
  rw [log2F_eq_log2]
  exact Nat.log2_self_le h

/-- C1 (counterexample): the claim says an invalid geometry fails
construction with `BadGeometry`; but the source constructor validates
nothing and cannot fail.  Concretely, `block_size = 3` is not a power of
two (so the spec predicate rejects the geometry), yet construction yields a
fully formed cache instance with `num_sets = 48 / (3 * 1) = 16`. -/
theorem C1_counterexample :
    specValidGeometry 48 3 1 = false ∧
    (mkCacheSimulator 48 3 1 1024 64 4 .FIFO).l1_cache.num_sets = 16 ∧
    (mkCacheSimulator 48 3 1 1024 64 4 .FIFO).l1_cache.sets.length = 16 ∧
    (mkCacheSimulator 48 3 1 1024 64 4 .FIFO).l1_cache.block_size = 3 := by
  refine ⟨by decide, rfl, by decide, rfl⟩

/-- C1 (amended): construction performs no geometry validation and never
fails: for every parameter set whose per-level `block_size * associativity`
is nonzero (zero would be a C++ division by zero), `CacheSimulator`
construction produces an instance whose derived fields follow the
`initCacheLevel` formulas — valid or not. -/
theorem C1_no_geometry_validation (l1s l1b l1a l2s l2b l2a : Nat) (p : ReplacementPolicy)
    (h1 : 0 < l1b * l1a) (h2 : 0 < l2b * l2a) :
    (mkCacheSimulator l1s l1b l1a l2s l2b l2a p).l1_cache.num_sets = l1s / (l1b * l1a) ∧
    (mkCacheSimulator l1s l1b l1a l2s l2b l2a p).l1_cache.sets.length = l1s / (l1b * l1a) ∧
    (mkCacheSimulator l1s l1b l1a l2s l2b l2a p).l1_cache.block_offset_bits = Nat.log2 l1b ∧
    (mkCacheSimulator l1s l1b l1a l2s l2b l2a p).l1_cache.set_index_bits =
      Nat.log2 (l1s / (l1b * l1a)) ∧
    (mkCacheSimulator l1s l1b l1a l2s l2b l2a p).l2_cache.num_sets = l2s / (l2b * l2a) ∧
    (mkCacheSimulator l1s l1b l1a l2s l2b l2a p).l2_cache.sets.length = l2s / (l2b * l2a) ∧
    (mkCacheSimulator l1s l1b l1a l2s l2b l2a p).l2_cache.block_offset_bits = Nat.log2 l2b ∧
    (mkCacheSimulator l1s l1b l1a l2s l2b l2a p).l2_cache.set_index_bits =
      Nat.log2 (l2s / (l2b * l2a)) := by
  refine ⟨rfl, ?_, ?_, ?_, rfl, ?_, ?_, ?_⟩ <;>
    simp [mkCacheSimulator, initCacheLevel, log2F_eq_log2]

/-- C1 (witness): the amended theorem applied to the concrete invalid
geometry of the counterexample. -/
theorem C1_no_geometry_validation_witness :
    0 < 3 * 1 ∧ (mkCacheSimulator 48 3 1 1024 64 4 .FIFO).l1_cache.num_sets = 48 / (3 * 1) :=
  ⟨by decide, (C1_no_geometry_validation 48 3 1 1024 64 4 .FIFO (by decide) (by decide)).1⟩

theorem listGetD_mem {α : Type} (l : List α) (i : Nat) (d : α) (h : i < l.length) :
    listGetD l i d ∈ l := by
  induction l generalizing i with
  | nil => simp at h
  | cons a rest ih =>
    match i with
    | 0 => simp [listGetD]
    | k + 1 =>
      have hk : k < rest.length := by simpa using h
      simpa [listGetD] using Or.inr (ih k hk)

theorem listGetD_set_self {α : Type} (l : List α) (i : Nat) (a d : α) (h : i < l.length) :
    listGetD (l.set i a) i d = a := by
  induction l generalizing i with
  | nil => simp at h
  | cons x rest ih =>
    match i with
    | 0 => rfl
    | k + 1 =>
      have hk : k < rest.length := by simpa using h
      simpa [List.set, listGetD] using ih k hk

theorem listGetD_set_ne {α : Type} (l : List α) (i j : Nat) (a d : α) (h : i ≠ j) :
    listGetD (l.set i a) j d = listGetD l j d := by
  induction l generalizing i j with
  | nil => simp [List.set]
  | cons x rest ih =>
    match i, j with
    | 0, 0 => exact absurd rfl h
    | 0, k + 1 => rfl
    | m + 1, 0 => rfl
    | m + 1, k + 1 => simpa [List.set, listGetD] using ih m k (by omega)

theorem listModify_length (f : CacheBlock → CacheBlock) :
    ∀ (i : Nat) (l : List CacheBlock), (listModify f i l).length = l.length := by
  intro i l
  induction l generalizing i with
  | nil => cases i <;> rfl
  | cons b rest ih =>
    match i with
    | 0 => rfl
    | k + 1 => simpa [listModify] using ih k

theorem listModify_getD_eq (f : CacheBlock → CacheBlock) :
    ∀ (i : Nat) (l : List CacheBlock) (d : CacheBlock), i < l.length →
      listGetD (listModify f i l) i d = f (listGetD l i d) := by
  intro i l
  induction l generalizing i with
  | nil => intro d h; simp at h
  | cons b rest ih =>
    intro d h
    match i with
    | 0 => rfl
    | k + 1 =>
      have hk : k < rest.length := by simpa using h
      simpa [listModify, listGetD] using ih k d hk

theorem listModify_getD_ne (f : CacheBlock → CacheBlock) :
    ∀ (i j : Nat) (l : List CacheBlock) (d : CacheBlock), i ≠ j →
      listGetD (listModify f i l) j d = listGetD l j d := by
  intro i j l
  induction l generalizing i j with
  | nil => intro d _; cases i <;> rfl
  | cons b rest ih =>
    intro d hne
    match i, j with
    | 0, 0 => exact absurd rfl hne
    | 0, k + 1 => rfl
    | m + 1, 0 => rfl
    | m + 1, k + 1 => simpa [listModify, listGetD] using ih m k d (by omega)

theorem mem_listModify (f : CacheBlock → CacheBlock) :
    ∀ (i : Nat) (l : List CacheBlock) (b : CacheBlock), b ∈ listModify f i l →
      b ∈ l ∨ b = f (listGetD l i defaultCacheBlock) := by
  intro i l
  induction l generalizing i with
  | nil => intro b h; simp [listModify] at h
  | cons a rest ih =>
    intro b h
    match i with
    | 0 =>
      simp only [listModify, List.mem_cons] at h
      rcases h with h | h
      · exact Or.inr (by simpa [listGetD] using h)
      · exact Or.inl (List.mem_cons_of_mem _ h)
    | k + 1 =>
      simp only [listModify, List.mem_cons] at h
      rcases h with h | h
      · exact Or.inl (by simp [h])
      · rcases ih k b h with h' | h'
        · exact Or.inl (List.mem_cons_of_mem _ h')
        · exact Or.inr (by simpa [listGetD] using h')

theorem firstInvalidIdx_none :
    ∀ (l : List CacheBlock) (i : Nat), firstInvalidIdx l i = none →
      ∀ b ∈ l, b.valid = true := by
  intro l
  induction l with
  | nil => intro i _ b hb; simp at hb
  | cons a rest ih =>
    intro i h b hb
    by_cases hv : a.valid
    · simp only [firstInvalidIdx, hv, Bool.not_true, if_neg] at h
      rcases List.mem_cons.mp hb with rfl | hb'
      · exact hv
      · exact ih (i + 1) (by simpa using h) b hb'
    · simp [firstInvalidIdx, hv] at h

theorem firstInvalidIdx_some :
    ∀ (l : List CacheBlock) (i j : Nat), firstInvalidIdx l i = some j →
      i ≤ j ∧ j - i < l.length ∧ (listGetD l (j - i) defaultCacheBlock).valid = false := by
  intro l
  induction l with
  | nil => intro i j h; simp [firstInvalidIdx] at h
  | cons a rest ih =>
    intro i j h
    by_cases hv : a.valid
    · simp only [firstInvalidIdx, hv, Bool.not_true, if_neg] at h
      obtain ⟨h1, h2, h3⟩ := ih (i + 1) j (by simpa using h)
      refine ⟨by omega, by simp; omega, ?_⟩
      have hji : j - i = (j - (i + 1)) + 1 := by omega
      simpa [hji, listGetD] using h3
    · simp only [firstInvalidIdx, hv, Bool.not_false, if_pos] at h
      have hj : j = i := by simpa using h.symm
      subst hj
      simpa [listGetD] using hv

theorem findHitIndex_none (tag : Nat) :
    ∀ (l : List CacheBlock) (i : Nat), findHitIndex tag l i = none →
      ∀ b ∈ l, ¬(b.valid = true ∧ b.tag = tag) := by
  intro l
  induction l with
  | nil => intro i _ b hb; simp at hb
  | cons a rest ih =>
    intro i h b hb
    by_cases hm : a.valid && a.tag == tag
    · simp [findHitIndex, hm] at h
    · simp only [findHitIndex, hm, if_neg] at h
      rcases List.mem_cons.mp hb with rfl | hb'
      · intro hc
        simp [hc.1, hc.2] at hm
      · exact ih (i + 1) (by simpa using h) b hb'

theorem scanMinAux_lt (f : CacheBlock → Nat) :
    ∀ (l : List CacheBlock) (i v best : Nat), v < i → scanMinAux f l i v best < i + l.length := by
  intro l
  induction l with
  | nil => intro i v best hv; simpa [scanMinAux] using hv.trans_le (Nat.le_refl i)
  | cons b rest ih =>
    intro i v best hv
    simp only [scanMinAux]
    by_cases hb : f b < best
    · simp only [hb, if_pos]
      have := ih (i + 1) i (f b) (Nat.lt_succ_self i)
      simpa [Nat.add_comm, Nat.add_assoc, Nat.add_left_comm] using this
    · simp only [hb, if_neg, not_false_iff]
      have := ih (i + 1) v best (by omega)
      simp only [List.length_cons]
      omega

theorem scanMin_lt (f : CacheBlock → Nat) (l : List CacheBlock) (h : 0 < l.length) :
    scanMin f l < l.length := by
  match l with
  | [] => simp at h
  | b :: rest =>
    have h1 := scanMinAux_lt f rest 1 0 (f b) (by omega)
    show scanMinAux f rest 1 0 (f b) < (b :: rest).length
    simp only [List.length_cons]
    omega

/-- C2 (amended): for every replacement policy, a fill on a miss (the
`accessLevel` call with `update_stats = false`, `allocate = true`, as issued
by `access`) sets the chosen line to `valid = true`, `tag` = the new tag,
`load_time = last_access` = the level's current `global_time` (which the
fill does not advance), and `access_count = 1` under FIFO and LRU but
`access_count = 2` under LFU (the fill initialises the count to 1 and the
subsequent `updateReplacementData` increments it); an eviction event
`"L{lvl} Eviction: Tag 0x{old_tag} (Set {set_index})"` is appended if and
only if the victim slot was valid before the fill. -/
theorem pickVictim_invalid_slot (level : CacheLevel) (cs : CacheSet) (si : Nat)
    (report : CacheAccessReport) (j : Nat)
    (hfi : firstInvalidIdx cs.blocks 0 = some j) (hj : j ≠ cs.associativity) :
    pickVictim level cs si report = (j, cs, level, report) := by
  have hjne : (j == cs.associativity) = false := by simpa using hj
  simp [pickVictim, hfi, hjne]

theorem pickVictim_full (level : CacheLevel) (cs : CacheSet) (si : Nat)
    (report : CacheAccessReport)
    (hfi : firstInvalidIdx cs.blocks 0 = none) (hwf : setWF cs) :
    (pickVictim level cs si report).2.1.blocks = cs.blocks ∧
    (pickVictim level cs si report).1 < cs.blocks.length ∧
    (pickVictim level cs si report).2.2.1 = { level with evictions := level.evictions + 1 } ∧
    (pickVictim level cs si report).2.2.2 = { report with
      events := report.events ++
        [evictionEvent level.levelNum
          ((listGetD cs.blocks (pickVictim level cs si report).1 defaultCacheBlock).tag) si] } := by
  obtain ⟨hlen, hassoc, hfifo⟩ := hwf
  have hblen : 0 < cs.blocks.length := by omega
  have hs : ((firstInvalidIdx cs.blocks 0).getD cs.associativity == cs.associativity) = true := by
    simp [hfi]
  cases hpol : level.policy with
  | FIFO =>
    rcases hq : cs.fifoQueue with _ | ⟨x, xs⟩
    · obtain ⟨len', hlen'⟩ : ∃ m, cs.blocks.length = m + 1 := ⟨cs.blocks.length - 1, by omega⟩
      have hrange : List.range cs.blocks.length = 0 :: List.map Nat.succ (List.range len') := by
        rw [hlen']
        exact List.range_succ_eq_map len'
      refine ⟨?_, ?_, ?_, ?_⟩ <;>
        simp [pickVictim, hfi, hs, hpol, findVictimFIFO, hq, hrange, hblen]
    · have hx : x < cs.blocks.length := hfifo x (by rw [hq]; exact List.mem_cons_self x xs)
      refine ⟨?_, ?_, ?_, ?_⟩ <;>
        simp [pickVictim, hfi, hs, hpol, findVictimFIFO, hq, hx]
  | LRU =>
    have hb := scanMin_lt (fun b => b.last_access) cs.blocks hblen
    refine ⟨?_, ?_, ?_, ?_⟩ <;>
      simp [pickVictim, hfi, hs, hpol, findVictimLRU, hb]
  | LFU =>
    have hb := scanMin_lt (fun b => b.access_count) cs.blocks hblen
    refine ⟨?_, ?_, ?_, ?_⟩ <;>
      simp [pickVictim, hfi, hs, hpol, findVictimLFU, hb]
theorem C2_fill_postcondition (level : CacheLevel) (addr : Nat) (report : CacheAccessReport)
    (cs : CacheSet) (v : Nat)
    (hgeom : levelGeomWF level)
    (hwf : setWF cs)
    (hcs : listGetD level.sets (extractSetIndex level addr) defaultCacheSet = cs)
    (hv : (pickVictim level cs (extractSetIndex level addr) report).1 = v)
    (hmiss : findHitIndex (extractTag level addr) cs.blocks 0 = none) :
    (accessLevel level addr report false true).2.2 = false ∧
    (accessLevel level addr report false true).1.global_time = level.global_time ∧
    v < cs.blocks.length ∧
    (listGetD (listGetD (accessLevel level addr report false true).1.sets
        (extractSetIndex level addr) defaultCacheSet).blocks v defaultCacheBlock).valid = true ∧
    (listGetD (listGetD (accessLevel level addr report false true).1.sets
        (extractSetIndex level addr) defaultCacheSet).blocks v defaultCacheBlock).tag =
      extractTag level addr ∧
    (listGetD (listGetD (accessLevel level addr report false true).1.sets
        (extractSetIndex level addr) defaultCacheSet).blocks v defaultCacheBlock).load_time =
      level.global_time ∧
    (listGetD (listGetD (accessLevel level addr report false true).1.sets
        (extractSetIndex level addr) defaultCacheSet).blocks v defaultCacheBlock).last_access =
      level.global_time ∧
    (listGetD (listGetD (accessLevel level addr report false true).1.sets
        (extractSetIndex level addr) defaultCacheSet).blocks v defaultCacheBlock).access_count =
      (if level.policy = .LFU then 2 else 1) ∧
    ((accessLevel level addr report false true).2.1.events = report.events ++
        [evictionEvent level.levelNum ((listGetD cs.blocks v defaultCacheBlock).tag)
          (extractSetIndex level addr)] ↔
      (listGetD cs.blocks v defaultCacheBlock).valid = true) := by
  have hpow : 0 < 2 ^ level.set_index_bits := Nat.pos_pow_of_pos _ (by omega)
  have hsi : extractSetIndex level addr < level.sets.length :=
    lt_of_lt_of_le (Nat.mod_lt _ hpow) hgeom
  have hnot : ¬ (level.sets.length ≤ extractSetIndex level addr) := Nat.not_le.mpr hsi
  obtain ⟨hlen, hassoc, hfifo⟩ := hwf
  have hblen : 0 < cs.blocks.length := by omega
  cases hfi : firstInvalidIdx cs.blocks 0 with
  | some j =>
    obtain ⟨hij, hjlen, hjinv⟩ := firstInvalidIdx_some cs.blocks 0 j hfi
    simp only [Nat.sub_zero] at hjlen hjinv
    have hpv : pickVictim level cs (extractSetIndex level addr) report =
        (j, cs, level, report) :=
      pickVictim_invalid_slot level cs _ report j hfi (by omega)
    have hvj : v = j := by rw [← hv, hpv]
    subst hvj
    have hjlen' : v < (listModify (fillLine (extractTag level addr) level.global_time)
        v cs.blocks).length := by
      rw [listModify_length]; exact hjlen
    cases hpol : level.policy with
    | FIFO =>
      simp [accessLevel, hnot, hcs, hmiss, hpv, hpol, updateReplacementData,
        listGetD_set_self _ _ _ _ hsi, listModify_getD_eq _ _ _ _ hjlen, hjinv, hjlen, fillLine]
    | LRU =>
      simp [accessLevel, hnot, hcs, hmiss, hpv, hpol, updateReplacementData,
        listGetD_set_self _ _ _ _ hsi, listModify_getD_eq _ _ _ _ hjlen,
        listModify_getD_eq _ _ _ _ hjlen', hjinv, hjlen, fillLine]
    | LFU =>
      simp [accessLevel, hnot, hcs, hmiss, hpv, hpol, updateReplacementData,
        listGetD_set_self _ _ _ _ hsi, listModify_getD_eq _ _ _ _ hjlen,
        listModify_getD_eq _ _ _ _ hjlen', hjinv, hjlen, fillLine]
  | none =>
    have hall := firstInvalidIdx_none cs.blocks 0 hfi
    obtain ⟨hbp, hbd, hlv, hrp⟩ :=
      pickVictim_full level cs (extractSetIndex level addr) report hfi ⟨hlen, hassoc, hfifo⟩
    have hvlen : v < cs.blocks.length := hv ▸ hbd
    have hvalid : (listGetD cs.blocks v defaultCacheBlock).valid = true :=
      hall _ (listGetD_mem _ _ _ hvlen)
    have hvlen' : v < (listModify (fillLine (extractTag level addr) level.global_time)
        v cs.blocks).length := by
      rw [listModify_length]; exact hvlen
    cases hpol : level.policy with
    | FIFO =>
      simp [accessLevel, hnot, hcs, hmiss, hv, hbp, hlv, hrp, hpol, updateReplacementData,
        listGetD_set_self _ _ _ _ hsi, listModify_getD_eq _ _ _ _ hvlen, hvalid, hvlen, fillLine]
    | LRU =>
      simp [accessLevel, hnot, hcs, hmiss, hv, hbp, hlv, hrp, hpol, updateReplacementData,
        listGetD_set_self _ _ _ _ hsi, listModify_getD_eq _ _ _ _ hvlen,
        listModify_getD_eq _ _ _ _ hvlen', hvalid, hvlen, fillLine]
    | LFU =>
      simp [accessLevel, hnot, hcs, hmiss, hv, hbp, hlv, hrp, hpol, updateReplacementData,
        listGetD_set_self _ _ _ _ hsi, listModify_getD_eq _ _ _ _ hvlen,
        listModify_getD_eq _ _ _ _ hvlen', hvalid, hvlen, fillLine]

/-- C2 (witness): the fill postcondition applied to a concrete LRU level
(L1 of a 128B/16B/2-way, 1024B/16B/4-way simulator) on address 0 with an
empty report. -/
theorem C2_fill_postcondition_witness :
    levelGeomWF (mkCacheSimulator 128 16 2 1024 16 4 .LRU).l1_cache ∧
    (accessLevel (mkCacheSimulator 128 16 2 1024 16 4 .LRU).l1_cache 0
      { l1Hit := false, l2Hit := false, l2Accessed := false, events := [] } false true).2.2 =
      false :=
  ⟨by decide,
    (C2_fill_postcondition (mkCacheSimulator 128 16 2 1024 16 4 .LRU).l1_cache 0
      { l1Hit := false, l2Hit := false, l2Accessed := false, events := [] }
      { blocks := List.replicate 2 defaultCacheBlock, associativity := 2,
        fifoQueue := [], lruList := [] }
      0 (by decide) (by decide) (by decide) (by decide) (by decide)).1⟩

/-- C2 (counterexample): under LFU, after the very first `access 0` on a
fresh 128B/16B/2-way L1 the filled line has `access_count = 2`, not the 1
the claim asserts for every policy (the fill writes 1 and the
`updateReplacementData` call at the end of the fill increments it). -/
theorem C2_counterexample :
    (listGetD (listGetD (access (mkCacheSimulator 128 16 2 1024 16 4 .LFU) 0).1.l1_cache.sets 0
        defaultCacheSet).blocks 0 defaultCacheBlock).access_count = 2 ∧
    ¬ (listGetD (listGetD (access (mkCacheSimulator 128 16 2 1024 16 4 .LFU) 0).1.l1_cache.sets 0
        defaultCacheSet).blocks 0 defaultCacheBlock).access_count = 1 := by
  refine ⟨by decide, by decide⟩

theorem pickVictim_level_fields (level : CacheLevel) (cs : CacheSet) (si : Nat)
    (report : CacheAccessReport) :
    (pickVictim level cs si report).2.2.1.hits = level.hits ∧
    (pickVictim level cs si report).2.2.1.misses = level.misses ∧
    (pickVictim level cs si report).2.2.1.sets = level.sets ∧
    (pickVictim level cs si report).2.2.1.set_index_bits = level.set_index_bits ∧
    (pickVictim level cs si report).2.2.1.global_time = level.global_time ∧
    (pickVictim level cs si report).2.2.1.policy = level.policy := by
  refine ⟨?_, ?_, ?_, ?_, ?_, ?_⟩ <;> (unfold pickVictim; split <;> (dsimp only; split <;> rfl))

theorem pickVictim_report_fields (level : CacheLevel) (cs : CacheSet) (si : Nat)
    (report : CacheAccessReport) :
    (pickVictim level cs si report).2.2.2.l1Hit = report.l1Hit ∧
    (pickVictim level cs si report).2.2.2.l2Hit = report.l2Hit ∧
    (pickVictim level cs si report).2.2.2.l2Accessed = report.l2Accessed := by
  refine ⟨?_, ?_, ?_⟩ <;> (unfold pickVictim; split <;> (dsimp only; split <;> rfl))

/-- A counting probe (`update_stats = true, allocate = false`) increments
`global_time` and exactly one of `hits`/`misses`, leaves the report intact,
and preserves the level's structure. -/
theorem accessLevel_probe_stats (level : CacheLevel) (addr : Nat) (report : CacheAccessReport)
    (hgeom : levelGeomWF level) :
    (accessLevel level addr report true false).1.hits +
        (accessLevel level addr report true false).1.misses =
      level.hits + level.misses + 1 ∧
    (accessLevel level addr report true false).1.sets.length = level.sets.length ∧
    (accessLevel level addr report true false).1.set_index_bits = level.set_index_bits ∧
    (accessLevel level addr report true false).2.1 = report := by
  have hpow : 0 < 2 ^ level.set_index_bits := Nat.pos_pow_of_pos _ (by omega)
  have hsi : (addr >>> level.block_offset_bits) % 2 ^ level.set_index_bits <
      level.sets.length := lt_of_lt_of_le (Nat.mod_lt _ hpow) hgeom
  have hnot : ¬ (level.sets.length ≤ extractSetIndex { level with
      global_time := level.global_time + 1 } addr) := by
    simpa [extractSetIndex] using Nat.not_le.mpr hsi
  cases hhit : findHitIndex (extractTag { level with global_time := level.global_time + 1 } addr)
      (listGetD level.sets (extractSetIndex { level with global_time := level.global_time + 1 }
        addr) defaultCacheSet).blocks 0 with
  | some i =>
    refine ⟨?_, ?_, ?_, ?_⟩ <;> simp [accessLevel, hnot, hhit] <;> omega
  | none =>
    refine ⟨?_, ?_, ?_, ?_⟩ <;> simp [accessLevel, hnot, hhit] <;> omega

/-- A fill (`update_stats = false`) touches neither `hits` nor `misses` nor
`global_time`, preserves the level's structure, and preserves the report's
flag fields. -/
theorem accessLevel_fill_stats (level : CacheLevel) (addr : Nat) (report : CacheAccessReport) :
    (accessLevel level addr report false true).1.hits = level.hits ∧
    (accessLevel level addr report false true).1.misses = level.misses ∧
    (accessLevel level addr report false true).1.global_time = level.global_time ∧
    (accessLevel level addr report false true).1.sets.length = level.sets.length ∧
    (accessLevel level addr report false true).1.set_index_bits = level.set_index_bits ∧
    (accessLevel level addr report false true).2.1.l1Hit = report.l1Hit ∧
    (accessLevel level addr report false true).2.1.l2Hit = report.l2Hit ∧
    (accessLevel level addr report false true).2.1.l2Accessed = report.l2Accessed := by
  by_cases hrange : level.sets.length ≤ extractSetIndex level addr
  · refine ⟨?_, ?_, ?_, ?_, ?_, ?_, ?_, ?_⟩ <;> simp [accessLevel, hrange]
  · cases hhit : findHitIndex (extractTag level addr)
        (listGetD level.sets (extractSetIndex level addr) defaultCacheSet).blocks 0 with
    | some i =>
      refine ⟨?_, ?_, ?_, ?_, ?_, ?_, ?_, ?_⟩ <;> simp [accessLevel, hrange, hhit]
    | none =>
      obtain ⟨hh, hm, hsets, hbits, hgt, hpol⟩ := pickVictim_level_fields level
        (listGetD level.sets (extractSetIndex level addr) defaultCacheSet)
        (extractSetIndex level addr) report
      obtain ⟨hr1, hr2, hr3⟩ := pickVictim_report_fields level
        (listGetD level.sets (extractSetIndex level addr) defaultCacheSet)
        (extractSetIndex level addr) report
      refine ⟨?_, ?_, ?_, ?_, ?_, ?_, ?_, ?_⟩ <;>
        simp [accessLevel, hrange, hhit, hh, hm, hsets, hbits, hgt, hr1, hr2, hr3]

theorem access_counts (sim : CacheSimulator) (a : Nat)
    (h1 : levelGeomWF sim.l1_cache) (h2 : levelGeomWF sim.l2_cache) :
    (access sim a).1.l1_cache.hits + (access sim a).1.l1_cache.misses =
      sim.l1_cache.hits + sim.l1_cache.misses + 1 ∧
    (access sim a).1.l2_cache.hits + (access sim a).1.l2_cache.misses =
      sim.l2_cache.hits + sim.l2_cache.misses + (if (access sim a).2.l1Hit then 0 else 1) ∧
    levelGeomWF (access sim a).1.l1_cache ∧
    levelGeomWF (access sim a).1.l2_cache := by
  obtain ⟨hp1, hl1, hb1, hr1⟩ := accessLevel_probe_stats sim.l1_cache a
    { l1Hit := false, l2Hit := false, l2Accessed := false, events := [] } h1
  have hw1 : levelGeomWF (accessLevel sim.l1_cache a
      { l1Hit := false, l2Hit := false, l2Accessed := false, events := [] } true false).1 := by
    unfold levelGeomWF
    rw [hl1, hb1]
    exact h1
  cases hhit1 : (accessLevel sim.l1_cache a
      { l1Hit := false, l2Hit := false, l2Accessed := false, events := [] } true false).2.2 with
  | true =>
    refine ⟨?_, ?_, ?_, ?_⟩
    · simpa [access, hhit1] using hp1
    · simp [access, hhit1]
    · simpa [access, hhit1] using hw1
    · simpa [access, hhit1] using h2
  | false =>
    obtain ⟨hp2, hl2, hb2, hr2⟩ := accessLevel_probe_stats sim.l2_cache a
      { l1Hit := false, l2Hit := false, l2Accessed := true, events := [] } h2
    have hw2 : levelGeomWF (accessLevel sim.l2_cache a
        { l1Hit := false, l2Hit := false, l2Accessed := true, events := [] } true false).1 := by
      unfold levelGeomWF
      rw [hl2, hb2]
      exact h2
    cases hhit2 : (accessLevel sim.l2_cache a
        { l1Hit := false, l2Hit := false, l2Accessed := true, events := [] } true false).2.2 with
    | true =>
      obtain ⟨hf1, hf2, hf3, hf4, hf5, hf6, hf7, hf8⟩ := accessLevel_fill_stats
        (accessLevel sim.l1_cache a
          { l1Hit := false, l2Hit := false, l2Accessed := false, events := [] } true false).1 a
        { l1Hit := false, l2Hit := true, l2Accessed := true, events := [] }
      refine ⟨?_, ?_, ?_, ?_⟩
      · simp [access, hhit1, hhit2, hr1, hr2, hf1, hf2]
        omega
      · simp [access, hhit1, hhit2, hr1, hr2, hf6]
        omega
      · simp only [access, hhit1, hhit2, hr1, hr2]
        simp only [Bool.false_eq_true, if_false, if_true]
        unfold levelGeomWF
        rw [hf4, hf5]
        exact hw1
      · simpa [access, hhit1, hhit2, hr1, hr2] using hw2
    | false =>
      obtain ⟨hg1, hg2, hg3, hg4, hg5, hg6, hg7, hg8⟩ := accessLevel_fill_stats
        (accessLevel sim.l2_cache a
          { l1Hit := false, l2Hit := false, l2Accessed := true, events := [] } true false).1 a
        { l1Hit := false, l2Hit := false, l2Accessed := true, events := [] }
      obtain ⟨hf1, hf2, hf3, hf4, hf5, hf6, hf7, hf8⟩ := accessLevel_fill_stats
        (accessLevel sim.l1_cache a
          { l1Hit := false, l2Hit := false, l2Accessed := false, events := [] } true false).1 a
        (accessLevel (accessLevel sim.l2_cache a
            { l1Hit := false, l2Hit := false, l2Accessed := true, events := [] } true false).1 a
          { l1Hit := false, l2Hit := false, l2Accessed := true, events := [] } false true).2.1
      refine ⟨?_, ?_, ?_, ?_⟩
      · simp [access, hhit1, hhit2, hr1, hr2, hf1, hf2]
        omega
      · simp [access, hhit1, hhit2, hr1, hr2, hf6, hg1, hg2, hg6]
        omega
      · simp only [access, hhit1, hhit2, hr1, hr2]
        simp only [Bool.false_eq_true, if_false]
        unfold levelGeomWF
        rw [hf4, hf5]
        exact hw1
      · simp only [access, hhit1, hhit2, hr1, hr2]
        simp only [Bool.false_eq_true, if_false]
        unfold levelGeomWF
        rw [hg4, hg5]
        exact hw2

/-- C6: for each level and after every sequence of `access` calls,
`hits + misses` at L1 grows by exactly the number of accesses (= L1 probes)
and at L2 by exactly the number of accesses that missed L1 (= L2 probes):
every counting probe increments exactly one of the two counters and fills
increment neither. -/
theorem C6_hit_miss_conservation (sim : CacheSimulator) (addrs : List Nat)
    (h1 : levelGeomWF sim.l1_cache) (h2 : levelGeomWF sim.l2_cache) :
    (runAccesses sim addrs).1.l1_cache.hits + (runAccesses sim addrs).1.l1_cache.misses =
      sim.l1_cache.hits + sim.l1_cache.misses + addrs.length ∧
    (runAccesses sim addrs).1.l2_cache.hits + (runAccesses sim addrs).1.l2_cache.misses =
      sim.l2_cache.hits + sim.l2_cache.misses +
        List.countP (fun r => !r.l1Hit) (runAccesses sim addrs).2 := by
  induction addrs generalizing sim with
  | nil => simp [runAccesses]
  | cons a rest ih =>
    obtain ⟨c1, c2, w1, w2⟩ := access_counts sim a h1 h2
    obtain ⟨i1, i2⟩ := ih (access sim a).1 w1 w2
    constructor
    · simp only [runAccesses, List.length_cons]
      rw [i1]
      omega
    · simp only [runAccesses, List.countP_cons]
      rw [i2]
      cases hx : (access sim a).2.l1Hit with
      | true =>
        simp [hx] at c2
        simp [hx]
        omega
      | false =>
        simp [hx] at c2
        simp [hx]
        omega

/-- C6 (witness): conservation applied to a fresh 128B/16B/2-way L1,
1024B/16B/4-way L2 FIFO simulator on the access string 0, 64, 0. -/
theorem C6_hit_miss_conservation_witness :
    levelGeomWF (mkCacheSimulator 128 16 2 1024 16 4 .FIFO).l1_cache ∧
    (runAccesses (mkCacheSimulator 128 16 2 1024 16 4 .FIFO) [0, 64, 0]).1.l1_cache.hits +
        (runAccesses (mkCacheSimulator 128 16 2 1024 16 4 .FIFO) [0, 64, 0]).1.l1_cache.misses =
      (mkCacheSimulator 128 16 2 1024 16 4 .FIFO).l1_cache.hits +
        (mkCacheSimulator 128 16 2 1024 16 4 .FIFO).l1_cache.misses + [0, 64, 0].length :=
  ⟨by decide,
    (C6_hit_miss_conservation (mkCacheSimulator 128 16 2 1024 16 4 .FIFO) [0, 64, 0]
      (by decide) (by decide)).1⟩

theorem accessLevel_fill_post (level : CacheLevel) (addr : Nat) (report : CacheAccessReport)
    (cs : CacheSet) (v : Nat)
    (hgeom : levelGeomWF level)
    (hwf : setWF cs)
    (hcs : listGetD level.sets (extractSetIndex level addr) defaultCacheSet = cs)
    (hv : (pickVictim level cs (extractSetIndex level addr) report).1 = v)
    (hmiss : findHitIndex (extractTag level addr) cs.blocks 0 = none) :
    (listGetD (listGetD (accessLevel level addr report false true).1.sets
        (extractSetIndex level addr) defaultCacheSet).blocks v defaultCacheBlock).valid = true ∧
    (listGetD (listGetD (accessLevel level addr report false true).1.sets
        (extractSetIndex level addr) defaultCacheSet).blocks v defaultCacheBlock).tag =
      extractTag level addr ∧
    (listGetD (listGetD (accessLevel level addr report false true).1.sets
        (extractSetIndex level addr) defaultCacheSet).blocks v defaultCacheBlock).last_access =
      level.global_time ∧
    v < (listGetD (accessLevel level addr report false true).1.sets
        (extractSetIndex level addr) defaultCacheSet).blocks.length ∧
    (∀ b' ∈ (listGetD (accessLevel level addr report false true).1.sets
        (extractSetIndex level addr) defaultCacheSet).blocks,
      b'.last_access = level.global_time ∨ b' ∈ cs.blocks) ∧
    (accessLevel level addr report false true).1.set_index_bits = level.set_index_bits ∧
    (accessLevel level addr report false true).1.block_offset_bits = level.block_offset_bits ∧
    (accessLevel level addr report false true).1.tag_bits = level.tag_bits := by
  have hpow : 0 < 2 ^ level.set_index_bits := Nat.pos_pow_of_pos _ (by omega)
  have hsi : extractSetIndex level addr < level.sets.length :=
    lt_of_lt_of_le (Nat.mod_lt _ hpow) hgeom
  have hnot : ¬ (level.sets.length ≤ extractSetIndex level addr) := Nat.not_le.mpr hsi
  obtain ⟨hlen, hassoc, hfifo⟩ := hwf
  have hblen : 0 < cs.blocks.length := by omega
  have hmem : ∀ (g f : CacheBlock → CacheBlock) (w : Nat),
      w < cs.blocks.length →
      (∀ b, (f b).last_access = level.global_time) →
      (∀ b, (g (f b)).last_access = level.global_time) →
      ∀ b' ∈ listModify g w (listModify f w cs.blocks),
        b'.last_access = level.global_time ∨ b' ∈ cs.blocks := by
    intro g f w hw hf hgf b' hb
    rcases mem_listModify g w _ b' hb with h | h
    · rcases mem_listModify f w _ b' h with h2 | h2
      · exact Or.inr h2
      · exact Or.inl (h2 ▸ hf _)
    · have hrw : w < (listModify f w cs.blocks).length := by
        rw [listModify_length]; exact hw
      rw [listModify_getD_eq f w cs.blocks defaultCacheBlock hw] at h
      exact Or.inl (h ▸ hgf _)
  have hmem1 : ∀ (f : CacheBlock → CacheBlock) (w : Nat),
      (∀ b, (f b).last_access = level.global_time) →
      ∀ b' ∈ listModify f w cs.blocks,
        b'.last_access = level.global_time ∨ b' ∈ cs.blocks := by
    intro f w hf b' hb
    rcases mem_listModify f w _ b' hb with h | h
    · exact Or.inr h
    · exact Or.inl (h ▸ hf _)
  cases hfi : firstInvalidIdx cs.blocks 0 with
  | some j =>
    obtain ⟨hij, hjlen, hjinv⟩ := firstInvalidIdx_some cs.blocks 0 j hfi
    simp only [Nat.sub_zero] at hjlen hjinv
    have hpv : pickVictim level cs (extractSetIndex level addr) report =
        (j, cs, level, report) :=
      pickVictim_invalid_slot level cs _ report j hfi (by omega)
    have hvj : v = j := by rw [← hv, hpv]
    subst hvj
    have hjlen' : v < (listModify (fillLine (extractTag level addr) level.global_time)
        v cs.blocks).length := by
      rw [listModify_length]; exact hjlen
    cases hpol : level.policy with
    | FIFO =>
      refine ⟨?_, ?_, ?_, ?_, ?_, ?_, ?_, ?_⟩ <;>
        simp [accessLevel, hnot, hcs, hmiss, hpv, hpol, updateReplacementData,
          listGetD_set_self _ _ _ _ hsi, listModify_getD_eq _ _ _ _ hjlen, hjlen,
          listModify_length, fillLine] <;>
        exact hmem1 _ v (fun b => rfl)
    | LRU =>
      refine ⟨?_, ?_, ?_, ?_, ?_, ?_, ?_, ?_⟩ <;>
        simp [accessLevel, hnot, hcs, hmiss, hpv, hpol, updateReplacementData,
          listGetD_set_self _ _ _ _ hsi, listModify_getD_eq _ _ _ _ hjlen,
          listModify_getD_eq _ _ _ _ hjlen', hjlen, listModify_length, fillLine] <;>
        exact hmem _ _ v hjlen (fun b => rfl) (fun b => rfl)
    | LFU =>
      refine ⟨?_, ?_, ?_, ?_, ?_, ?_, ?_, ?_⟩ <;>
        simp [accessLevel, hnot, hcs, hmiss, hpv, hpol, updateReplacementData,
          listGetD_set_self _ _ _ _ hsi, listModify_getD_eq _ _ _ _ hjlen,
          listModify_getD_eq _ _ _ _ hjlen', hjlen, listModify_length, fillLine] <;>
        exact hmem _ _ v hjlen (fun b => rfl) (fun b => rfl)
  | none =>
    obtain ⟨hbp, hbd, hlv, hrp⟩ :=
      pickVictim_full level cs (extractSetIndex level addr) report hfi ⟨hlen, hassoc, hfifo⟩
    have hvlen : v < cs.blocks.length := hv ▸ hbd
    have hvlen' : v < (listModify (fillLine (extractTag level addr) level.global_time)
        v cs.blocks).length := by
      rw [listModify_length]; exact hvlen
    cases hpol : level.policy with
    | FIFO =>
      refine ⟨?_, ?_, ?_, ?_, ?_, ?_, ?_, ?_⟩ <;>
        simp [accessLevel, hnot, hcs, hmiss, hv, hbp, hlv, hrp, hpol, updateReplacementData,
          listGetD_set_self _ _ _ _ hsi, listModify_getD_eq _ _ _ _ hvlen, hvlen,
          listModify_length, fillLine] <;>
        exact hmem1 _ v (fun b => rfl)
    | LRU =>
      refine ⟨?_, ?_, ?_, ?_, ?_, ?_, ?_, ?_⟩ <;>
        simp [accessLevel, hnot, hcs, hmiss, hv, hbp, hlv, hrp, hpol, updateReplacementData,
          listGetD_set_self _ _ _ _ hsi, listModify_getD_eq _ _ _ _ hvlen,
          listModify_getD_eq _ _ _ _ hvlen', hvlen, listModify_length, fillLine] <;>
        exact hmem _ _ v hvlen (fun b => rfl) (fun b => rfl)
    | LFU =>
      refine ⟨?_, ?_, ?_, ?_, ?_, ?_, ?_, ?_⟩ <;>
        simp [accessLevel, hnot, hcs, hmiss, hv, hbp, hlv, hrp, hpol, updateReplacementData,
          listGetD_set_self _ _ _ _ hsi, listModify_getD_eq _ _ _ _ hvlen,
          listModify_getD_eq _ _ _ _ hvlen', hvlen, listModify_length, fillLine] <;>
        exact hmem _ _ v hvlen (fun b => rfl) (fun b => rfl)

theorem findHitIndex_some (tag : Nat) :
    ∀ (l : List CacheBlock) (i j : Nat), findHitIndex tag l i = some j →
      i ≤ j ∧ j - i < l.length ∧ (listGetD l (j - i) defaultCacheBlock).valid = true ∧
        (listGetD l (j - i) defaultCacheBlock).tag = tag := by
  intro l
  induction l with
  | nil => intro i j h; simp [findHitIndex] at h
  | cons a rest ih =>
    intro i j h
    by_cases hm : a.valid && a.tag == tag
    · simp only [findHitIndex, hm, if_pos] at h
      have hj : j = i := by simpa using h.symm
      subst hj
      simp only [Bool.and_eq_true, beq_iff_eq] at hm
      exact ⟨Nat.le_refl _, by simp, by simpa [listGetD] using hm.1, by simpa [listGetD] using hm.2⟩
    · simp only [findHitIndex, hm, if_neg] at h
      obtain ⟨h1, h2, h3, h4⟩ := ih (i + 1) j (by simpa using h)
      have hji : j - i = (j - (i + 1)) + 1 := by omega
      refine ⟨by omega, by simp; omega, ?_, ?_⟩
      · simpa [hji, listGetD] using h3
      · simpa [hji, listGetD] using h4

theorem accessLevel_lru_probe (level : CacheLevel) (addr : Nat) (report : CacheAccessReport)
    (hgeom : levelGeomWF level) (hsw : levelSetsWF level) (hinv : lastAccessLe level)
    (hpol : level.policy = .LRU) :
    ((accessLevel level addr report true false).2.2 = true →
      tagIsMRU (accessLevel level addr report true false).1 addr) ∧
    ((accessLevel level addr report true false).2.2 = false →
      (accessLevel level addr report true false).1.sets = level.sets ∧
      findHitIndex (extractTag level addr)
        (listGetD level.sets (extractSetIndex level addr) defaultCacheSet).blocks 0 = none) ∧
    lastAccessLe (accessLevel level addr report true false).1 ∧
    levelGeomWF (accessLevel level addr report true false).1 ∧
    levelSetsWF (accessLevel level addr report true false).1 ∧
    (accessLevel level addr report true false).1.policy = level.policy ∧
    (accessLevel level addr report true false).1.set_index_bits = level.set_index_bits ∧
    (accessLevel level addr report true false).1.block_offset_bits = level.block_offset_bits ∧
    (accessLevel level addr report true false).1.tag_bits = level.tag_bits ∧
    (accessLevel level addr report true false).1.global_time = level.global_time + 1 := by
  have hpow : 0 < 2 ^ level.set_index_bits := Nat.pos_pow_of_pos _ (by omega)
  have hsi : extractSetIndex level addr < level.sets.length :=
    lt_of_lt_of_le (Nat.mod_lt _ hpow) hgeom
  have hnotU : ¬ (level.sets.length ≤ addr >>> level.block_offset_bits % 2 ^ level.set_index_bits) := by
    simpa [extractSetIndex] using Nat.not_le.mpr hsi
  have hcsmem : listGetD level.sets (extractSetIndex level addr) defaultCacheSet ∈ level.sets :=
    listGetD_mem _ _ _ hsi
  cases hhit : findHitIndex (extractTag level addr)
      (listGetD level.sets (extractSetIndex level addr) defaultCacheSet).blocks 0 with
  | none =>
    have hhitU : findHitIndex
        (addr >>> (level.set_index_bits + level.block_offset_bits) % 2 ^ level.tag_bits)
        (listGetD level.sets (addr >>> level.block_offset_bits % 2 ^ level.set_index_bits)
          defaultCacheSet).blocks 0 = none := by
      simpa [extractTag, extractSetIndex] using hhit
    refine ⟨?_, ?_, ?_, ?_, ?_, ?_, ?_, ?_, ?_, ?_⟩ <;>
      simp [accessLevel, extractTag, extractSetIndex, hnotU, hhitU]
    · intro cset hcset b hb
      exact le_trans (hinv cset hcset b hb) (Nat.le_succ _)
    · exact hgeom
    · exact hsw
  | some i =>
    obtain ⟨hi0, hilen, hivalid, hitag⟩ := findHitIndex_some _ _ _ _ hhit
    simp only [Nat.sub_zero] at hilen hivalid hitag
    have hhitU : findHitIndex
        (addr >>> (level.set_index_bits + level.block_offset_bits) % 2 ^ level.tag_bits)
        (listGetD level.sets (addr >>> level.block_offset_bits % 2 ^ level.set_index_bits)
          defaultCacheSet).blocks 0 = some i := by
      simpa [extractTag, extractSetIndex] using hhit
    have hsiU : addr >>> level.block_offset_bits % 2 ^ level.set_index_bits <
        level.sets.length := by
      simpa [extractSetIndex] using hsi
    refine ⟨?_, ?_, ?_, ?_, ?_, ?_, ?_, ?_, ?_, ?_⟩ <;>
      simp [accessLevel, extractTag, extractSetIndex, hnotU, hhitU, hpol, updateReplacementData]
    · -- tagIsMRU after the probe hit
      unfold tagIsMRU
      simp only [extractTag, extractSetIndex]
      simp only [listGetD_set_self _ _ _ _ hsiU]
      refine ⟨i, ?_, ?_, ?_, ?_⟩
      · rw [listModify_length]
        simpa [extractSetIndex] using hilen
      · rw [listModify_getD_eq]
        · simp only [extractSetIndex] at hivalid ⊢
          simpa using hivalid
        · simpa [extractSetIndex] using hilen
      · rw [listModify_getD_eq]
        · simp only [extractTag, extractSetIndex] at hitag ⊢
          simpa using hitag
        · simpa [extractSetIndex] using hilen
      · intro b hb
        rw [listModify_getD_eq]
        · rcases mem_listModify _ _ _ _ hb with h | h
          · have hble := hinv _ hcsmem b (by simpa [extractSetIndex] using h)
            exact le_trans hble (Nat.le_succ _)
          · simp [h]
        · simpa [extractSetIndex] using hilen
    · -- lastAccessLe is preserved
      intro cset hcset b hb
      rcases List.mem_or_eq_of_mem_set hcset with h | h
      · exact le_trans (hinv cset h b hb) (Nat.le_succ _)
      · subst h
        rcases mem_listModify _ _ _ _ hb with h2 | h2
        · exact le_trans (hinv _ hcsmem b (by simpa [extractSetIndex] using h2)) (Nat.le_succ _)
        · simp [h2]
    · -- levelGeomWF is preserved
      unfold levelGeomWF at hgeom ⊢
      simpa using hgeom
    · -- levelSetsWF is preserved
      intro cset hcset
      rcases List.mem_or_eq_of_mem_set hcset with h | h
      · exact hsw cset h
      · subst h
        obtain ⟨ha, hb, hc⟩ := hsw _ hcsmem
        refine ⟨?_, ?_, ?_⟩
        · rw [listModify_length]
          simpa [extractSetIndex] using ha
        · simpa [extractSetIndex] using hb
        · rw [listModify_length]
          intro x hx
          simpa [extractSetIndex] using hc x (by simpa [extractSetIndex] using hx)

theorem accessLevel_fill_mru (level : CacheLevel) (addr : Nat) (report : CacheAccessReport)
    (hgeom : levelGeomWF level) (hsw : levelSetsWF level) (hinv : lastAccessLe level)
    (hmiss : findHitIndex (extractTag level addr)
      (listGetD level.sets (extractSetIndex level addr) defaultCacheSet).blocks 0 = none) :
    tagIsMRU (accessLevel level addr report false true).1 addr := by
  have hpow : 0 < 2 ^ level.set_index_bits := Nat.pos_pow_of_pos _ (by omega)
  have hsi : extractSetIndex level addr < level.sets.length :=
    lt_of_lt_of_le (Nat.mod_lt _ hpow) hgeom
  have hcsmem : listGetD level.sets (extractSetIndex level addr) defaultCacheSet ∈ level.sets :=
    listGetD_mem _ _ _ hsi
  obtain ⟨hval, htag, hlast, hbound, hmemb, hb1, hb2, hb3⟩ :=
    accessLevel_fill_post level addr report
      (listGetD level.sets (extractSetIndex level addr) defaultCacheSet)
      (pickVictim level (listGetD level.sets (extractSetIndex level addr) defaultCacheSet)
        (extractSetIndex level addr) report).1
      hgeom (hsw _ hcsmem) rfl rfl hmiss
  have hEsi : extractSetIndex (accessLevel level addr report false true).1 addr =
      extractSetIndex level addr := by
    unfold extractSetIndex
    rw [hb1, hb2]
  have hEtag : extractTag (accessLevel level addr report false true).1 addr =
      extractTag level addr := by
    unfold extractTag
    rw [hb1, hb2, hb3]
  unfold tagIsMRU
  rw [hEsi, hEtag]
  refine ⟨_, hbound, hval, htag, ?_⟩
  intro b hb
  rw [hlast]
  rcases hmemb b hb with h | h
  · rw [h]
  · exact hinv _ hcsmem b h

/-- C7: under the LRU policy (both levels), immediately after `access a`
returns, the addressed set of each touched level contains a valid line
holding `a`'s tag whose `last_access` is the (weakly) largest of the set:
L1 is always touched; L2 only when L1 missed. -/
theorem C7_lru_mru (sim : CacheSimulator) (a : Nat)
    (hp1 : sim.l1_cache.policy = .LRU) (hp2 : sim.l2_cache.policy = .LRU)
    (hg1 : levelGeomWF sim.l1_cache) (hg2 : levelGeomWF sim.l2_cache)
    (hs1 : levelSetsWF sim.l1_cache) (hs2 : levelSetsWF sim.l2_cache)
    (hi1 : lastAccessLe sim.l1_cache) (hi2 : lastAccessLe sim.l2_cache) :
    tagIsMRU (access sim a).1.l1_cache a ∧
    ((access sim a).2.l1Hit = false → tagIsMRU (access sim a).1.l2_cache a) := by
  obtain ⟨hp1r, hl1, hb1, hr1⟩ := accessLevel_probe_stats sim.l1_cache a
    { l1Hit := false, l2Hit := false, l2Accessed := false, events := [] } hg1
  obtain ⟨ph1, pm1, pi1, pg1, ps1, pp1, pa1, pb1, pc1, pt1⟩ :=
    accessLevel_lru_probe sim.l1_cache a
      { l1Hit := false, l2Hit := false, l2Accessed := false, events := [] } hg1 hs1 hi1 hp1
  cases hhit1 : (accessLevel sim.l1_cache a
      { l1Hit := false, l2Hit := false, l2Accessed := false, events := [] } true false).2.2 with
  | true =>
    constructor
    · have := ph1 hhit1
      simpa [access, hhit1] using this
    · simp [access, hhit1]
  | false =>
    obtain ⟨hsets1, hmiss1⟩ := pm1 hhit1
    have hmiss1' : findHitIndex
        (extractTag (accessLevel sim.l1_cache a
          { l1Hit := false, l2Hit := false, l2Accessed := false, events := [] } true false).1 a)
        (listGetD (accessLevel sim.l1_cache a
            { l1Hit := false, l2Hit := false, l2Accessed := false, events := [] }
            true false).1.sets
          (extractSetIndex (accessLevel sim.l1_cache a
            { l1Hit := false, l2Hit := false, l2Accessed := false, events := [] } true false).1 a)
          defaultCacheSet).blocks 0 = none := by
      unfold extractTag extractSetIndex
      rw [pa1, pb1, pc1, hsets1]
      exact hmiss1
    obtain ⟨qp2r, ql2, qb2, qr2⟩ := accessLevel_probe_stats sim.l2_cache a
      { l1Hit := false, l2Hit := false, l2Accessed := true, events := [] } hg2
    obtain ⟨qh2, qm2, qi2, qg2, qs2, qp2, qa2, qb2', qc2, qt2⟩ :=
      accessLevel_lru_probe sim.l2_cache a
        { l1Hit := false, l2Hit := false, l2Accessed := true, events := [] } hg2 hs2 hi2 hp2
    cases hhit2 : (accessLevel sim.l2_cache a
        { l1Hit := false, l2Hit := false, l2Accessed := true, events := [] } true false).2.2 with
    | true =>
      constructor
      · have := accessLevel_fill_mru (accessLevel sim.l1_cache a
            { l1Hit := false, l2Hit := false, l2Accessed := false, events := [] } true false).1 a
            { l1Hit := false, l2Hit := true, l2Accessed := true, events := [] }
            pg1 ps1 pi1 hmiss1'
        simpa [access, hhit1, hhit2, hr1, qr2] using this
      · have := qh2 hhit2
        intro hL1
        simpa [access, hhit1, hhit2, hr1, qr2] using this
    | false =>
      obtain ⟨hsets2, hmiss2⟩ := qm2 hhit2
      have hmiss2' : findHitIndex
          (extractTag (accessLevel sim.l2_cache a
            { l1Hit := false, l2Hit := false, l2Accessed := true, events := [] } true false).1 a)
          (listGetD (accessLevel sim.l2_cache a
              { l1Hit := false, l2Hit := false, l2Accessed := true, events := [] }
              true false).1.sets
            (extractSetIndex (accessLevel sim.l2_cache a
              { l1Hit := false, l2Hit := false, l2Accessed := true, events := [] } true false).1 a)
            defaultCacheSet).blocks 0 = none := by
        unfold extractTag extractSetIndex
        rw [qa2, qb2', qc2, hsets2]
        exact hmiss2
      constructor
      · have := accessLevel_fill_mru (accessLevel sim.l1_cache a
            { l1Hit := false, l2Hit := false, l2Accessed := false, events := [] } true false).1 a
            (accessLevel (accessLevel sim.l2_cache a
                { l1Hit := false, l2Hit := false, l2Accessed := true, events := [] } true false).1 a
              { l1Hit := false, l2Hit := false, l2Accessed := true, events := [] } false true).2.1
            pg1 ps1 pi1 hmiss1'
        simpa [access, hhit1, hhit2, hr1, qr2] using this
      · have := accessLevel_fill_mru (accessLevel sim.l2_cache a
            { l1Hit := false, l2Hit := false, l2Accessed := true, events := [] } true false).1 a
            { l1Hit := false, l2Hit := false, l2Accessed := true, events := [] }
            qg2 qs2 qi2 hmiss2'
        intro hL1
        simpa [access, hhit1, hhit2, hr1, qr2] using this

/-- C7 (witness): the LRU-MRU property applied to a fresh
128B/16B/2-way / 1024B/16B/4-way LRU simulator on address 0. -/
theorem C7_lru_mru_witness :
    (mkCacheSimulator 128 16 2 1024 16 4 .LRU).l1_cache.policy = ReplacementPolicy.LRU ∧
    tagIsMRU (access (mkCacheSimulator 128 16 2 1024 16 4 .LRU) 0).1.l1_cache 0 :=
  ⟨by decide,
    (C7_lru_mru (mkCacheSimulator 128 16 2 1024 16 4 .LRU) 0 (by decide) (by decide)
      (by decide) (by decide) (by decide) (by decide) (by decide) (by decide)).1⟩

/-- C4: a `deallocate` call (by address or id) whose reference does not
resolve to a currently-allocated block fails with `NotFound` and leaves the
state unchanged; one that resolves to a block whose `is_free` flag is
already set fails with `DoubleFree` and leaves the state unchanged. -/
theorem C4_deallocate_failure_semantics (s : MMState) :
    (∀ ptr, resolvePtr s ptr = none → deallocatePtr s ptr = (s, FreeResult.notFound)) ∧
    (∀ ptr b, resolvePtr s ptr = some b → b.is_free = true →
      deallocatePtr s ptr = (s, FreeResult.doubleFree)) ∧
    (∀ i, resolveId s i = none → deallocateById s i = (s, FreeResult.notFound)) ∧
    (∀ i b, resolveId s i = some b → b.is_free = true →
      deallocateById s i = (s, FreeResult.doubleFree)) := by
  have hptrN : ∀ ptr, resolvePtr s ptr = none →
      deallocatePtr s ptr = (s, FreeResult.notFound) := by
    intro ptr hres
    by_cases hv : s.totalMemorySize ≤ ptr
    · simp [deallocatePtr, hv]
    · simp only [resolvePtr, hv, if_neg, not_false_iff, if_false] at hres
      cases hf : mapFind s.addressToHeader ptr with
      | none => simp [deallocatePtr, hv, hf]
      | some o =>
        rw [hf] at hres
        simp only [] at hres
        simp [deallocatePtr, hv, hf, hres]
  have hptrD : ∀ ptr b, resolvePtr s ptr = some b → b.is_free = true →
      deallocatePtr s ptr = (s, FreeResult.doubleFree) := by
    intro ptr b hres hfree
    by_cases hv : s.totalMemorySize ≤ ptr
    · simp [resolvePtr, hv] at hres
    · simp only [resolvePtr, hv, if_neg, not_false_iff, if_false] at hres
      cases hf : mapFind s.addressToHeader ptr with
      | none => rw [hf] at hres; simp at hres
      | some o =>
        rw [hf] at hres
        simp only [] at hres
        simp [deallocatePtr, hv, hf, hres, hfree]
  refine ⟨hptrN, hptrD, ?_, ?_⟩
  · intro i hres
    unfold resolveId at hres
    cases hf : mapFind s.idToHeader i with
    | none => simp [deallocateById, hf]
    | some o =>
      rw [hf] at hres
      simp only [] at hres
      simp [deallocateById, hf, hptrN _ hres]
  · intro i b hres hfree
    unfold resolveId at hres
    cases hf : mapFind s.idToHeader i with
    | none => rw [hf] at hres; simp at hres
    | some o =>
      rw [hf] at hres
      simp only [] at hres
      simp [deallocateById, hf, hptrD _ _ hres hfree]

/-- C4 (witness): in a fresh 4096-byte arena, freeing address 50 (never
handed out) fails with `NotFound` unchanged, and freeing address 0 (which
the constructor's bookkeeping maps to the free initial block) fails with
`DoubleFree` unchanged. -/
theorem C4_deallocate_failure_semantics_witness :
    resolvePtr (mkMemoryManager 4096 .FIRST_FIT) 50 = none ∧
    deallocatePtr (mkMemoryManager 4096 .FIRST_FIT) 50 =
      (mkMemoryManager 4096 .FIRST_FIT, FreeResult.notFound) ∧
    deallocatePtr (mkMemoryManager 4096 .FIRST_FIT) 0 =
      (mkMemoryManager 4096 .FIRST_FIT, FreeResult.doubleFree) :=
  ⟨by decide,
    (C4_deallocate_failure_semantics (mkMemoryManager 4096 .FIRST_FIT)).1 50 (by decide),
    (C4_deallocate_failure_semantics (mkMemoryManager 4096 .FIRST_FIT)).2.1 0
      { size := 4096, is_free := true, block_id := 0 } (by decide) (by decide)⟩

theorem findFirstFitAux_spec (blocks : BlockMap) (r : Nat) : ∀ l : List Nat,
    (∀ o b, findFirstFitAux blocks r l = some (o, b) →
      lookupBlock blocks o = some b ∧ b.is_free = true ∧ r ≤ b.size ∧
      ∃ pre post, l = pre ++ o :: post ∧ ∀ o' ∈ pre, fitsB blocks r o' = false) ∧
    (findFirstFitAux blocks r l = none → ∀ o' ∈ l, fitsB blocks r o' = false) := by
  intro l
  induction l with
  | nil =>
    constructor
    · intro o b h; simp [findFirstFitAux] at h
    · intro _ o' h; simp at h
  | cons o0 rest ih =>
    cases hlk : lookupBlock blocks o0 with
    | some b0 =>
      by_cases hc : (b0.is_free && decide (r ≤ b0.size)) = true
      · constructor
        · intro o b h
          simp only [findFirstFitAux, hlk, hc, if_pos] at h
          obtain ⟨ho, hb⟩ : o0 = o ∧ b0 = b := by
            constructor <;> [exact congrArg Prod.fst (Option.some.inj h);
              exact congrArg Prod.snd (Option.some.inj h)]
          subst ho; subst hb
          simp only [Bool.and_eq_true, decide_eq_true_eq] at hc
          exact ⟨hlk, hc.1, hc.2, [], rest, rfl, by intro o' h'; simp at h'⟩
        · intro h
          simp [findFirstFitAux, hlk, hc] at h
      · have hfits : fitsB blocks r o0 = false := by
          simp only [fitsB, hlk]
          simpa using hc
        constructor
        · intro o b h
          simp only [findFirstFitAux, hlk, hc, if_neg, Bool.not_eq_true, if_false] at h
          obtain ⟨hl1, hl2, hl3, pre, post, hpre, hall⟩ := ih.1 o b h
          exact ⟨hl1, hl2, hl3, o0 :: pre, post, by rw [hpre]; rfl, by
            intro o' h'
            rcases List.mem_cons.mp h' with rfl | h''
            · exact hfits
            · exact hall o' h''⟩
        · intro h o' h'
          simp only [findFirstFitAux, hlk, hc, if_neg, Bool.not_eq_true, if_false] at h
          rcases List.mem_cons.mp h' with rfl | h''
          · exact hfits
          · exact ih.2 h o' h''
    | none =>
      have hfits : fitsB blocks r o0 = false := by simp [fitsB, hlk]
      constructor
      · intro o b h
        simp only [findFirstFitAux, hlk] at h
        obtain ⟨hl1, hl2, hl3, pre, post, hpre, hall⟩ := ih.1 o b h
        exact ⟨hl1, hl2, hl3, o0 :: pre, post, by rw [hpre]; rfl, by
          intro o' h'
          rcases List.mem_cons.mp h' with rfl | h''
          · exact hfits
          · exact hall o' h''⟩
      · intro h o' h'
        simp only [findFirstFitAux, hlk] at h
        rcases List.mem_cons.mp h' with rfl | h''
        · exact hfits
        · exact ih.2 h o' h''

/-- C3 (amended): First-Fit selects the first free block of sufficient size
in *free-list order* — where `addToFreeList` pushes at the head, so the
list is most-recently-inserted first — not in physical-offset order: the
returned block is free and large enough, every entry before it in the free
list fails the fit test, and when the scan fails no entry fits. -/
theorem C3_first_fit_list_order (s : MMState) (r : Nat) :
    (∀ o b, findFirstFit s r = some (o, b) →
      lookupBlock s.blocks o = some b ∧ b.is_free = true ∧ r ≤ b.size ∧
      ∃ pre post, s.freeList = pre ++ o :: post ∧ ∀ o' ∈ pre, fitsB s.blocks r o' = false) ∧
    (findFirstFit s r = none → ∀ o' ∈ s.freeList, fitsB s.blocks r o' = false) :=
  findFirstFitAux_spec s.blocks r s.freeList

/-- C3 (witness): the list-order characterisation applied to the concrete
scenario state `c3Pre` and request 90 (= `malloc 50` + header). -/
theorem C3_first_fit_list_order_witness :
    findFirstFit c3Pre 90 = some (280, { size := 3816, is_free := true, block_id := 3 }) ∧
    lookupBlock c3Pre.blocks 280 = some { size := 3816, is_free := true, block_id := 3 } :=
  ⟨by decide,
    ((C3_first_fit_list_order c3Pre 90).1 280
      { size := 3816, is_free := true, block_id := 3 } (by decide)).1⟩

/-- C3 (counterexample): in the state reached by
`malloc 100; malloc 100; malloc 100; free 1; free 3` on a fresh 4096-byte
First-Fit arena, the free list is `[280, 0]`, so `malloc 50` (required size
90) selects the free block at offset 280 (returning user pointer 320) even
though the free block at the lower offset 0 (size 140) also fits — the
scan follows free-list order, not physical-offset order as claimed. -/
theorem C3_counterexample :
    findFirstFit c3Pre 90 = some (280, { size := 3816, is_free := true, block_id := 3 }) ∧
    (allocate c3Pre 50).2 = some 320 ∧
    c3Pre.freeList = [280, 0] ∧
    lookupBlock c3Pre.blocks 0 = some { size := 140, is_free := true, block_id := 1 } ∧
    fitsB c3Pre.blocks 90 0 = true ∧
    (0 : Nat) < 280 := by
  refine ⟨by decide, by decide, by decide, by decide, by decide, by decide⟩

/-- C9 (counterexample): on the build's actual header size
(`sizeof(BlockHeader)` = 40 under g++/LP64, not the 32 the claim assumes),
the first `malloc 100` of the scenario returns user address 40, not 32. -/
theorem C9_counterexample :
    c9A.2 = some 40 ∧ ¬ c9A.2 = some 32 := by
  refine ⟨by decide, by decide⟩

/-- C9 (amended): in a freshly initialized 4096-byte arena under Best-Fit
with the build's header overhead H = `sizeof(BlockHeader)` = 40,
`malloc 100` returns id 1 at address 40 (block offset 0 plus H),
`malloc 200` returns id 2 at address 180 (offset 140 plus H), and after
`free 1`, `malloc 50` returns id 3 at address 40 again, occupying the
140-byte hole left by block 1 rather than the larger 3716-byte tail free
block (which stays free at offset 380). -/
theorem C9_best_fit_scenario :
    c9A.2 = some 40 ∧
    mapFind c9A.1.idToHeader 1 = some 0 ∧
    c9B.2 = some 180 ∧
    mapFind c9B.1.idToHeader 2 = some 140 ∧
    c9C.2 = FreeResult.ok ∧
    c9D.2 = some 40 ∧
    mapFind c9D.1.idToHeader 3 = some 0 ∧
    lookupBlock c9D.1.blocks 0 = some { size := 90, is_free := false, block_id := 3 } ∧
    lookupBlock c9D.1.blocks 380 = some { size := 3716, is_free := true, block_id := 0 } := by
  refine ⟨by decide, by decide, by decide, by decide, by decide, by decide, by decide,
    by decide, by decide⟩

theorem findBestFitAux_take (blocks : BlockMap) (sz : Nat) :
    ∀ (l : List Nat) (fuel : Nat) (acc : Option (Nat × BlockHeader)),
      findBestFitAux blocks sz l fuel acc = bestFitScanAll blocks sz (l.take fuel) acc := by
  intro l
  induction l with
  | nil =>
    intro fuel acc
    cases fuel <;> rfl
  | cons o rest ih =>
    intro fuel acc
    cases fuel with
    | zero => rfl
    | succ fuel' =>
      simp only [findBestFitAux, List.take_succ_cons, bestFitScanAll]
      exact ih fuel' _

theorem walkAux_take (blocks : BlockMap) (M : Nat) :
    ∀ (f1 f2 a : Nat), f1 ≤ f2 →
      walkAux blocks M a f1 = (walkAux blocks M a f2).take f1 := by
  intro f1
  induction f1 with
  | zero => intro f2 a _; rfl
  | succ f1 ih =>
    intro f2 a hle
    obtain ⟨f2', rfl⟩ : ∃ m, f2 = m + 1 := ⟨f2 - 1, by omega⟩
    cases hlk : lookupBlock blocks a with
    | none => simp [walkAux, hlk]
    | some b =>
      by_cases hin : a + b.size < M
      · simp only [walkAux, hlk, hin, if_pos, List.take_succ_cons]
        rw [ih f2' (a + b.size) (by omega)]
      · simp [walkAux, hlk, hin]

/-- C10: the allocator observers that walk a list are bounded by their hard
iteration caps and reflect only the inspected prefix: `findBestFit`
examines at most the first 10000 free-list entries, while
`getLargestFreeBlock`, the loop totals of `getExternalFragmentation`, and
`dumpMemory` examine at most the first 1000 physical blocks of the walk
(any deeper walk — fuel `n >= 1000` — gives the same result on its
1000-block prefix), silently ignoring everything beyond the cap. -/
theorem C10_observer_iteration_caps (s : MMState) (r n : Nat) (hn : 1000 ≤ n) :
    findBestFit s r = bestFitScanAll s.blocks r (s.freeList.take 10000) none ∧
    getLargestFreeBlock s =
      largestFreeOf ((walkBlocks s.blocks s.totalMemorySize n).take 1000) ∧
    getExternalFragTotals s =
      extFragTotalsOf ((walkBlocks s.blocks s.totalMemorySize n).take 1000) ∧
    dumpMemory s = dumpEntriesOf ((walkBlocks s.blocks s.totalMemorySize n).take 1000) := by
  have hwalk : walkBlocks s.blocks s.totalMemorySize 1000 =
      (walkBlocks s.blocks s.totalMemorySize n).take 1000 := by
    unfold walkBlocks
    by_cases hM : 0 < s.totalMemorySize
    · simp only [hM, if_pos]
      exact walkAux_take s.blocks s.totalMemorySize 1000 n 0 hn
    · simp [hM]
  refine ⟨findBestFitAux_take s.blocks r s.freeList 10000 none, ?_, ?_, ?_⟩
  · unfold getLargestFreeBlock
    rw [hwalk]
  · unfold getExternalFragTotals
    rw [hwalk]
  · unfold dumpMemory
    rw [hwalk]

/-- C10 (witness): the cap characterisation applied to a fresh 4096-byte
arena with request 100 and walk depth 1000. -/
theorem C10_observer_iteration_caps_witness :
    1000 ≤ 1000 ∧
    getLargestFreeBlock (mkMemoryManager 4096 .FIRST_FIT) =
      largestFreeOf ((walkBlocks (mkMemoryManager 4096 .FIRST_FIT).blocks
        (mkMemoryManager 4096 .FIRST_FIT).totalMemorySize 1000).take 1000) :=
  ⟨by decide,
    (C10_observer_iteration_caps (mkMemoryManager 4096 .FIRST_FIT) 100 1000 (by decide)).2.1⟩

theorem lookupBlock_mem : ∀ (m : BlockMap) (k : Nat) (v : BlockHeader),
    lookupBlock m k = some v → (k, v) ∈ m := by
  intro m
  induction m with
  | nil => intro k v h; simp [lookupBlock] at h
  | cons p rest ih =>
    intro k v h
    by_cases hk : p.1 = k
    · simp only [lookupBlock, hk] at h
      rw [show p = (p.1, p.2) from rfl, hk]
      simp only [beq_self_eq_true, if_pos] at h
      simp [← Option.some.inj h]
    · have hk' : (p.1 == k) = false := by simpa using hk
      rw [show p = (p.1, p.2) from rfl] at h
      simp only [lookupBlock, hk', Bool.false_eq_true, if_neg, not_false_iff] at h
      exact List.mem_cons_of_mem _ (ih k v h)

theorem lookupBlock_append_right : ∀ (A rest : BlockMap) (k : Nat),
    (∀ p ∈ A, p.1 ≠ k) → lookupBlock (A ++ rest) k = lookupBlock rest k := by
  intro A
  induction A with
  | nil => intro rest k _; rfl
  | cons p A' ih =>
    intro rest k hk
    have hne : (p.1 == k) = false := by
      simpa using hk p (List.mem_cons_self _ _)
    rw [show p = (p.1, p.2) from rfl]
    simp only [List.cons_append, lookupBlock, hne, Bool.false_eq_true, if_neg, not_false_iff]
    exact ih rest k (fun q hq => hk q (List.mem_cons_of_mem _ hq))

theorem lookupBlock_decomp (A B : BlockMap) (o : Nat) (b : BlockHeader)
    (hk : ∀ p ∈ A, p.1 ≠ o) : lookupBlock (A ++ (o, b) :: B) o = some b := by
  rw [lookupBlock_append_right A _ o hk]
  simp [lookupBlock]

theorem updateBlock_decomp (f : BlockHeader → BlockHeader) :
    ∀ (A B : BlockMap) (o : Nat) (b : BlockHeader), (∀ p ∈ A, p.1 ≠ o) →
      updateBlock (A ++ (o, b) :: B) o f = A ++ (o, f b) :: B := by
  intro A
  induction A with
  | nil =>
    intro B o b _
    simp [updateBlock]
  | cons p A' ih =>
    intro B o b hk
    have hne : (p.1 == o) = false := by
      simpa using hk p (List.mem_cons_self _ _)
    rw [show p = (p.1, p.2) from rfl]
    simp only [List.cons_append, updateBlock, hne, Bool.false_eq_true, if_neg, not_false_iff]
    exact congrArg (List.cons _) (ih B o b (fun q hq => hk q (List.mem_cons_of_mem _ hq)))

theorem eraseBlock_decomp : ∀ (A B : BlockMap) (o : Nat) (b : BlockHeader),
    (∀ p ∈ A, p.1 ≠ o) → eraseBlock (A ++ (o, b) :: B) o = A ++ B := by
  intro A
  induction A with
  | nil =>
    intro B o b _
    simp [eraseBlock]
  | cons p A' ih =>
    intro B o b hk
    have hne : (p.1 == o) = false := by
      simpa using hk p (List.mem_cons_self _ _)
    rw [show p = (p.1, p.2) from rfl]
    simp only [List.cons_append, eraseBlock, hne, Bool.false_eq_true, if_neg, not_false_iff]
    exact congrArg (List.cons _) (ih B o b (fun q hq => hk q (List.mem_cons_of_mem _ hq)))

theorem insertBlock_mid : ∀ (A : BlockMap) (o k : Nat) (b nb : BlockHeader) (B : BlockMap),
    (∀ p ∈ A, ¬ k < p.1) → ¬ k < o → (∀ p ∈ B, k < p.1) →
    insertBlock (A ++ (o, b) :: B) k nb = A ++ (o, b) :: (k, nb) :: B := by
  intro A
  induction A with
  | nil =>
    intro o k b nb B hA hk hB
    cases B with
    | nil => simp [insertBlock, hk]
    | cons q B' =>
      rw [show q = (q.1, q.2) from rfl]
      simp [insertBlock, hk, hB q (List.mem_cons_self _ _)]
  | cons p A' ih =>
    intro o k b nb B hA hk hB
    have hp : ¬ k < p.1 := hA p (List.mem_cons_self _ _)
    rw [show p = (p.1, p.2) from rfl]
    simp only [List.cons_append, insertBlock, hp, if_neg, not_false_iff]
    exact congrArg (List.cons _) (ih o k b nb B (fun q hq => hA q (List.mem_cons_of_mem _ hq)) hk hB)

theorem mapFind_insert_self (m : List (Nat × Nat)) (k v : Nat) :
    mapFind (mapInsert m k v) k = some v := by
  simp [mapInsert, mapFind]

theorem chainB_le : ∀ (m : BlockMap) (a M : Nat), chainB a m M = true → a ≤ M := by
  intro m
  induction m with
  | nil =>
    intro a M h
    have : a = M := by simpa [chainB] using h
    omega
  | cons q rest ih =>
    intro a M h
    rw [show q = (q.1, q.2) from rfl] at h
    simp only [chainB, Bool.and_eq_true, beq_iff_eq, ne_eq, bne_iff_ne] at h
    have := ih (a + q.2.size) M h.2
    omega

theorem chainB_keys : ∀ (m : BlockMap) (a M : Nat), chainB a m M = true →
    ∀ p ∈ m, a ≤ p.1 ∧ p.1 + p.2.size ≤ M ∧ 1 ≤ p.2.size := by
  intro m
  induction m with
  | nil => intro a M _ p hp; simp at hp
  | cons q rest ih =>
    intro a M hch p hp
    rw [show q = (q.1, q.2) from rfl] at hch
    simp only [chainB, Bool.and_eq_true, beq_iff_eq, ne_eq, bne_iff_ne] at hch
    obtain ⟨⟨hqa, hqsz⟩, hrest⟩ := hch
    rcases List.mem_cons.mp hp with heq | hp'
    · subst heq
      have hle := chainB_le _ _ _ hrest
      exact ⟨by omega, by omega, by omega⟩
    · obtain ⟨h1, h2, h3⟩ := ih (a + q.2.size) M hrest p hp'
      exact ⟨by omega, h2, h3⟩

theorem chainB_append_intro : ∀ (A : BlockMap) (a m : Nat) (rest : BlockMap) (M : Nat),
    chainB a A m = true → chainB m rest M = true → chainB a (A ++ rest) M = true := by
  intro A
  induction A with
  | nil =>
    intro a m rest M hA hrest
    simp only [chainB] at hA
    have : a = m := by simpa using hA
    simpa [this] using hrest
  | cons p A' ih =>
    intro a m rest M hA hrest
    rw [show p = (p.1, p.2) from rfl] at hA ⊢
    simp only [chainB, Bool.and_eq_true] at hA ⊢
    exact ⟨hA.1, ih _ _ _ _ hA.2 hrest⟩

theorem chainB_cons_elim (q : Nat × BlockHeader) (rest : BlockMap) (a M : Nat)
    (h : chainB a (q :: rest) M = true) :
    q.1 = a ∧ 1 ≤ q.2.size ∧ chainB (a + q.2.size) rest M = true := by
  rw [show q = (q.1, q.2) from rfl] at h
  simp only [chainB, Bool.and_eq_true, beq_iff_eq, ne_eq, bne_iff_ne] at h
  exact ⟨h.1.1, by omega, h.2⟩

theorem chainB_lookup_decomp : ∀ (m : BlockMap) (a M o : Nat) (b : BlockHeader),
    chainB a m M = true → lookupBlock m o = some b →
    ∃ A B, m = A ++ (o, b) :: B ∧ chainB a A o = true ∧
      chainB (o + b.size) B M = true ∧ (∀ p ∈ A, p.1 + p.2.size ≤ o ∧ 1 ≤ p.2.size) := by
  intro m
  induction m with
  | nil => intro a M o b _ hlk; simp [lookupBlock] at hlk
  | cons q rest ih =>
    intro a M o b hch hlk
    obtain ⟨hqa, hqsz, hrest⟩ := chainB_cons_elim q rest a M hch
    by_cases hk : q.1 = o
    · rw [show q = (q.1, q.2) from rfl] at hlk
      simp only [lookupBlock, hk, beq_self_eq_true, if_pos] at hlk
      have hb : q.2 = b := Option.some.inj hlk
      refine ⟨[], rest, ?_, ?_, ?_, ?_⟩
      · rw [show q = (q.1, q.2) from rfl, hk, hb]
        rfl
      · simp [chainB]
        omega
      · rw [← hb]
        rw [show o + q.2.size = a + q.2.size from by omega]
        exact hrest
      · intro p hp; simp at hp
    · rw [show q = (q.1, q.2) from rfl] at hlk
      have hk' : (q.1 == o) = false := by simpa using hk
      simp only [lookupBlock, hk', Bool.false_eq_true, if_neg, not_false_iff] at hlk
      obtain ⟨A, B, hmem, hA, hB, hbound⟩ := ih (a + q.2.size) M o b hrest hlk
      refine ⟨q :: A, B, by rw [show q = (q.1, q.2) from rfl, hmem]; rfl, ?_, hB, ?_⟩
      · rw [show q = (q.1, q.2) from rfl]
        simp only [chainB, Bool.and_eq_true, beq_iff_eq, ne_eq, bne_iff_ne]
        exact ⟨⟨hqa, by omega⟩, hA⟩
      · intro p hp
        have hao : a + q.2.size ≤ o := chainB_le A (a + q.2.size) o hA
        rcases List.mem_cons.mp hp with heq | hp'
        · subst heq
          exact ⟨by omega, by omega⟩
        · exact hbound p hp'

theorem findBestFitAux_sound (blocks : BlockMap) (sz : Nat) :
    ∀ (l : List Nat) (fuel : Nat) (acc : Option (Nat × BlockHeader)) (o : Nat) (b : BlockHeader),
      (∀ o' b', acc = some (o', b') →
        lookupBlock blocks o' = some b' ∧ b'.is_free = true ∧ sz ≤ b'.size) →
      findBestFitAux blocks sz l fuel acc = some (o, b) →
      lookupBlock blocks o = some b ∧ b.is_free = true ∧ sz ≤ b.size := by
  intro l
  induction l with
  | nil =>
    intro fuel acc o b hacc h
    cases fuel <;> exact hacc o b h
  | cons o0 rest ih =>
    intro fuel acc o b hacc h
    cases fuel with
    | zero => exact hacc o b h
    | succ fuel' =>
      simp only [findBestFitAux] at h
      refine ih fuel' _ o b ?_ h
      intro o' b' hacc'
      cases hlk : lookupBlock blocks o0 with
      | none =>
        rw [hlk] at hacc'
        exact hacc o' b' hacc'
      | some b0 =>
        rw [hlk] at hacc'
        by_cases hc : (b0.is_free && decide (sz ≤ b0.size)) = true
        · simp only [hc, if_pos] at hacc'
          simp only [Bool.and_eq_true, decide_eq_true_eq] at hc
          cases haccv : acc with
          | none =>
            rw [haccv] at hacc'
            have : o0 = o' ∧ b0 = b' := by
              constructor <;> [exact congrArg Prod.fst (Option.some.inj hacc');
                exact congrArg Prod.snd (Option.some.inj hacc')]
            rw [← this.1, ← this.2]
            exact ⟨hlk, hc.1, hc.2⟩
          | some ob =>
            rw [haccv] at hacc'
            by_cases ht : b0.size < ob.2.size
            · simp only [ht, if_pos] at hacc'
              have : o0 = o' ∧ b0 = b' := by
                constructor <;> [exact congrArg Prod.fst (Option.some.inj hacc');
                  exact congrArg Prod.snd (Option.some.inj hacc')]
              rw [← this.1, ← this.2]
              exact ⟨hlk, hc.1, hc.2⟩
            · simp only [ht, if_neg, not_false_iff] at hacc'
              exact hacc o' b' (haccv.trans hacc')
        · simp only [hc, if_neg, not_false_iff, Bool.not_eq_true] at hacc'
          exact hacc o' b' hacc'

theorem findWorstFitAux_sound (blocks : BlockMap) (sz : Nat) :
    ∀ (l : List Nat) (acc : Option (Nat × BlockHeader)) (o : Nat) (b : BlockHeader),
      (∀ o' b', acc = some (o', b') →
        lookupBlock blocks o' = some b' ∧ b'.is_free = true ∧ sz ≤ b'.size) →
      findWorstFitAux blocks sz l acc = some (o, b) →
      lookupBlock blocks o = some b ∧ b.is_free = true ∧ sz ≤ b.size := by
  intro l
  induction l with
  | nil => intro acc o b hacc h; exact hacc o b h
  | cons o0 rest ih =>
    intro acc o b hacc h
    simp only [findWorstFitAux] at h
    refine ih _ o b ?_ h
    intro o' b' hacc'
    cases hlk : lookupBlock blocks o0 with
    | none =>
      rw [hlk] at hacc'
      exact hacc o' b' hacc'
    | some b0 =>
      rw [hlk] at hacc'
      by_cases hc : (b0.is_free && decide (sz ≤ b0.size)) = true
      · simp only [hc, if_pos] at hacc'
        simp only [Bool.and_eq_true, decide_eq_true_eq] at hc
        cases haccv : acc with
        | none =>
          rw [haccv] at hacc'
          have : o0 = o' ∧ b0 = b' := by
            constructor <;> [exact congrArg Prod.fst (Option.some.inj hacc');
              exact congrArg Prod.snd (Option.some.inj hacc')]
          rw [← this.1, ← this.2]
          exact ⟨hlk, hc.1, hc.2⟩
        | some ob =>
          rw [haccv] at hacc'
          by_cases ht : ob.2.size < b0.size
          · simp only [ht, if_pos] at hacc'
            have : o0 = o' ∧ b0 = b' := by
              constructor <;> [exact congrArg Prod.fst (Option.some.inj hacc');
                exact congrArg Prod.snd (Option.some.inj hacc')]
            rw [← this.1, ← this.2]
            exact ⟨hlk, hc.1, hc.2⟩
          · simp only [ht, if_neg, not_false_iff] at hacc'
            exact hacc o' b' (haccv.trans hacc')
      · simp only [hc, if_neg, not_false_iff, Bool.not_eq_true] at hacc'
        exact hacc o' b' hacc'

theorem findPrevAux_sound (m : BlockMap) (M t : Nat) :
    ∀ (fuel cur : Nat) (p : Nat), findPrevAux m M t cur fuel = some p →
      ∃ pb, lookupBlock m p = some pb ∧ p + pb.size = t ∧ p ≠ t := by
  intro fuel
  induction fuel with
  | zero => intro cur p h; simp [findPrevAux] at h
  | succ fuel ih =>
    intro cur p h
    by_cases hct : cur = t
    · simp [findPrevAux, hct] at h
    · have hct' : (cur == t) = false := by simpa using hct
      simp only [findPrevAux, hct', Bool.false_eq_true, if_neg, not_false_iff] at h
      cases hlk : lookupBlock m cur with
      | none => rw [hlk] at h; simp at h
      | some b =>
        rw [hlk] at h
        by_cases hend : (cur + b.size == t) = true
        · simp only [hend, if_pos] at h
          have hp : cur = p := by simpa using h
          subst hp
          exact ⟨b, hlk, by simpa using hend, hct⟩
        · simp only [hend, if_neg, not_false_iff, Bool.not_eq_true] at h
          by_cases hin : cur + b.size < M
          · simp only [hin, if_pos] at h
            exact ih (cur + b.size) p h
          · simp [hin] at h

theorem addToFreeList_blocks (s : MMState) (o : Nat) : (addToFreeList s o).blocks = s.blocks := by
  simp only [addToFreeList, removeFromFreeList]
  split <;> rfl

theorem addToFreeList_totalMemorySize (s : MMState) (o : Nat) :
    (addToFreeList s o).totalMemorySize = s.totalMemorySize := by
  simp only [addToFreeList, removeFromFreeList]
  split <;> rfl

theorem addToFreeList_nextBlockId (s : MMState) (o : Nat) :
    (addToFreeList s o).nextBlockId = s.nextBlockId := by
  simp only [addToFreeList, removeFromFreeList]
  split <;> rfl

theorem addToFreeList_addressToHeader (s : MMState) (o : Nat) :
    (addToFreeList s o).addressToHeader = s.addressToHeader := by
  simp only [addToFreeList, removeFromFreeList]
  split <;> rfl

theorem addToFreeList_idToHeader (s : MMState) (o : Nat) :
    (addToFreeList s o).idToHeader = s.idToHeader := by
  simp only [addToFreeList, removeFromFreeList]
  split <;> rfl

theorem addToFreeList_idToRequestedSize (s : MMState) (o : Nat) :
    (addToFreeList s o).idToRequestedSize = s.idToRequestedSize := by
  simp only [addToFreeList, removeFromFreeList]
  split <;> rfl

theorem coalesceBlocks_of_none (fuel : Nat) (t t' : MMState) (o : Nat)
    (h : coalesceStep t o = (t', none)) : coalesceBlocks fuel t o = t' := by
  unfold coalesceBlocks
  rw [h]
  cases fuel <;> rfl

theorem deallocatePtr_ok_proj (t : MMState) (ptr o : Nat) (bu : BlockHeader)
    (hrange : ¬ t.totalMemorySize ≤ ptr)
    (haddr : mapFind t.addressToHeader ptr = some o)
    (hlk : lookupBlock t.blocks o = some bu)
    (hbu : bu.is_free = false) :
    (deallocatePtr t ptr).2 = FreeResult.ok ∧
    (deallocatePtr t ptr).1.blocks =
      (coalesceBlocks
        (addToFreeList
          { t with
            blocks := updateBlock t.blocks o (fun h => { h with is_free := true })
            totalAllocatedSize := t.totalAllocatedSize - (bu.size - headerSize)
            idToRequestedSize := mapErase t.idToRequestedSize bu.block_id } o).totalMemorySize
        (addToFreeList
          { t with
            blocks := updateBlock t.blocks o (fun h => { h with is_free := true })
            totalAllocatedSize := t.totalAllocatedSize - (bu.size - headerSize)
            idToRequestedSize := mapErase t.idToRequestedSize bu.block_id } o) o).blocks := by
  unfold deallocatePtr
  rw [if_neg hrange]
  simp only [haddr, hlk, hbu, Bool.false_eq_true, if_false]
  exact ⟨trivial, trivial⟩

theorem coalesceStep_no_merge (t : MMState) (o : Nat) (bf : BlockHeader)
    (hlk : lookupBlock t.blocks o = some bf)
    (hright : o + bf.size < t.totalMemorySize →
      ∃ nb, lookupBlock t.blocks (o + bf.size) = some nb ∧ nb.is_free = false)
    (hleft : ∀ p pb, lookupBlock t.blocks p = some pb → p + pb.size = o → p ≠ o →
      pb.is_free = false) :
    coalesceStep t o = (t, none) := by
  unfold coalesceStep
  simp only [hlk]
  by_cases hM : o + bf.size < t.totalMemorySize
  · obtain ⟨nb, hlk2, hnb⟩ := hright hM
    rw [if_pos hM]
    simp only [hlk2, hnb, Bool.false_eq_true, if_false]
    cases hfp : findPrevAux t.blocks t.totalMemorySize o 0 10000 with
    | none => simp [hfp]
    | some p =>
      obtain ⟨pb, hplk, hpend, hpne⟩ := findPrevAux_sound t.blocks t.totalMemorySize o 10000 0 p hfp
      simp [hfp, hplk, hleft p pb hplk hpend hpne]
  · rw [if_neg hM]
    cases hfp : findPrevAux t.blocks t.totalMemorySize o 0 10000 with
    | none => simp [hfp]
    | some p =>
      obtain ⟨pb, hplk, hpend, hpne⟩ := findPrevAux_sound t.blocks t.totalMemorySize o 10000 0 p hfp
      simp [hfp, hplk, hleft p pb hplk hpend hpne]

theorem coalesceStep_right_merge (t : MMState) (o : Nat) (bf nb : BlockHeader) (A B : BlockMap)
    (hbl : t.blocks = A ++ (o, bf) :: (o + bf.size, nb) :: B)
    (hA : ∀ p ∈ A, p.1 < o)
    (hsz : 1 ≤ bf.size)
    (hnb : nb.is_free = true)
    (hM : o + bf.size < t.totalMemorySize)
    (hleft : ∀ p pb,
      lookupBlock (A ++ (o, { bf with size := bf.size + nb.size }) :: B) p = some pb →
      p + pb.size = o → p ≠ o → pb.is_free = false) :
    coalesceStep t o =
      ({ t with
          blocks := A ++ (o, { bf with size := bf.size + nb.size }) :: B
          freeList := t.freeList.erase (o + bf.size) }, none) := by
  have hAne : ∀ p ∈ A, p.1 ≠ o := fun p hp => Nat.ne_of_lt (hA p hp)
  have hlk : lookupBlock t.blocks o = some bf := by
    rw [hbl]; exact lookupBlock_decomp A _ o bf hAne
  have hlk2 : lookupBlock t.blocks (o + bf.size) = some nb := by
    rw [hbl,
      show A ++ (o, bf) :: (o + bf.size, nb) :: B
        = (A ++ [(o, bf)]) ++ (o + bf.size, nb) :: B from by simp]
    refine lookupBlock_decomp _ _ _ _ ?_
    intro p hp
    rcases List.mem_append.mp hp with h | h
    · have := hA p h; omega
    · have hpe : p = (o, bf) := by simpa using h
      subst hpe
      show o ≠ o + bf.size
      omega
  have hupd : eraseBlock
      (updateBlock t.blocks o (fun h => { h with size := h.size + nb.size })) (o + bf.size)
      = A ++ (o, { bf with size := bf.size + nb.size }) :: B := by
    rw [hbl, updateBlock_decomp _ A _ o bf hAne]
    show eraseBlock
      (A ++ (o, { bf with size := bf.size + nb.size }) :: (o + bf.size, nb) :: B) (o + bf.size) = _
    rw [show A ++ (o, { bf with size := bf.size + nb.size }) :: (o + bf.size, nb) :: B
        = (A ++ [(o, { bf with size := bf.size + nb.size })]) ++ (o + bf.size, nb) :: B
        from by simp]
    rw [eraseBlock_decomp _ _ _ nb ?_]
    · simp
    · intro p hp
      rcases List.mem_append.mp hp with h | h
      · have := hA p h; omega
      · have hpe : p = (o, { bf with size := bf.size + nb.size }) := by simpa using h
        subst hpe
        show o ≠ o + bf.size
        omega
  unfold coalesceStep
  simp only [hlk, if_pos hM, hlk2, hnb, if_true, removeFromFreeList, hupd]
  cases hfp : findPrevAux (A ++ (o, { bf with size := bf.size + nb.size }) :: B)
      t.totalMemorySize o 0 10000 with
  | none => simp [hfp]
  | some p =>
    obtain ⟨pb, hplk, hpend, hpne⟩ := findPrevAux_sound _ _ _ 10000 0 p hfp
    simp [hfp, hplk, hleft p pb hplk hpend hpne]

theorem strategyFind_sound (s : MMState) (r o : Nat) (b : BlockHeader)
    (hfind : (match s.currentStrategy with
      | AllocationStrategy.FIRST_FIT => findFirstFitAux s.blocks r s.freeList
      | AllocationStrategy.BEST_FIT => findBestFitAux s.blocks r s.freeList 10000 none
      | AllocationStrategy.WORST_FIT => findWorstFitAux s.blocks r s.freeList none)
      = some (o, b)) :
    lookupBlock s.blocks o = some b ∧ b.is_free = true ∧ r ≤ b.size := by
  cases hst : s.currentStrategy <;> simp only [hst] at hfind
  · obtain ⟨h1, h2, h3, _⟩ := (findFirstFitAux_spec s.blocks r s.freeList).1 o b hfind
    exact ⟨h1, h2, h3⟩
  · exact findBestFitAux_sound s.blocks r s.freeList 10000 none o b
      (by intro o' b' h; simp at h) hfind
  · exact findWorstFitAux_sound s.blocks r s.freeList none o b
      (by intro o' b' h; simp at h) hfind

theorem allocate_find_none (s : MMState) (n : Nat)
    (hn : (n == 0) = false)
    (hfind : (match s.currentStrategy with
      | AllocationStrategy.FIRST_FIT => findFirstFitAux s.blocks (n + headerSize) s.freeList
      | AllocationStrategy.BEST_FIT => findBestFitAux s.blocks (n + headerSize) s.freeList 10000 none
      | AllocationStrategy.WORST_FIT => findWorstFitAux s.blocks (n + headerSize) s.freeList none)
      = none) :
    (allocate s n).2 = none := by
  cases hst : s.currentStrategy <;> simp only [hst] at hfind <;>
    simp [allocate, hn, hst, findFirstFit, findBestFit, findWorstFit, hfind]

theorem allocate_some_nosplit (s : MMState) (n o : Nat) (b : BlockHeader)
    (hn : (n == 0) = false)
    (hfind : (match s.currentStrategy with
      | AllocationStrategy.FIRST_FIT => findFirstFitAux s.blocks (n + headerSize) s.freeList
      | AllocationStrategy.BEST_FIT => findBestFitAux s.blocks (n + headerSize) s.freeList 10000 none
      | AllocationStrategy.WORST_FIT => findWorstFitAux s.blocks (n + headerSize) s.freeList none)
      = some (o, b))
    (hsp : ¬ (n + headerSize + headerSize + 8 ≤ b.size)) :
    (allocate s n).2 = some (o + headerSize) ∧
    (allocate s n).1.blocks
      = updateBlock s.blocks o (fun h => { h with is_free := false, block_id := s.nextBlockId }) ∧
    (allocate s n).1.totalMemorySize = s.totalMemorySize ∧
    (allocate s n).1.addressToHeader = mapInsert s.addressToHeader (o + headerSize) o := by
  cases hst : s.currentStrategy <;> simp only [hst] at hfind <;>
    simp [allocate, hn, hst, findFirstFit, findBestFit, findWorstFit, hfind, hsp,
      removeFromFreeList]

theorem allocate_some_split (s : MMState) (n o : Nat) (b : BlockHeader)
    (hn : (n == 0) = false)
    (hfind : (match s.currentStrategy with
      | AllocationStrategy.FIRST_FIT => findFirstFitAux s.blocks (n + headerSize) s.freeList
      | AllocationStrategy.BEST_FIT => findBestFitAux s.blocks (n + headerSize) s.freeList 10000 none
      | AllocationStrategy.WORST_FIT => findWorstFitAux s.blocks (n + headerSize) s.freeList none)
      = some (o, b))
    (hsp : n + headerSize + headerSize + 8 ≤ b.size) :
    (allocate s n).2 = some (o + headerSize) ∧
    (allocate s n).1.blocks
      = updateBlock
          (insertBlock (updateBlock s.blocks o (fun h => { h with size := n + headerSize }))
            (o + (n + headerSize))
            { size := b.size - (n + headerSize), is_free := true, block_id := 0 })
          o (fun h => { h with is_free := false, block_id := s.nextBlockId }) ∧
    (allocate s n).1.totalMemorySize = s.totalMemorySize ∧
    (allocate s n).1.addressToHeader = mapInsert s.addressToHeader (o + headerSize) o := by
  have hrem : ¬ (b.size - (n + headerSize) < headerSize + 8) := by
    simp only [headerSize] at hsp ⊢
    omega
  cases hst : s.currentStrategy <;> simp only [hst] at hfind <;>
    simp [allocate, hn, hst, findFirstFit, findBestFit, findWorstFit, hfind, hsp, hrem,
      splitBlock, addToFreeList_blocks, addToFreeList_totalMemorySize, addToFreeList_nextBlockId,
      addToFreeList_addressToHeader, removeFromFreeList]

theorem dealloc_after_alloc_nosplit (s t : MMState) (o bid : Nat) (b : BlockHeader)
    (A B : BlockMap)
    (hdec : s.blocks = A ++ (o, b) :: B)
    (hA : ∀ p ∈ A, p.1 + p.2.size ≤ o ∧ 1 ≤ p.2.size)
    (hB : chainB (o + b.size) B s.totalMemorySize = true)
    (hnaf : noAdjFree s.blocks)
    (hfree : b.is_free = true)
    (hbsz : 41 ≤ b.size)
    (hM : t.totalMemorySize = s.totalMemorySize)
    (hbl : t.blocks = A ++ (o, ⟨b.size, false, bid⟩) :: B)
    (haddr : mapFind t.addressToHeader (o + headerSize) = some o) :
    (deallocatePtr t (o + headerSize)).2 = FreeResult.ok ∧
    layout (deallocatePtr t (o + headerSize)).1 = layout s := by
  have hAne : ∀ p ∈ A, p.1 ≠ o := fun p hp => by have := hA p hp; omega
  have hoM : o + b.size ≤ s.totalMemorySize := chainB_le B (o + b.size) s.totalMemorySize hB
  have hrange : ¬ t.totalMemorySize ≤ o + headerSize := by
    rw [hM]; simp only [headerSize]; omega
  have hobmem : (o, b) ∈ s.blocks := by
    rw [hdec]; exact List.mem_append_right A (List.mem_cons_self _ _)
  have hlkt : lookupBlock t.blocks o = some ⟨b.size, false, bid⟩ := by
    rw [hbl]; exact lookupBlock_decomp A B o _ hAne
  obtain ⟨hok, hblres⟩ :=
    deallocatePtr_ok_proj t (o + headerSize) o ⟨b.size, false, bid⟩ hrange haddr hlkt rfl
  refine ⟨hok, ?_⟩
  set u : MMState := addToFreeList
    { t with
      blocks := updateBlock t.blocks o (fun h => { h with is_free := true })
      totalAllocatedSize :=
        t.totalAllocatedSize - ((⟨b.size, false, bid⟩ : BlockHeader).size - headerSize)
      idToRequestedSize :=
        mapErase t.idToRequestedSize (⟨b.size, false, bid⟩ : BlockHeader).block_id } o with hu
  have hub : u.blocks = A ++ (o, (⟨b.size, true, bid⟩ : BlockHeader)) :: B := by
    rw [hu, addToFreeList_blocks]
    show updateBlock t.blocks o (fun h => { h with is_free := true }) = _
    rw [hbl, updateBlock_decomp _ A B o _ hAne]
  have huM : u.totalMemorySize = s.totalMemorySize := by
    rw [hu, addToFreeList_totalMemorySize]; exact hM
  have hstep : coalesceStep u o = (u, none) := by
    apply coalesceStep_no_merge u o ⟨b.size, true, bid⟩
    · rw [hub]; exact lookupBlock_decomp A B o _ hAne
    · intro hlt
      have hlt' : o + b.size < s.totalMemorySize := by rw [← huM]; exact hlt
      show ∃ nb, lookupBlock u.blocks (o + b.size) = some nb ∧ nb.is_free = false
      cases B with
      | nil =>
        exfalso
        have : o + b.size = s.totalMemorySize := by simpa [chainB] using hB
        omega
      | cons q B' =>
        obtain ⟨hq1, hqsz, hrest⟩ := chainB_cons_elim q B' (o + b.size) s.totalMemorySize hB
        have hqmem : q ∈ s.blocks := by
          rw [hdec]
          exact List.mem_append_right A (List.mem_cons_of_mem _ (List.mem_cons_self _ _))
        have hno := hnaf (o, b) hobmem q hqmem (show o + b.size = q.1 by omega)
        have hqfree : q.2.is_free = false := by
          cases hqf : q.2.is_free with
          | false => rfl
          | true => exact absurd ⟨hfree, hqf⟩ hno
        have hq : q = (o + b.size, q.2) := by rw [← hq1]
        refine ⟨q.2, ?_, hqfree⟩
        rw [hub, hq]
        rw [show A ++ (o, (⟨b.size, true, bid⟩ : BlockHeader)) :: (o + b.size, q.2) :: B'
            = (A ++ [(o, (⟨b.size, true, bid⟩ : BlockHeader))]) ++ (o + b.size, q.2) :: B'
            from by simp]
        refine lookupBlock_decomp _ _ _ _ ?_
        intro p hp
        rcases List.mem_append.mp hp with h | h
        · have := hA p h; omega
        · have hpe : p = (o, (⟨b.size, true, bid⟩ : BlockHeader)) := by simpa using h
          subst hpe
          show o ≠ o + b.size
          omega
    · intro p pb hplk hpend hpne
      rw [hub] at hplk
      have hmem := lookupBlock_mem _ _ _ hplk
      have hmem' : (p, pb) ∈ s.blocks := by
        rw [hdec]
        rcases List.mem_append.mp hmem with h | h
        · exact List.mem_append_left _ h
        · rcases List.mem_cons.mp h with h' | h'
          · exact absurd (congrArg Prod.fst h') hpne
          · exact List.mem_append_right _ (List.mem_cons_of_mem _ h')
      have hno := hnaf (p, pb) hmem' (o, b) hobmem hpend
      cases hpf : pb.is_free with
      | false => rfl
      | true => exact absurd ⟨hpf, hfree⟩ hno
  have hco : coalesceBlocks u.totalMemorySize u o = u :=
    coalesceBlocks_of_none u.totalMemorySize u u o hstep
  simp only [layout]
  rw [hblres, hco, hub, hdec]
  simp [hfree]

theorem dealloc_after_alloc_split (s t : MMState) (o bid r : Nat) (b : BlockHeader)
    (A B : BlockMap)
    (hdec : s.blocks = A ++ (o, b) :: B)
    (hA : ∀ p ∈ A, p.1 + p.2.size ≤ o ∧ 1 ≤ p.2.size)
    (hB : chainB (o + b.size) B s.totalMemorySize = true)
    (hnaf : noAdjFree s.blocks)
    (hfree : b.is_free = true)
    (hr : 41 ≤ r)
    (hsp : r + 48 ≤ b.size)
    (hM : t.totalMemorySize = s.totalMemorySize)
    (hbl : t.blocks = A ++ (o, ⟨r, false, bid⟩) :: (o + r, ⟨b.size - r, true, 0⟩) :: B)
    (haddr : mapFind t.addressToHeader (o + headerSize) = some o) :
    (deallocatePtr t (o + headerSize)).2 = FreeResult.ok ∧
    layout (deallocatePtr t (o + headerSize)).1 = layout s := by
  have hAne : ∀ p ∈ A, p.1 ≠ o := fun p hp => by have := hA p hp; omega
  have hAlt : ∀ p ∈ A, p.1 < o := fun p hp => by have := hA p hp; omega
  have hoM : o + b.size ≤ s.totalMemorySize := chainB_le B (o + b.size) s.totalMemorySize hB
  have hrange : ¬ t.totalMemorySize ≤ o + headerSize := by
    rw [hM]; simp only [headerSize]; omega
  have hobmem : (o, b) ∈ s.blocks := by
    rw [hdec]; exact List.mem_append_right A (List.mem_cons_self _ _)
  have hlkt : lookupBlock t.blocks o = some ⟨r, false, bid⟩ := by
    rw [hbl]; exact lookupBlock_decomp A _ o _ hAne
  obtain ⟨hok, hblres⟩ :=
    deallocatePtr_ok_proj t (o + headerSize) o ⟨r, false, bid⟩ hrange haddr hlkt rfl
  refine ⟨hok, ?_⟩
  set u : MMState := addToFreeList
    { t with
      blocks := updateBlock t.blocks o (fun h => { h with is_free := true })
      totalAllocatedSize :=
        t.totalAllocatedSize - ((⟨r, false, bid⟩ : BlockHeader).size - headerSize)
      idToRequestedSize :=
        mapErase t.idToRequestedSize (⟨r, false, bid⟩ : BlockHeader).block_id } o with hu
  have hub : u.blocks
      = A ++ (o, (⟨r, true, bid⟩ : BlockHeader)) :: (o + r, (⟨b.size - r, true, 0⟩ : BlockHeader)) :: B := by
    rw [hu, addToFreeList_blocks]
    show updateBlock t.blocks o (fun h => { h with is_free := true }) = _
    rw [hbl, updateBlock_decomp _ A _ o _ hAne]
  have huM : u.totalMemorySize = s.totalMemorySize := by
    rw [hu, addToFreeList_totalMemorySize]; exact hM
  have hleft : ∀ p pb,
      lookupBlock (A ++ (o, { (⟨r, true, bid⟩ : BlockHeader) with
        size := (⟨r, true, bid⟩ : BlockHeader).size + (⟨b.size - r, true, 0⟩ : BlockHeader).size }) :: B)
        p = some pb →
      p + pb.size = o → p ≠ o → pb.is_free = false := by
    intro p pb hplk hpend hpne
    have hmem := lookupBlock_mem _ _ _ hplk
    have hmem' : (p, pb) ∈ s.blocks := by
      rw [hdec]
      rcases List.mem_append.mp hmem with h | h
      · exact List.mem_append_left _ h
      · rcases List.mem_cons.mp h with h' | h'
        · exact absurd (congrArg Prod.fst h') hpne
        · exact List.mem_append_right _ (List.mem_cons_of_mem _ h')
    have hno := hnaf (p, pb) hmem' (o, b) hobmem hpend
    cases hpf : pb.is_free with
    | false => rfl
    | true => exact absurd ⟨hpf, hfree⟩ hno
  have hstep := coalesceStep_right_merge u o ⟨r, true, bid⟩ ⟨b.size - r, true, 0⟩ A B
    (by rw [hub]) hAlt (show 1 ≤ r by omega) rfl
    (show o + r < u.totalMemorySize by rw [huM]; omega)
    hleft
  have hco := coalesceBlocks_of_none u.totalMemorySize u _ o hstep
  simp only [layout]
  rw [hblres, hco]
  show List.map _
    (A ++ (o, { (⟨r, true, bid⟩ : BlockHeader) with
      size := (⟨r, true, bid⟩ : BlockHeader).size + (⟨b.size - r, true, 0⟩ : BlockHeader).size }) :: B)
    = _
  rw [hdec]
  have hsz : r + (b.size - r) = b.size := by omega
  simp [hfree, hsz]

/-- C8: starting from a state satisfying the arena coverage invariant
(`chainB`) and the no-adjacent-free invariant, whenever `allocate n`
succeeds, immediately deallocating the returned pointer succeeds and
restores the physical block layout (offset, size, free/used status of every
block) of the pre-state exactly.  In the split case the freed block
re-absorbs the split-off remainder through the right-merge of
`coalesceBlocks`; a left merge never fires because the pre-state has no
free block ending at the chosen offset. -/
theorem C8_alloc_free_round_trip (s : MMState) (n ptr : Nat)
    (hch : chainB 0 s.blocks s.totalMemorySize = true)
    (hnaf : noAdjFree s.blocks)
    (hsucc : (allocate s n).2 = some ptr) :
    (deallocatePtr (allocate s n).1 ptr).2 = FreeResult.ok ∧
    layout (deallocatePtr (allocate s n).1 ptr).1 = layout s := by
  by_cases hn0 : (n == 0) = true
  · exfalso
    simp [allocate, hn0] at hsucc
  have hn : (n == 0) = false := by
    cases h : (n == 0) with
    | false => rfl
    | true => exact absurd h hn0
  have hn1 : 1 ≤ n := Nat.pos_of_ne_zero (by simpa using hn0)
  cases hfind : (match s.currentStrategy with
      | AllocationStrategy.FIRST_FIT => findFirstFitAux s.blocks (n + headerSize) s.freeList
      | AllocationStrategy.BEST_FIT => findBestFitAux s.blocks (n + headerSize) s.freeList 10000 none
      | AllocationStrategy.WORST_FIT => findWorstFitAux s.blocks (n + headerSize) s.freeList none)
    with
  | none =>
    exfalso
    rw [allocate_find_none s n hn hfind] at hsucc
    exact Option.noConfusion hsucc
  | some ob =>
    obtain ⟨o, b⟩ := ob
    obtain ⟨hlkb, hfree, hfit⟩ := strategyFind_sound s (n + headerSize) o b hfind
    obtain ⟨A, B, hdec, hchA, hchB, hA⟩ :=
      chainB_lookup_decomp s.blocks 0 s.totalMemorySize o b hch hlkb
    have hAne : ∀ p ∈ A, p.1 ≠ o := fun p hp => by have := hA p hp; omega
    have hr41 : 41 ≤ n + headerSize := by
      simp only [headerSize]
      omega
    by_cases hsp : n + headerSize + headerSize + 8 ≤ b.size
    · obtain ⟨h2, hbl0, hMt, hat⟩ := allocate_some_split s n o b hn hfind hsp
      have hptr : ptr = o + headerSize := by
        rw [hsucc] at h2
        exact Option.some.inj h2
      subst hptr
      have haddr : mapFind (allocate s n).1.addressToHeader (o + headerSize) = some o := by
        rw [hat]
        exact mapFind_insert_self _ _ _
      have hBkeys := chainB_keys B (o + b.size) s.totalMemorySize hchB
      have hbl : (allocate s n).1.blocks
          = A ++ (o, ⟨n + headerSize, false, s.nextBlockId⟩)
            :: (o + (n + headerSize), ⟨b.size - (n + headerSize), true, 0⟩) :: B := by
        rw [hbl0, hdec, updateBlock_decomp _ A B o b hAne,
          insertBlock_mid A o (o + (n + headerSize)) _ _ B
            (fun p hp => by have := hA p hp; omega)
            (by omega)
            (fun p hp => by have := (hBkeys p hp).1; omega),
          updateBlock_decomp _ A _ o _ hAne]
      exact dealloc_after_alloc_split s (allocate s n).1 o s.nextBlockId (n + headerSize) b A B
        hdec hA hchB hnaf hfree hr41
        (by simp only [headerSize] at hsp ⊢; omega)
        hMt hbl haddr
    · obtain ⟨h2, hbl0, hMt, hat⟩ := allocate_some_nosplit s n o b hn hfind hsp
      have hptr : ptr = o + headerSize := by
        rw [hsucc] at h2
        exact Option.some.inj h2
      subst hptr
      have haddr : mapFind (allocate s n).1.addressToHeader (o + headerSize) = some o := by
        rw [hat]
        exact mapFind_insert_self _ _ _
      have hbl : (allocate s n).1.blocks = A ++ (o, ⟨b.size, false, s.nextBlockId⟩) :: B := by
        rw [hbl0, hdec, updateBlock_decomp _ A B o b hAne]
      have hbsz : 41 ≤ b.size := by
        simp only [headerSize] at hfit
        omega
      exact dealloc_after_alloc_nosplit s (allocate s n).1 o s.nextBlockId b A B
        hdec hA hchB hnaf hfree hbsz hMt hbl haddr

/-- C8 (witness): the round trip at a concrete input — a fresh 4096-byte
First-Fit arena and `malloc 100`, whose pointer is 40 — with both
invariant hypotheses discharged by evaluation. -/
theorem C8_alloc_free_round_trip_witness :
    (chainB 0 (mkMemoryManager 4096 AllocationStrategy.FIRST_FIT).blocks
        (mkMemoryManager 4096 AllocationStrategy.FIRST_FIT).totalMemorySize = true) ∧
    noAdjFree (mkMemoryManager 4096 AllocationStrategy.FIRST_FIT).blocks ∧
    (allocate (mkMemoryManager 4096 AllocationStrategy.FIRST_FIT) 100).2 = some 40 ∧
    (deallocatePtr (allocate (mkMemoryManager 4096 AllocationStrategy.FIRST_FIT) 100).1 40).2
      = FreeResult.ok ∧
    layout (deallocatePtr
        (allocate (mkMemoryManager 4096 AllocationStrategy.FIRST_FIT) 100).1 40).1
      = layout (mkMemoryManager 4096 AllocationStrategy.FIRST_FIT) :=
  ⟨by decide, by decide, by decide,
    (C8_alloc_free_round_trip (mkMemoryManager 4096 AllocationStrategy.FIRST_FIT) 100 40
      (by decide) (by decide) (by decide)).1,
    (C8_alloc_free_round_trip (mkMemoryManager 4096 AllocationStrategy.FIRST_FIT) 100 40
      (by decide) (by decide) (by decide)).2⟩

theorem findPrevAux_self (m : BlockMap) (M o fuel : Nat) :
    findPrevAux m M o o fuel = none := by
  cases fuel with
  | zero => rfl
  | succ f => simp [findPrevAux]

theorem chainB_lookup_of_mem : ∀ (m : BlockMap) (a M : Nat), chainB a m M = true →
    ∀ p ∈ m, lookupBlock m p.1 = some p.2 := by
  intro m
  induction m with
  | nil => intro a M _ p hp; simp at hp
  | cons q rest ih =>
    intro a M hch p hp
    obtain ⟨hq1, hqsz, hrest⟩ := chainB_cons_elim q rest a M hch
    rcases List.mem_cons.mp hp with rfl | hp'
    · rw [show p = (p.1, p.2) from rfl]
      simp [lookupBlock]
    · have hbound := chainB_keys rest (a + q.2.size) M hrest p hp'
      have hne : (q.1 == p.1) = false := by
        have : q.1 ≠ p.1 := by omega
        simpa using this
      rw [show q = (q.1, q.2) from rfl]
      simp only [lookupBlock, hne, Bool.false_eq_true, if_neg, not_false_iff]
      exact ih (a + q.2.size) M hrest p hp'

theorem chainB_concat_elim : ∀ (A : BlockMap) (q : Nat × BlockHeader) (a M : Nat),
    chainB a (A ++ [q]) M = true →
    chainB a A q.1 = true ∧ q.1 + q.2.size = M ∧ 1 ≤ q.2.size := by
  intro A
  induction A with
  | nil =>
    intro q a M h
    obtain ⟨h1, h2, h3⟩ := chainB_cons_elim q [] a M h
    have hend : a + q.2.size = M := by simpa [chainB] using h3
    refine ⟨?_, by omega, h2⟩
    have : a = q.1 := by omega
    simp [chainB, this]
  | cons x A' ih =>
    intro q a M h
    obtain ⟨hx1, hxsz, hrest⟩ := chainB_cons_elim x (A' ++ [q]) a M (by simpa using h)
    obtain ⟨h1, h2, h3⟩ := ih q (a + x.2.size) M hrest
    refine ⟨?_, h2, h3⟩
    rw [show x = (x.1, x.2) from rfl]
    simp only [chainB, Bool.and_eq_true, beq_iff_eq, ne_eq, bne_iff_ne]
    exact ⟨⟨hx1, by omega⟩, h1⟩

theorem chainB_cons_intro (a M : Nat) (b : BlockHeader) (rest : BlockMap)
    (hsz : 1 ≤ b.size) (hrest : chainB (a + b.size) rest M = true) :
    chainB a ((a, b) :: rest) M = true := by
  simp only [chainB, Bool.and_eq_true, beq_iff_eq, ne_eq, bne_iff_ne]
  exact ⟨⟨trivial, by omega⟩, hrest⟩

theorem findPrevAux_complete : ∀ (A : BlockMap) (q : Nat × BlockHeader) (a o M fuel : Nat)
    (m : BlockMap),
    chainB a (A ++ [q]) o = true →
    (∀ p ∈ A ++ [q], lookupBlock m p.1 = some p.2) →
    o ≤ M →
    A.length + 1 ≤ fuel →
    findPrevAux m M o a fuel = some q.1 := by
  intro A
  induction A with
  | nil =>
    intro q a o M fuel m hch hlk hoM hfuel
    obtain ⟨hA, hend, hsz⟩ := chainB_concat_elim [] q a o hch
    have ha : a = q.1 := by simpa [chainB] using hA
    cases fuel with
    | zero => omega
    | succ f =>
      have hne : (a == o) = false := by
        have : a ≠ o := by omega
        simpa using this
      have hl : lookupBlock m a = some q.2 := by
        have h := hlk q (by simp)
        rwa [← ha] at h
      have heq : (a + q.2.size == o) = true := by
        have : a + q.2.size = o := by omega
        simpa using this
      simp only [findPrevAux, hne, Bool.false_eq_true, if_neg, not_false_iff, hl, heq, if_true]
      rw [ha]
  | cons x A' ih =>
    intro q a o M fuel m hch hlk hoM hfuel
    have hch' : chainB a (x :: (A' ++ [q])) o = true := by simpa using hch
    obtain ⟨hx1, hxsz, hrest⟩ := chainB_cons_elim x (A' ++ [q]) a o hch'
    have hlt : a + x.2.size < o := by
      cases hA'q : A' ++ [q] with
      | nil => exact absurd hA'q (by simp)
      | cons y ys =>
        rw [hA'q] at hrest
        obtain ⟨hy1, hysz, hyrest⟩ := chainB_cons_elim y ys _ o hrest
        have := chainB_le ys _ o hyrest
        omega
    cases fuel with
    | zero => simp at hfuel
    | succ f =>
      have hne : (a == o) = false := by
        have : a ≠ o := by omega
        simpa using this
      have hl : lookupBlock m a = some x.2 := by
        have h := hlk x (by simp)
        rwa [hx1] at h
      have hne2 : (a + x.2.size == o) = false := by
        have : a + x.2.size ≠ o := by omega
        simpa using this
      simp only [findPrevAux, hne, Bool.false_eq_true, if_neg, not_false_iff, hl, hne2]
      rw [if_pos (by omega : a + x.2.size < M)]
      refine ih q (a + x.2.size) o M f m hrest ?_ hoM ?_
      · intro p hp
        exact hlk p (List.mem_cons_of_mem x hp)
      · simp at hfuel
        omega

theorem coalesceBlocks_step_some (fuel : Nat) (t t' : MMState) (o p : Nat)
    (h : coalesceStep t o = (t', some p)) :
    coalesceBlocks (fuel + 1) t o = coalesceBlocks fuel t' p := by
  conv_lhs => rw [coalesceBlocks.eq_def]
  rw [h]

theorem noAdjFree_assemble (A B : BlockMap) (o : Nat) (bf : BlockHeader)
    (hAB : ∀ p q : Nat × BlockHeader, (p ∈ A ∨ p ∈ B) → (q ∈ A ∨ q ∈ B) →
      p.1 + p.2.size = q.1 → ¬(p.2.is_free = true ∧ q.2.is_free = true))
    (hAbound : ∀ p ∈ A, p.1 + p.2.size ≤ o ∧ 1 ≤ p.2.size)
    (hBlow : ∀ q ∈ B, o + bf.size ≤ q.1 ∧ 1 ≤ q.2.size)
    (hsz : 1 ≤ bf.size)
    (hlastA : ∀ p ∈ A, p.1 + p.2.size = o → p.2.is_free = false)
    (hheadB : ∀ q ∈ B, q.1 = o + bf.size → q.2.is_free = false) :
    noAdjFree (A ++ (o, bf) :: B) := by
  intro p hp q hq hadj hboth
  rcases List.mem_append.mp hp with hpA | hpMB
  · rcases List.mem_append.mp hq with hqA | hqMB
    · exact hAB p q (Or.inl hpA) (Or.inl hqA) hadj hboth
    · rcases List.mem_cons.mp hqMB with hqm | hqB
      · have hq1 : q.1 = o := by rw [hqm]
        have hnf := hlastA p hpA (by omega)
        simp [hnf] at hboth
      · exact hAB p q (Or.inl hpA) (Or.inr hqB) hadj hboth
  · rcases List.mem_cons.mp hpMB with hpm | hpB
    · have hp1 : p.1 = o := by rw [hpm]
      have hpsz : p.2.size = bf.size := by rw [hpm]
      rcases List.mem_append.mp hq with hqA | hqMB
      · have := hAbound q hqA
        omega
      · rcases List.mem_cons.mp hqMB with hqm | hqB
        · have hq1 : q.1 = o := by rw [hqm]
          omega
        · have hnf := hheadB q hqB (by omega)
          simp [hnf] at hboth
    · have hpb := hBlow p hpB
      rcases List.mem_append.mp hq with hqA | hqMB
      · have := hAbound q hqA
        omega
      · rcases List.mem_cons.mp hqMB with hqm | hqB
        · have hq1 : q.1 = o := by rw [hqm]
          omega
        · exact hAB p q (Or.inr hpB) (Or.inr hqB) hadj hboth

theorem coalesceStep_left_of_no_right (t : MMState) (o : Nat) (bf : BlockHeader)
    (p : Nat) (pb : BlockHeader)
    (hlk : lookupBlock t.blocks o = some bf)
    (hright : o + bf.size < t.totalMemorySize →
      ∃ nb, lookupBlock t.blocks (o + bf.size) = some nb ∧ nb.is_free = false)
    (hfp : findPrevAux t.blocks t.totalMemorySize o 0 10000 = some p)
    (hplk : lookupBlock t.blocks p = some pb)
    (hpfree : pb.is_free = true) :
    coalesceStep t o =
      ({ t with
          freeList := t.freeList.erase o
          blocks := eraseBlock
            (updateBlock t.blocks p (fun h => { h with size := h.size + bf.size })) o },
        some p) := by
  unfold coalesceStep
  simp only [hlk]
  by_cases hM : o + bf.size < t.totalMemorySize
  · obtain ⟨nb, hlk2, hnb⟩ := hright hM
    rw [if_pos hM]
    simp [hlk2, hnb, hlk, hfp, hplk, hpfree, removeFromFreeList]
  · rw [if_neg hM]
    simp [hlk, hfp, hplk, hpfree, removeFromFreeList]

theorem coalesceStep_right_left (t : MMState) (o : Nat) (bf nb : BlockHeader) (A B : BlockMap)
    (p : Nat) (pb : BlockHeader)
    (hbl : t.blocks = A ++ (o, bf) :: (o + bf.size, nb) :: B)
    (hA : ∀ x ∈ A, x.1 < o)
    (hsz : 1 ≤ bf.size)
    (hnb : nb.is_free = true)
    (hM : o + bf.size < t.totalMemorySize)
    (hfp : findPrevAux (A ++ (o, { bf with size := bf.size + nb.size }) :: B)
        t.totalMemorySize o 0 10000 = some p)
    (hplk : lookupBlock (A ++ (o, { bf with size := bf.size + nb.size }) :: B) p = some pb)
    (hpfree : pb.is_free = true) :
    coalesceStep t o =
      ({ t with
          freeList := (t.freeList.erase (o + bf.size)).erase o
          blocks := eraseBlock
            (updateBlock (A ++ (o, { bf with size := bf.size + nb.size }) :: B) p
              (fun h => { h with size := h.size + (bf.size + nb.size) })) o },
        some p) := by
  have hAne : ∀ x ∈ A, x.1 ≠ o := fun x hx => Nat.ne_of_lt (hA x hx)
  have hlk : lookupBlock t.blocks o = some bf := by
    rw [hbl]; exact lookupBlock_decomp A _ o bf hAne
  have hlk2 : lookupBlock t.blocks (o + bf.size) = some nb := by
    rw [hbl,
      show A ++ (o, bf) :: (o + bf.size, nb) :: B
        = (A ++ [(o, bf)]) ++ (o + bf.size, nb) :: B from by simp]
    refine lookupBlock_decomp _ _ _ _ ?_
    intro x hx
    rcases List.mem_append.mp hx with h | h
    · have := hA x h; omega
    · have hpe : x = (o, bf) := by simpa using h
      subst hpe
      show o ≠ o + bf.size
      omega
  have hupd : eraseBlock
      (updateBlock t.blocks o (fun h => { h with size := h.size + nb.size })) (o + bf.size)
      = A ++ (o, { bf with size := bf.size + nb.size }) :: B := by
    rw [hbl, updateBlock_decomp _ A _ o bf hAne]
    show eraseBlock
      (A ++ (o, { bf with size := bf.size + nb.size }) :: (o + bf.size, nb) :: B) (o + bf.size) = _
    rw [show A ++ (o, { bf with size := bf.size + nb.size }) :: (o + bf.size, nb) :: B
        = (A ++ [(o, { bf with size := bf.size + nb.size })]) ++ (o + bf.size, nb) :: B
        from by simp]
    rw [eraseBlock_decomp _ _ _ nb ?_]
    · simp
    · intro x hx
      rcases List.mem_append.mp hx with h | h
      · have := hA x h; omega
      · have hpe : x = (o, { bf with size := bf.size + nb.size }) := by simpa using h
        subst hpe
        show o ≠ o + bf.size
        omega
  have hlkm : lookupBlock (A ++ (o, { bf with size := bf.size + nb.size }) :: B) o
      = some { bf with size := bf.size + nb.size } :=
    lookupBlock_decomp A B o _ hAne
  unfold coalesceStep
  simp only [hlk, if_pos hM, hlk2, hnb, if_true, removeFromFreeList, hupd]
  simp [hlkm, hfp, hplk, hpfree]

theorem erase_update_left (A' : BlockMap) (q : Nat × BlockHeader) (o : Nat) (g : BlockHeader)
    (C : BlockMap) (d : Nat)
    (hA'lt : ∀ x ∈ A', x.1 < q.1)
    (hqlt : q.1 < o) :
    eraseBlock (updateBlock ((A' ++ [q]) ++ (o, g) :: C) q.1
        (fun h => { h with size := h.size + d })) o
      = A' ++ (q.1, { q.2 with size := q.2.size + d }) :: C := by
  rw [show (A' ++ [q]) ++ (o, g) :: C = A' ++ (q.1, q.2) :: (o, g) :: C from by simp]
  rw [updateBlock_decomp _ A' _ q.1 q.2 (fun x hx => Nat.ne_of_lt (hA'lt x hx))]
  show eraseBlock (A' ++ (q.1, { q.2 with size := q.2.size + d }) :: (o, g) :: C) o = _
  rw [show A' ++ (q.1, { q.2 with size := q.2.size + d }) :: (o, g) :: C
      = (A' ++ [(q.1, { q.2 with size := q.2.size + d })]) ++ (o, g) :: C from by simp]
  rw [eraseBlock_decomp _ _ _ g ?_]
  · simp
  · intro x hx
    rcases List.mem_append.mp hx with h | h
    · have := hA'lt x h; omega
    · have hpe : x = (q.1, { q.2 with size := q.2.size + d }) := by simpa using h
      subst hpe
      show q.1 ≠ o
      omega

theorem coalesceStep_after_left (w : MMState) (o : Nat) (g : BlockHeader) (A' : BlockMap)
    (q : Nat × BlockHeader) (C : BlockMap)
    (hwb : w.blocks = A' ++ (q.1, { q.2 with size := q.2.size + g.size }) :: C)
    (hchA : chainB 0 (A' ++ [q]) o = true)
    (hchC : chainB (o + g.size) C w.totalMemorySize = true)
    (hgsz : 1 ≤ g.size)
    (hqfree : q.2.is_free = true)
    (hheadC : ∀ x ∈ C, x.1 = o + g.size → x.2.is_free = false)
    (hPairs : ∀ p p' : Nat × BlockHeader, (p ∈ A' ++ [q] ∨ p ∈ C) → (p' ∈ A' ++ [q] ∨ p' ∈ C) →
      p.1 + p.2.size = p'.1 → ¬(p.2.is_free = true ∧ p'.2.is_free = true)) :
    coalesceStep w q.1 = (w, none) := by
  obtain ⟨hchA', hqend, hqsz⟩ := chainB_concat_elim A' q 0 o hchA
  have hA'rng := chainB_keys A' 0 q.1 hchA'
  have hCrng := chainB_keys C (o + g.size) w.totalMemorySize hchC
  have hA'ne : ∀ x ∈ A', x.1 ≠ q.1 := fun x hx => by have := hA'rng x hx; omega
  apply coalesceStep_no_merge w q.1 { q.2 with size := q.2.size + g.size }
  · rw [hwb]
    exact lookupBlock_decomp A' C q.1 _ hA'ne
  · intro hlt
    have hlt2 : q.1 + (q.2.size + g.size) < w.totalMemorySize := hlt
    show ∃ nb, lookupBlock w.blocks (q.1 + (q.2.size + g.size)) = some nb ∧ nb.is_free = false
    cases C with
    | nil =>
      exfalso
      have : o + g.size = w.totalMemorySize := by simpa [chainB] using hchC
      omega
    | cons x C' =>
      obtain ⟨hx1, hxsz, hxrest⟩ := chainB_cons_elim x C' (o + g.size) w.totalMemorySize hchC
      have hxfree : x.2.is_free = false := hheadC x (List.mem_cons_self _ _) (by omega)
      refine ⟨x.2, ?_, hxfree⟩
      rw [hwb, show q.1 + (q.2.size + g.size) = x.1 from by omega]
      rw [show A' ++ (q.1, { q.2 with size := q.2.size + g.size }) :: x :: C'
          = (A' ++ [(q.1, { q.2 with size := q.2.size + g.size })]) ++ x :: C' from by simp]
      rw [lookupBlock_append_right _ _ x.1 ?_]
      · rw [show x = (x.1, x.2) from rfl]
        simp [lookupBlock]
      · intro p hp
        rcases List.mem_append.mp hp with h | h
        · have := hA'rng p h; omega
        · have hpe : p = (q.1, { q.2 with size := q.2.size + g.size }) := by simpa using h
          subst hpe
          show q.1 ≠ x.1
          omega
  · intro p pb hplk hpend hpne
    rw [hwb] at hplk
    have hmem := lookupBlock_mem _ _ _ hplk
    rcases List.mem_append.mp hmem with h | h
    · have hno := hPairs (p, pb) q (Or.inl (List.mem_append_left [q] h))
        (Or.inl (by simp)) hpend
      cases hpf : pb.is_free with
      | false => rfl
      | true => exact absurd ⟨hpf, hqfree⟩ hno
    · rcases List.mem_cons.mp h with h' | h'
      · exact absurd (congrArg Prod.fst h') hpne
      · exfalso
        have := hCrng (p, pb) h'
        simp only at this
        omega

theorem left_merge_final_noAdjFree (o M : Nat) (g : BlockHeader) (A' : BlockMap)
    (q : Nat × BlockHeader) (C : BlockMap)
    (hchA : chainB 0 (A' ++ [q]) o = true)
    (hchC : chainB (o + g.size) C M = true)
    (hgsz : 1 ≤ g.size)
    (hqfree : q.2.is_free = true)
    (hheadC : ∀ x ∈ C, x.1 = o + g.size → x.2.is_free = false)
    (hPairs : ∀ p p' : Nat × BlockHeader, (p ∈ A' ++ [q] ∨ p ∈ C) → (p' ∈ A' ++ [q] ∨ p' ∈ C) →
      p.1 + p.2.size = p'.1 → ¬(p.2.is_free = true ∧ p'.2.is_free = true)) :
    noAdjFree (A' ++ (q.1, { q.2 with size := q.2.size + g.size }) :: C) := by
  obtain ⟨hchA', hqend, hqsz⟩ := chainB_concat_elim A' q 0 o hchA
  have hA'rng := chainB_keys A' 0 q.1 hchA'
  have hCrng := chainB_keys C (o + g.size) M hchC
  apply noAdjFree_assemble
  · intro p p' hp hp' hadj
    refine hPairs p p' ?_ ?_ hadj
    · rcases hp with h | h
      · exact Or.inl (List.mem_append_left [q] h)
      · exact Or.inr h
    · rcases hp' with h | h
      · exact Or.inl (List.mem_append_left [q] h)
      · exact Or.inr h
  · intro p hp
    have := hA'rng p hp
    exact ⟨by omega, by omega⟩
  · intro x hx
    have := hCrng x hx
    constructor
    · show q.1 + (q.2.size + g.size) ≤ x.1
      omega
    · omega
  · show 1 ≤ q.2.size + g.size
    omega
  · intro p hp hpend
    have hno := hPairs p q (Or.inl (List.mem_append_left [q] hp)) (Or.inl (by simp)) hpend
    cases hpf : p.2.is_free with
    | false => rfl
    | true => exact absurd ⟨hpf, hqfree⟩ hno
  · intro x hx hx1
    have hx1' : x.1 = q.1 + (q.2.size + g.size) := hx1
    exact hheadC x hx (by omega)

theorem coalesce_no_right_phase (u : MMState) (o : Nat) (g : BlockHeader) (A C : BlockMap)
    (hub : u.blocks = A ++ (o, g) :: C)
    (hchA : chainB 0 A o = true)
    (hchC : chainB (o + g.size) C u.totalMemorySize = true)
    (hgsz : 1 ≤ g.size)
    (hgfree : g.is_free = true)
    (hAlen : A.length ≤ 10000)
    (hPairs : ∀ p q : Nat × BlockHeader, (p ∈ A ∨ p ∈ C) → (q ∈ A ∨ q ∈ C) →
      p.1 + p.2.size = q.1 → ¬(p.2.is_free = true ∧ q.2.is_free = true))
    (hheadC : ∀ x ∈ C, x.1 = o + g.size → x.2.is_free = false) :
    noAdjFree (coalesceBlocks u.totalMemorySize u o).blocks := by
  have hArng := chainB_keys A 0 o hchA
  have hCrng := chainB_keys C (o + g.size) u.totalMemorySize hchC
  have hoM : o + g.size ≤ u.totalMemorySize := chainB_le C _ _ hchC
  have hAne : ∀ p ∈ A, p.1 ≠ o := fun p hp => by have := hArng p hp; omega
  have hlkuo : lookupBlock u.blocks o = some g := by
    rw [hub]; exact lookupBlock_decomp A C o g hAne
  have hrightOK : o + g.size < u.totalMemorySize →
      ∃ nb, lookupBlock u.blocks (o + g.size) = some nb ∧ nb.is_free = false := by
    intro hlt
    cases C with
    | nil =>
      exfalso
      have : o + g.size = u.totalMemorySize := by simpa [chainB] using hchC
      omega
    | cons x C' =>
      obtain ⟨hx1, hxsz, hxrest⟩ := chainB_cons_elim x C' _ _ hchC
      refine ⟨x.2, ?_, hheadC x (List.mem_cons_self _ _) (by omega)⟩
      rw [hub, show o + g.size = x.1 from by omega,
        show A ++ (o, g) :: x :: C' = (A ++ [(o, g)]) ++ x :: C' from by simp,
        lookupBlock_append_right _ _ x.1 ?_]
      · rw [show x = (x.1, x.2) from rfl]
        simp [lookupBlock]
      · intro p hp
        rcases List.mem_append.mp hp with hh | hh
        · have := hArng p hh; omega
        · have hpe : p = (o, g) := by simpa using hh
          subst hpe
          show o ≠ x.1
          omega
  rcases List.eq_nil_or_concat A with hAe | ⟨A', q, hAq⟩
  · subst hAe
    have ho : (0 : Nat) = o := by simpa [chainB] using hchA
    have hstep : coalesceStep u o = (u, none) := by
      apply coalesceStep_no_merge u o g hlkuo hrightOK
      intro p pb hplk hpend hpne
      rw [hub] at hplk
      have hmem := lookupBlock_mem _ _ _ hplk
      exfalso
      rcases (by simpa using hmem : p = o ∧ pb = g ∨ (p, pb) ∈ C) with h' | h'
      · exact hpne h'.1
      · have := hCrng (p, pb) h'
        simp only at this
        omega
    rw [coalesceBlocks_of_none _ _ _ _ hstep, hub]
    refine noAdjFree_assemble [] C o g hPairs (by intro p hp; simp at hp) ?_ hgsz
      (by intro p hp; simp at hp) hheadC
    intro x hx
    exact ⟨(hCrng x hx).1, (hCrng x hx).2.2⟩
  · rw [List.concat_eq_append] at hAq
    subst hAq
    obtain ⟨hchA', hqend, hqsz⟩ := chainB_concat_elim A' q 0 o hchA
    have hA'rng := chainB_keys A' 0 q.1 hchA'
    by_cases hqf : q.2.is_free = true
    · have hchMid : chainB o ((o, g) :: C) u.totalMemorySize = true :=
        chainB_cons_intro o _ g C hgsz hchC
      have hfull : chainB 0 ((A' ++ [q]) ++ (o, g) :: C) u.totalMemorySize = true :=
        chainB_append_intro (A' ++ [q]) 0 o _ _ hchA hchMid
      have hlkall := chainB_lookup_of_mem _ 0 _ hfull
      have hfp : findPrevAux u.blocks u.totalMemorySize o 0 10000 = some q.1 := by
        rw [hub]
        apply findPrevAux_complete A' q 0 o u.totalMemorySize 10000 _ hchA ?_ (by omega)
          (by simpa using hAlen)
        intro p hp
        exact hlkall p (List.mem_append_left _ hp)
      have hplkq : lookupBlock u.blocks q.1 = some q.2 := by
        rw [hub]
        exact hlkall q (List.mem_append_left _ (by simp))
      have hstep := coalesceStep_left_of_no_right u o g q.1 q.2 hlkuo hrightOK hfp hplkq hqf
      obtain ⟨f, hf⟩ : ∃ f, u.totalMemorySize = f + 1 := ⟨u.totalMemorySize - 1, by omega⟩
      rw [hf, coalesceBlocks_step_some f u _ o q.1 hstep]
      have hwbl : eraseBlock (updateBlock u.blocks q.1
          (fun h => { h with size := h.size + g.size })) o
          = A' ++ (q.1, { q.2 with size := q.2.size + g.size }) :: C := by
        rw [hub]
        exact erase_update_left A' q o g C g.size
          (fun x hx => by have := hA'rng x hx; omega) (by omega)
      have hstep2 : coalesceStep
          { u with
            freeList := u.freeList.erase o
            blocks := eraseBlock (updateBlock u.blocks q.1
              (fun h => { h with size := h.size + g.size })) o } q.1
          = ({ u with
              freeList := u.freeList.erase o
              blocks := eraseBlock (updateBlock u.blocks q.1
                (fun h => { h with size := h.size + g.size })) o }, none) := by
        apply coalesceStep_after_left _ o g A' q C
        · exact hwbl
        · exact hchA
        · exact hchC
        · exact hgsz
        · exact hqf
        · exact hheadC
        · exact hPairs
      rw [coalesceBlocks_of_none f _ _ q.1 hstep2]
      show noAdjFree (eraseBlock (updateBlock u.blocks q.1
        (fun h => { h with size := h.size + g.size })) o)
      rw [hwbl]
      exact left_merge_final_noAdjFree o u.totalMemorySize g A' q C hchA hchC hgsz hqf
        hheadC hPairs
    · have hstep : coalesceStep u o = (u, none) := by
        apply coalesceStep_no_merge u o g hlkuo hrightOK
        intro p pb hplk hpend hpne
        rw [hub] at hplk
        have hmem := lookupBlock_mem _ _ _ hplk
        rcases List.mem_append.mp hmem with h | h
        · rcases List.mem_append.mp h with h2 | h2
          · exfalso
            have := hA'rng (p, pb) h2
            simp only at this
            omega
          · have hpe : ((p, pb) : Nat × BlockHeader) = q := by simpa using h2
            have hpb : pb = q.2 := congrArg Prod.snd hpe
            rw [hpb]
            cases hq2f : q.2.is_free with
            | false => rfl
            | true => exact absurd hq2f hqf
        · rcases List.mem_cons.mp h with h' | h'
          · exact absurd (congrArg Prod.fst h') hpne
          · exfalso
            have := hCrng (p, pb) h'
            simp only at this
            omega
      rw [coalesceBlocks_of_none _ _ _ _ hstep, hub]
      refine noAdjFree_assemble (A' ++ [q]) C o g hPairs ?_ ?_ hgsz ?_ hheadC
      · intro p hp
        have := hArng p hp
        exact ⟨by omega, by omega⟩
      · intro x hx
        exact ⟨(hCrng x hx).1, (hCrng x hx).2.2⟩
      · intro p hp hpend
        rcases List.mem_append.mp hp with h2 | h2
        · exfalso
          have := hA'rng p h2
          omega
        · have hpe : p = q := by simpa using h2
          subst hpe
          cases hq2f : p.2.is_free with
          | false => rfl
          | true => exact absurd hq2f hqf

theorem coalesce_right_phase (u : MMState) (o : Nat) (bf h2 : BlockHeader) (A B' : BlockMap)
    (hub : u.blocks = A ++ (o, bf) :: (o + bf.size, h2) :: B')
    (hchA : chainB 0 A o = true)
    (hchB' : chainB (o + bf.size + h2.size) B' u.totalMemorySize = true)
    (hbsz : 1 ≤ bf.size)
    (hbfree : bf.is_free = true)
    (hh2sz : 1 ≤ h2.size)
    (hh2free : h2.is_free = true)
    (hAlen : A.length ≤ 10000)
    (hPairs : ∀ p q : Nat × BlockHeader, (p ∈ A ∨ p ∈ B') → (q ∈ A ∨ q ∈ B') →
      p.1 + p.2.size = q.1 → ¬(p.2.is_free = true ∧ q.2.is_free = true))
    (hheadB' : ∀ x ∈ B', x.1 = o + bf.size + h2.size → x.2.is_free = false) :
    noAdjFree (coalesceBlocks u.totalMemorySize u o).blocks := by
  have hArng := chainB_keys A 0 o hchA
  have hB'rng := chainB_keys B' (o + bf.size + h2.size) u.totalMemorySize hchB'
  have hoM : o + bf.size + h2.size ≤ u.totalMemorySize := chainB_le B' _ _ hchB'
  have hAlt : ∀ p ∈ A, p.1 < o := fun p hp => by have := hArng p hp; omega
  have hM : o + bf.size < u.totalMemorySize := by omega
  have hg1sz : 1 ≤ ({ bf with size := bf.size + h2.size } : BlockHeader).size := by
    show 1 ≤ bf.size + h2.size
    omega
  have hchC1 : chainB (o + ({ bf with size := bf.size + h2.size } : BlockHeader).size) B'
      u.totalMemorySize = true := by
    show chainB (o + (bf.size + h2.size)) B' u.totalMemorySize = true
    rw [show o + (bf.size + h2.size) = o + bf.size + h2.size from by omega]
    exact hchB'
  have hheadC1 : ∀ x ∈ B', x.1 = o + ({ bf with size := bf.size + h2.size } : BlockHeader).size →
      x.2.is_free = false := by
    intro x hx hx1
    have hx1' : x.1 = o + (bf.size + h2.size) := hx1
    exact hheadB' x hx (by omega)
  rcases List.eq_nil_or_concat A with hAe | ⟨A', q, hAq⟩
  · subst hAe
    have ho : (0 : Nat) = o := by simpa [chainB] using hchA
    have hleft : ∀ p pb,
        lookupBlock ([] ++ (o, { bf with size := bf.size + h2.size }) :: B') p = some pb →
        p + pb.size = o → p ≠ o → pb.is_free = false := by
      intro p pb hplk hpend hpne
      have hmem := lookupBlock_mem _ _ _ hplk
      exfalso
      rcases (by simpa using hmem :
          p = o ∧ pb = { bf with size := bf.size + h2.size } ∨ (p, pb) ∈ B') with h' | h'
      · exact hpne h'.1
      · have := hB'rng (p, pb) h'
        simp only at this
        omega
    have hstep := coalesceStep_right_merge u o bf h2 [] B' hub (by intro x hx; simp at hx)
      hbsz hh2free hM hleft
    rw [coalesceBlocks_of_none _ _ _ _ hstep]
    show noAdjFree ([] ++ (o, { bf with size := bf.size + h2.size }) :: B')
    refine noAdjFree_assemble [] B' o _ hPairs (by intro p hp; simp at hp) ?_ hg1sz
      (by intro p hp; simp at hp) hheadC1
    intro x hx
    have := hB'rng x hx
    constructor
    · show o + (bf.size + h2.size) ≤ x.1
      omega
    · omega
  · rw [List.concat_eq_append] at hAq
    subst hAq
    obtain ⟨hchA', hqend, hqsz⟩ := chainB_concat_elim A' q 0 o hchA
    have hA'rng := chainB_keys A' 0 q.1 hchA'
    by_cases hqf : q.2.is_free = true
    · have hchMid : chainB o ((o, { bf with size := bf.size + h2.size }) :: B')
          u.totalMemorySize = true :=
        chainB_cons_intro o _ _ B' hg1sz hchC1
      have hfull : chainB 0
          ((A' ++ [q]) ++ (o, { bf with size := bf.size + h2.size }) :: B')
          u.totalMemorySize = true :=
        chainB_append_intro (A' ++ [q]) 0 o _ _ hchA hchMid
      have hlkall := chainB_lookup_of_mem _ 0 _ hfull
      have hfp : findPrevAux
          ((A' ++ [q]) ++ (o, { bf with size := bf.size + h2.size }) :: B')
          u.totalMemorySize o 0 10000 = some q.1 := by
        apply findPrevAux_complete A' q 0 o u.totalMemorySize 10000 _ hchA ?_ (by omega)
          (by simpa using hAlen)
        intro p hp
        exact hlkall p (List.mem_append_left _ hp)
      have hplkq : lookupBlock
          ((A' ++ [q]) ++ (o, { bf with size := bf.size + h2.size }) :: B') q.1 = some q.2 :=
        hlkall q (List.mem_append_left _ (by simp))
      have hstep := coalesceStep_right_left u o bf h2 (A' ++ [q]) B' q.1 q.2 hub hAlt
        hbsz hh2free hM hfp hplkq hqf
      obtain ⟨f, hf⟩ : ∃ f, u.totalMemorySize = f + 1 := ⟨u.totalMemorySize - 1, by omega⟩
      rw [hf, coalesceBlocks_step_some f u _ o q.1 hstep]
      have hwbl : eraseBlock (updateBlock
          ((A' ++ [q]) ++ (o, { bf with size := bf.size + h2.size }) :: B') q.1
          (fun h => { h with size := h.size + (bf.size + h2.size) })) o
          = A' ++ (q.1, { q.2 with size := q.2.size + (bf.size + h2.size) }) :: B' :=
        erase_update_left A' q o _ B' (bf.size + h2.size)
          (fun x hx => by have := hA'rng x hx; omega) (by omega)
      have hstep2 : coalesceStep
          { u with
            freeList := (u.freeList.erase (o + bf.size)).erase o
            blocks := eraseBlock (updateBlock
              ((A' ++ [q]) ++ (o, { bf with size := bf.size + h2.size }) :: B') q.1
              (fun h => { h with size := h.size + (bf.size + h2.size) })) o } q.1
          = ({ u with
              freeList := (u.freeList.erase (o + bf.size)).erase o
              blocks := eraseBlock (updateBlock
                ((A' ++ [q]) ++ (o, { bf with size := bf.size + h2.size }) :: B') q.1
                (fun h => { h with size := h.size + (bf.size + h2.size) })) o }, none) := by
        apply coalesceStep_after_left _ o { bf with size := bf.size + h2.size } A' q B'
        · exact hwbl
        · exact hchA
        · exact hchC1
        · exact hg1sz
        · exact hqf
        · exact hheadC1
        · exact hPairs
      rw [coalesceBlocks_of_none f _ _ q.1 hstep2]
      show noAdjFree (eraseBlock (updateBlock
        ((A' ++ [q]) ++ (o, { bf with size := bf.size + h2.size }) :: B') q.1
        (fun h => { h with size := h.size + (bf.size + h2.size) })) o)
      rw [hwbl]
      exact left_merge_final_noAdjFree o u.totalMemorySize
        { bf with size := bf.size + h2.size } A' q B' hchA hchC1 hg1sz hqf hheadC1 hPairs
    · have hleft : ∀ p pb,
          lookupBlock ((A' ++ [q]) ++ (o, { bf with size := bf.size + h2.size }) :: B') p
            = some pb →
          p + pb.size = o → p ≠ o → pb.is_free = false := by
        intro p pb hplk hpend hpne
        have hmem := lookupBlock_mem _ _ _ hplk
        rcases List.mem_append.mp hmem with h | h
        · rcases List.mem_append.mp h with h2m | h2m
          · exfalso
            have := hA'rng (p, pb) h2m
            simp only at this
            omega
          · have hpe : ((p, pb) : Nat × BlockHeader) = q := by simpa using h2m
            have hpb : pb = q.2 := congrArg Prod.snd hpe
            rw [hpb]
            cases hq2f : q.2.is_free with
            | false => rfl
            | true => exact absurd hq2f hqf
        · rcases List.mem_cons.mp h with h' | h'
          · exact absurd (congrArg Prod.fst h') hpne
          · exfalso
            have := hB'rng (p, pb) h'
            simp only at this
            omega
      have hstep := coalesceStep_right_merge u o bf h2 (A' ++ [q]) B' hub hAlt hbsz
        hh2free hM hleft
      rw [coalesceBlocks_of_none _ _ _ _ hstep]
      show noAdjFree ((A' ++ [q]) ++ (o, { bf with size := bf.size + h2.size }) :: B')
      refine noAdjFree_assemble (A' ++ [q]) B' o _ hPairs ?_ ?_ hg1sz ?_ hheadC1
      · intro p hp
        have := hArng p hp
        exact ⟨by omega, by omega⟩
      · intro x hx
        have := hB'rng x hx
        constructor
        · show o + (bf.size + h2.size) ≤ x.1
          omega
        · omega
      · intro p hp hpend
        rcases List.mem_append.mp hp with h2m | h2m
        · exfalso
          have := hA'rng p h2m
          omega
        · have hpe : p = q := by simpa using h2m
          subst hpe
          cases hq2f : p.2.is_free with
          | false => rfl
          | true => exact absurd hq2f hqf

theorem deallocatePtr_noAdjFree (s : MMState) (ptr : Nat)
    (hch : chainB 0 s.blocks s.totalMemorySize = true)
    (hnaf : noAdjFree s.blocks)
    (hlen : s.blocks.length ≤ 10001) :
    noAdjFree (deallocatePtr s ptr).1.blocks := by
  by_cases hr : s.totalMemorySize ≤ ptr
  · unfold deallocatePtr
    rw [if_pos hr]
    exact hnaf
  cases haddr : mapFind s.addressToHeader ptr with
  | none =>
    unfold deallocatePtr
    rw [if_neg hr]
    simp only [haddr]
    exact hnaf
  | some o =>
    cases hlk : lookupBlock s.blocks o with
    | none =>
      unfold deallocatePtr
      rw [if_neg hr]
      simp only [haddr, hlk]
      exact hnaf
    | some bold =>
      by_cases hbf : bold.is_free = true
      · unfold deallocatePtr
        rw [if_neg hr]
        simp only [haddr, hlk, hbf, if_true]
        exact hnaf
      · have hbf' : bold.is_free = false := by
          cases hb : bold.is_free with
          | false => rfl
          | true => exact absurd hb hbf
        obtain ⟨hok, hblres⟩ := deallocatePtr_ok_proj s ptr o bold hr haddr hlk hbf'
        rw [hblres]
        obtain ⟨A, B, hdec, hchA, hchB, hAb⟩ :=
          chainB_lookup_decomp s.blocks 0 s.totalMemorySize o bold hch hlk
        set u : MMState := addToFreeList
          { s with
            blocks := updateBlock s.blocks o (fun h => { h with is_free := true })
            totalAllocatedSize := s.totalAllocatedSize - (bold.size - headerSize)
            idToRequestedSize := mapErase s.idToRequestedSize bold.block_id } o with hu
        have hub : u.blocks = A ++ (o, (⟨bold.size, true, bold.block_id⟩ : BlockHeader)) :: B := by
          rw [hu, addToFreeList_blocks]
          show updateBlock s.blocks o (fun h => { h with is_free := true }) = _
          rw [hdec, updateBlock_decomp _ A B o bold (fun p hp => by have := hAb p hp; omega)]
        have huM : u.totalMemorySize = s.totalMemorySize := by
          rw [hu, addToFreeList_totalMemorySize]
        have hAlen : A.length ≤ 10000 := by
          have hl : s.blocks.length = A.length + (B.length + 1) := by
            rw [hdec]; simp
          omega
        have hobm : (o, bold) ∈ s.blocks := by
          rw [hdec]
          exact List.mem_append_right _ (List.mem_cons_self _ _)
        have hboldsz : 1 ≤ bold.size := by
          obtain ⟨h1, h2, h3⟩ := chainB_keys s.blocks 0 s.totalMemorySize hch (o, bold) hobm
          exact h3
        have hPairs : ∀ p q : Nat × BlockHeader, (p ∈ A ∨ p ∈ B) → (q ∈ A ∨ q ∈ B) →
            p.1 + p.2.size = q.1 → ¬(p.2.is_free = true ∧ q.2.is_free = true) := by
          intro p q hp hq hadj
          have hpm : p ∈ s.blocks := by
            rw [hdec]
            rcases hp with h | h
            · exact List.mem_append_left _ h
            · exact List.mem_append_right _ (List.mem_cons_of_mem _ h)
          have hqm : q ∈ s.blocks := by
            rw [hdec]
            rcases hq with h | h
            · exact List.mem_append_left _ h
            · exact List.mem_append_right _ (List.mem_cons_of_mem _ h)
          exact hnaf p hpm q hqm hadj
        cases B with
        | nil =>
          apply coalesce_no_right_phase u o ⟨bold.size, true, bold.block_id⟩ A [] hub hchA
            ?_ hboldsz rfl hAlen ?_ (by intro x hx; simp at hx)
          · show chainB (o + bold.size) ([] : BlockMap) u.totalMemorySize = true
            rw [huM]
            exact hchB
          · intro p q hp hq hadj
            refine hPairs p q ?_ ?_ hadj
            · rcases hp with h | h
              · exact Or.inl h
              · simp at h
            · rcases hq with h | h
              · exact Or.inl h
              · simp at h
        | cons h0 B' =>
          obtain ⟨hh1, hh2sz, hhrest⟩ :=
            chainB_cons_elim h0 B' (o + bold.size) s.totalMemorySize hchB
          have hh0m : h0 ∈ s.blocks := by
            rw [hdec]
            exact List.mem_append_right _
              (List.mem_cons_of_mem _ (List.mem_cons_self _ _))
          by_cases hhf : h0.2.is_free = true
          · have hub2 : u.blocks
                = A ++ (o, (⟨bold.size, true, bold.block_id⟩ : BlockHeader))
                  :: (o + bold.size, h0.2) :: B' := by
              rw [hub, show h0 = (o + bold.size, h0.2) from by rw [← hh1]]
            have hafter : ∀ x ∈ B', x.1 = o + bold.size + h0.2.size →
                x.2.is_free = false := by
              intro x hx hx1
              have hxm : x ∈ s.blocks := by
                rw [hdec]
                exact List.mem_append_right _
                  (List.mem_cons_of_mem _ (List.mem_cons_of_mem _ hx))
              have hno := hnaf h0 hh0m x hxm (by omega)
              cases hxf : x.2.is_free with
              | false => rfl
              | true => exact absurd ⟨hhf, hxf⟩ hno
            apply coalesce_right_phase u o ⟨bold.size, true, bold.block_id⟩ h0.2 A B' hub2
              hchA ?_ hboldsz rfl hh2sz hhf hAlen ?_ ?_
            · show chainB (o + bold.size + h0.2.size) B' u.totalMemorySize = true
              rw [huM]
              exact hhrest
            · intro p q hp hq hadj
              refine hPairs p q ?_ ?_ hadj
              · rcases hp with h | h
                · exact Or.inl h
                · exact Or.inr (List.mem_cons_of_mem _ h)
              · rcases hq with h | h
                · exact Or.inl h
                · exact Or.inr (List.mem_cons_of_mem _ h)
            · exact hafter
          · have hheadC : ∀ x ∈ h0 :: B', x.1 = o + bold.size → x.2.is_free = false := by
              intro x hx hx1
              rcases List.mem_cons.mp hx with h' | h'
              · rw [h']
                cases hh0f : h0.2.is_free with
                | false => rfl
                | true => exact absurd hh0f hhf
              · exfalso
                have := chainB_keys B' _ _ hhrest x h'
                omega
            apply coalesce_no_right_phase u o ⟨bold.size, true, bold.block_id⟩ A (h0 :: B')
              hub hchA ?_ hboldsz rfl hAlen hPairs ?_
            · show chainB (o + bold.size) (h0 :: B') u.totalMemorySize = true
              rw [huM]
              exact hchB
            · exact hheadC

/-- C5 (amended): deallocation preserves the no-adjacent-free invariant on
every well-formed arena in which at most 10000 physical blocks precede any
block (block count at most 10001): for such a state, after any
`deallocate` call — by pointer or by id, successful or not — no two
physically adjacent blocks are both free.  The bound is needed because the
predecessor search of `coalesceBlocks` gives up after `maxIterations =
10000` blocks, leaving the freed block unmerged with a free left
neighbour beyond the cap. -/
theorem C5_no_adjacent_free (s : MMState) (ptr bid : Nat)
    (hch : chainB 0 s.blocks s.totalMemorySize = true)
    (hnaf : noAdjFree s.blocks)
    (hlen : s.blocks.length ≤ 10001) :
    noAdjFree (deallocatePtr s ptr).1.blocks ∧
    noAdjFree (deallocateById s bid).1.blocks := by
  refine ⟨deallocatePtr_noAdjFree s ptr hch hnaf hlen, ?_⟩
  unfold deallocateById
  cases hid : mapFind s.idToHeader bid with
  | none =>
    simp only [hid]
    exact hnaf
  | some o2 =>
    simp only [hid]
    exact deallocatePtr_noAdjFree s (o2 + headerSize) hch hnaf hlen

/-- C5 (witness): the invariant-preservation theorem applied at the
concrete First-Fit scenario state `c3Pre` (three blocks, one used), freeing
the middle block by pointer (180) and by id (2). -/
theorem C5_no_adjacent_free_witness :
    (chainB 0 c3Pre.blocks c3Pre.totalMemorySize = true ∧ noAdjFree c3Pre.blocks ∧
      c3Pre.blocks.length ≤ 10001) ∧
    noAdjFree (deallocatePtr c3Pre 180).1.blocks ∧
    noAdjFree (deallocateById c3Pre 2).1.blocks :=
  ⟨⟨by decide, by decide, by decide⟩,
    C5_no_adjacent_free c3Pre 180 2 (by decide) (by decide) (by decide)⟩

theorem lookupBlock_append_left : ∀ (A B : BlockMap) (k : Nat) (v : BlockHeader),
    lookupBlock A k = some v → lookupBlock (A ++ B) k = some v := by
  intro A
  induction A with
  | nil => intro B k v h; simp [lookupBlock] at h
  | cons p A' ih =>
    intro B k v h
    rw [show p = (p.1, p.2) from rfl] at h ⊢
    by_cases hk : (p.1 == k) = true
    · simp only [lookupBlock, hk, if_pos] at h
      simp only [List.cons_append, lookupBlock, hk, if_pos]
      exact h
    · have hk' : (p.1 == k) = false := by
        cases hb : (p.1 == k) with
        | false => rfl
        | true => exact absurd hb hk
      simp only [lookupBlock, hk', Bool.false_eq_true, if_neg, not_false_iff] at h
      simp only [List.cons_append, lookupBlock, hk', Bool.false_eq_true, if_neg, not_false_iff]
      exact ih B k v h

theorem uniRun_mem : ∀ (k o : Nat) (p : Nat × BlockHeader), p ∈ uniRun k o →
    o ≤ p.1 ∧ p.1 + 48 ≤ o + 48 * k ∧ p.2 = usedHdr 1 := by
  intro k
  induction k with
  | zero => intro o p hp; simp [uniRun] at hp
  | succ k ih =>
    intro o p hp
    rcases List.mem_cons.mp hp with h | h
    · subst h
      refine ⟨le_refl _, ?_, rfl⟩
      simp only
      omega
    · obtain ⟨h1, h2, h3⟩ := ih (o + 48) p h
      exact ⟨by omega, by omega, h3⟩

theorem uniRun_lookup : ∀ (k o i : Nat), i < k →
    lookupBlock (uniRun k o) (o + 48 * i) = some (usedHdr 1) := by
  intro k
  induction k with
  | zero => intro o i h; omega
  | succ k ih =>
    intro o i h
    cases i with
    | zero =>
      rw [show o + 48 * 0 = o from by omega]
      simp [uniRun, lookupBlock]
    | succ j =>
      have hne : (o == o + 48 * (j + 1)) = false := by
        have : o ≠ o + 48 * (j + 1) := by omega
        simpa using this
      simp only [uniRun, lookupBlock, hne, Bool.false_eq_true, if_neg, not_false_iff]
      rw [show o + 48 * (j + 1) = (o + 48) + 48 * j from by omega]
      exact ih (o + 48) j (by omega)

theorem c5_findPrev_exhaust : ∀ j : Nat, j ≤ 10000 →
    findPrevAux c5Post 480096 480048 (48 * (10000 - j)) j = none := by
  intro j
  induction j with
  | zero => intro _; rfl
  | succ j ih =>
    intro hj
    have hne : ((48 * (10000 - (j + 1)) : Nat) == 480048) = false := by
      have : 48 * (10000 - (j + 1)) ≠ 480048 := by omega
      simpa using this
    have hlkc : lookupBlock c5Post (48 * (10000 - (j + 1))) = some (usedHdr 1) := by
      show lookupBlock (uniRun 10000 0 ++ _) _ = _
      apply lookupBlock_append_left
      rw [show (48 * (10000 - (j + 1)) : Nat) = 0 + 48 * (9999 - j) from by omega]
      exact uniRun_lookup 10000 0 (9999 - j) (by omega)
    have hne2 : ((48 * (10000 - (j + 1)) + (usedHdr 1).size : Nat) == 480048) = false := by
      show ((48 * (10000 - (j + 1)) + 48 : Nat) == 480048) = false
      have : 48 * (10000 - (j + 1)) + 48 ≠ 480048 := by omega
      simpa using this
    simp only [findPrevAux, hne, Bool.false_eq_true, if_neg, not_false_iff, hlkc, hne2]
    rw [if_pos (show 48 * (10000 - (j + 1)) + (usedHdr 1).size < 480096 from by
      show 48 * (10000 - (j + 1)) + 48 < 480096
      omega)]
    rw [show (48 * (10000 - (j + 1)) + (usedHdr 1).size : Nat) = 48 * (10000 - j) from by
      show (48 * (10000 - (j + 1)) + 48 : Nat) = 48 * (10000 - j)
      omega]
    exact ih (by omega)

theorem coalesceStep_none_of_caps (t : MMState) (o : Nat) (bf : BlockHeader)
    (hlk : lookupBlock t.blocks o = some bf)
    (hnr : ¬ (o + bf.size < t.totalMemorySize))
    (hfp : findPrevAux t.blocks t.totalMemorySize o 0 10000 = none) :
    coalesceStep t o = (t, none) := by
  unfold coalesceStep
  simp only [hlk]
  rw [if_neg hnr]
  simp [hfp]

/-- C5 (counterexample to the unqualified claim): in the state `c5Pre` —
10000 allocated blocks followed by a free block at 480000 and an allocated
block at 480048 — freeing pointer 480088 succeeds, yet the resulting arena
has two physically adjacent free blocks (480000 and 480048): the
predecessor search of `coalesceBlocks` exhausts its 10000-iteration cap
before reaching the free left neighbour, so no merge happens. -/
theorem C5_counterexample :
    (deallocatePtr c5Pre 480088).2 = FreeResult.ok ∧
    ¬ noAdjFree (deallocatePtr c5Pre 480088).1.blocks := by
  have hblocks : c5Pre.blocks = uniRun 10000 0 ++
      [(480000, { size := 48, is_free := true, block_id := 0 }),
       (480048, { size := 48, is_free := false, block_id := 777 })] := rfl
  have hc5post : c5Post = uniRun 10000 0 ++
      [(480000, { size := 48, is_free := true, block_id := 0 }),
       (480048, { size := 48, is_free := true, block_id := 777 })] := rfl
  have hAkeys : ∀ p ∈ uniRun 10000 0 ++
      [((480000 : Nat), ({ size := 48, is_free := true, block_id := 0 } : BlockHeader))],
      p.1 ≠ 480048 := by
    intro p hp
    rcases List.mem_append.mp hp with h | h
    · have := uniRun_mem 10000 0 p h
      omega
    · have hpe : p = (480000, ({ size := 48, is_free := true, block_id := 0 } : BlockHeader)) := by
        simpa using h
      subst hpe
      show (480000 : Nat) ≠ 480048
      omega
  have hrange : ¬ c5Pre.totalMemorySize ≤ 480088 := by
    show ¬ ((480096 : Nat) ≤ 480088)
    omega
  have haddr : mapFind c5Pre.addressToHeader 480088 = some 480048 := rfl
  have hassoc1 : uniRun 10000 0 ++
      [((480000 : Nat), ({ size := 48, is_free := true, block_id := 0 } : BlockHeader)),
       ((480048 : Nat), ({ size := 48, is_free := false, block_id := 777 } : BlockHeader))]
      = (uniRun 10000 0 ++
        [(480000, { size := 48, is_free := true, block_id := 0 })]) ++
        (480048, ({ size := 48, is_free := false, block_id := 777 } : BlockHeader)) :: [] := by
    simp
  have hassoc2 : uniRun 10000 0 ++
      [((480000 : Nat), ({ size := 48, is_free := true, block_id := 0 } : BlockHeader)),
       ((480048 : Nat), ({ size := 48, is_free := true, block_id := 777 } : BlockHeader))]
      = (uniRun 10000 0 ++
        [(480000, { size := 48, is_free := true, block_id := 0 })]) ++
        (480048, ({ size := 48, is_free := true, block_id := 777 } : BlockHeader)) :: [] := by
    simp
  have hlk : lookupBlock c5Pre.blocks 480048 = some ⟨48, false, 777⟩ := by
    rw [hblocks, hassoc1]
    exact lookupBlock_decomp _ _ _ _ hAkeys
  obtain ⟨hok, hblres⟩ :=
    deallocatePtr_ok_proj c5Pre 480088 480048 ⟨48, false, 777⟩ hrange haddr hlk rfl
  refine ⟨hok, ?_⟩
  rw [hblres]
  set u : MMState := addToFreeList
    { c5Pre with
      blocks := updateBlock c5Pre.blocks 480048 (fun h => { h with is_free := true })
      totalAllocatedSize :=
        c5Pre.totalAllocatedSize - ((⟨48, false, 777⟩ : BlockHeader).size - headerSize)
      idToRequestedSize :=
        mapErase c5Pre.idToRequestedSize (⟨48, false, 777⟩ : BlockHeader).block_id } 480048
    with hu
  have hub : u.blocks = c5Post := by
    rw [hu, addToFreeList_blocks]
    show updateBlock c5Pre.blocks 480048 (fun h => { h with is_free := true }) = c5Post
    rw [hblocks, hassoc1, updateBlock_decomp _ _ _ _ _ hAkeys, hc5post]
    simp
  have huM : u.totalMemorySize = 480096 := by
    rw [hu, addToFreeList_totalMemorySize]
    rfl
  have hlku : lookupBlock u.blocks 480048 = some ⟨48, true, 777⟩ := by
    rw [hub, hc5post, hassoc2]
    exact lookupBlock_decomp _ _ _ _ hAkeys
  have hfp : findPrevAux u.blocks u.totalMemorySize 480048 0 10000 = none := by
    rw [hub, huM]
    have h := c5_findPrev_exhaust 10000 (le_refl _)
    rw [show (48 * (10000 - 10000) : Nat) = 0 from by omega] at h
    exact h
  have hstep : coalesceStep u 480048 = (u, none) := by
    apply coalesceStep_none_of_caps u 480048 ⟨48, true, 777⟩ hlku ?_ hfp
    rw [huM]
    show ¬ ((480048 + 48 : Nat) < 480096)
    omega
  rw [coalesceBlocks_of_none _ _ _ _ hstep, hub]
  intro hno
  have h1 : ((480000, ({ size := 48, is_free := true, block_id := 0 } : BlockHeader))
      : Nat × BlockHeader) ∈ c5Post := by
    rw [hc5post]
    exact List.mem_append_right _ (by simp)
  have h2 : ((480048, ({ size := 48, is_free := true, block_id := 777 } : BlockHeader))
      : Nat × BlockHeader) ∈ c5Post := by
    rw [hc5post]
    exact List.mem_append_right _ (by simp)
  exact absurd ⟨rfl, rfl⟩ (hno _ h1 _ h2 (by show (480000 + 48 : Nat) = 480048; omega))
